import Mathlib

/-!
Verification of the symbolic cost-comparison engine of cozy
(`cozy/cost_model.py`).

The development shallowly embeds the cost model: the expression language
(an external collaborator of the core, `cozy.target_syntax`) is modelled
as an inductive type carrying exactly the variants the cost model
consumes; the SMT facade (`cozy.solver`) is modelled as an abstract
function parameter that may answer a query or report "unknown"; the
stateful bottom-up cost visitor (`CompositeCostModel`) becomes explicit
state passing over a scratch-state record.  Machine floats of the source
(`secondary`) are modelled as exact rationals.
-/

/-- Modelled from the spec: the external type language of expressions
(integers, booleans, reals, bags, maps, functions).  `TReal` exists only
for the real-domain relaxation retry in `Cost.always`. -/
inductive Ty where
  | TInt
  | TBool
  | TReal
  | TBag (t : Ty)
  | TMap (k v : Ty)
  | TFun (a b : Ty)
  | TUnit
  deriving DecidableEq, Repr

/-- Modelled from the spec: the external expression language
(`cozy.target_syntax`), restricted to the variants the cost model
dispatches on.  Variables carry their type; binary and unary operators
carry their operator name as a string, mirroring the source's
`EBinOp(e1, op, e2)` / `EUnaryOp(op, e)`. -/
inductive Exp where
  | ENum (n : Int)
  | EBool (b : Bool)
  | EVar (id : Nat) (ty : Ty)
  | EBinOp (e1 : Exp) (op : String) (e2 : Exp)
  | EUnaryOp (op : String) (e : Exp)
  | EEmptyList (t : Ty)
  | ESingleton (e : Exp)
  | ECond (c t f : Exp)
  | ELambda (arg : Nat) (argTy : Ty) (body : Exp)
  | EMap (e f : Exp)
  | EFilter (e p : Exp)
  | EFlatMap (e f : Exp)
  | EArgMin (e f : Exp)
  | EArgMax (e f : Exp)
  | EMakeMap2 (e v : Exp)
  | EMapGet (m k : Exp)
  | EStateVar (e : Exp)
  | EDropFront (e : Exp)
  | EDropBack (e : Exp)
  deriving DecidableEq, Repr

/-- `ZERO` of the source (`ENum(0).with_type(INT)`). -/
def ZERO : Exp := Exp.ENum 0

/-- `ONE` of the source. -/
def ONE : Exp := Exp.ENum 1

/-- `TWO = ENum(2)` (cost_model.py:251). -/
def TWO : Exp := Exp.ENum 2

/-- `EXTREME_COST = ENum(1000)` (cost_model.py:249). -/
def EXTREME_COST : Exp := Exp.ENum 1000

/-- `MILD_PENALTY = ENum(10)` (cost_model.py:250). -/
def MILD_PENALTY : Exp := Exp.ENum 10

/-- The true constant `T` of the source's syntax tools. -/
def ETRUE : Exp := Exp.EBool true

/-- `isinstance(e, ENum)` test of the source. -/
def isENum : Exp → Bool
  | Exp.ENum _ => true
  | _ => false

/-- Value of a numeric literal (`e.val` in the source; junk elsewhere). -/
def numVal : Exp → Int
  | Exp.ENum n => n
  | _ => 0

/-- Node count of an expression (`e.size()` of the external syntax
module; used by `statecost` and the simple cost model). -/
def sizeE : Exp → Nat
  | Exp.ENum _ => 1
  | Exp.EBool _ => 1
  | Exp.EVar _ _ => 1
  | Exp.EBinOp a _ b => sizeE a + sizeE b + 1
  | Exp.EUnaryOp _ a => sizeE a + 1
  | Exp.EEmptyList _ => 1
  | Exp.ESingleton a => sizeE a + 1
  | Exp.ECond a b c => sizeE a + sizeE b + sizeE c + 1
  | Exp.ELambda _ _ b => sizeE b + 1
  | Exp.EMap a b => sizeE a + sizeE b + 1
  | Exp.EFilter a b => sizeE a + sizeE b + 1
  | Exp.EFlatMap a b => sizeE a + sizeE b + 1
  | Exp.EArgMin a b => sizeE a + sizeE b + 1
  | Exp.EArgMax a b => sizeE a + sizeE b + 1
  | Exp.EMakeMap2 a b => sizeE a + sizeE b + 1
  | Exp.EMapGet a b => sizeE a + sizeE b + 1
  | Exp.EStateVar a => sizeE a + 1
  | Exp.EDropFront a => sizeE a + 1
  | Exp.EDropBack a => sizeE a + 1

/-- Return type of a function type (helper for `typeOf`). -/
def retTy : Ty → Ty
  | Ty.TFun _ b => b
  | _ => Ty.TUnit

/-- Element type of a bag type (helper for `typeOf`). -/
def elemTy : Ty → Ty
  | Ty.TBag t => t
  | _ => Ty.TUnit

/-- Value type of a map type (helper for `typeOf`). -/
def valTy : Ty → Ty
  | Ty.TMap _ v => v
  | _ => Ty.TUnit

/-- Modelled from the spec: the static type of an expression (`e.type`
in the source, where every node carries its type).  Computed
structurally here; comparison and arithmetic operators are int/bool
typed, `+`/`-` preserve the left operand's (possibly collection)
type. -/
def typeOf : Exp → Ty
  | Exp.ENum _ => Ty.TInt
  | Exp.EBool _ => Ty.TBool
  | Exp.EVar _ ty => ty
  | Exp.EBinOp a op _ =>
      if op = "+" || op = "-" then typeOf a
      else if op = "*" then Ty.TInt
      else Ty.TBool
  | Exp.EUnaryOp op a =>
      if op = "len" || op = "sum" then Ty.TInt
      else if op = "distinct" then typeOf a
      else Ty.TBool
  | Exp.EEmptyList t => Ty.TBag t
  | Exp.ESingleton a => Ty.TBag (typeOf a)
  | Exp.ECond _ b _ => typeOf b
  | Exp.ELambda _ t b => Ty.TFun t (typeOf b)
  | Exp.EMap _ f => Ty.TBag (retTy (typeOf f))
  | Exp.EFilter a _ => typeOf a
  | Exp.EFlatMap _ f => retTy (typeOf f)
  | Exp.EArgMin a _ => elemTy (typeOf a)
  | Exp.EArgMax a _ => elemTy (typeOf a)
  | Exp.EMakeMap2 a v => Ty.TMap (elemTy (typeOf a)) (retTy (typeOf v))
  | Exp.EMapGet m _ => valTy (typeOf m)
  | Exp.EStateVar a => typeOf a
  | Exp.EDropFront a => typeOf a
  | Exp.EDropBack a => typeOf a

/-- `is_collection` of the external typecheck module. -/
def isCollection : Ty → Bool
  | Ty.TBag _ => true
  | _ => false

/-- All variable identifiers occurring in an expression (free, bound and
binder positions alike). -/
def varIds : Exp → List Nat
  | Exp.ENum _ => []
  | Exp.EBool _ => []
  | Exp.EVar id _ => [id]
  | Exp.EBinOp a _ b => varIds a ++ varIds b
  | Exp.EUnaryOp _ a => varIds a
  | Exp.EEmptyList _ => []
  | Exp.ESingleton a => varIds a
  | Exp.ECond a b c => varIds a ++ varIds b ++ varIds c
  | Exp.ELambda x _ b => x :: varIds b
  | Exp.EMap a b => varIds a ++ varIds b
  | Exp.EFilter a b => varIds a ++ varIds b
  | Exp.EFlatMap a b => varIds a ++ varIds b
  | Exp.EArgMin a b => varIds a ++ varIds b
  | Exp.EArgMax a b => varIds a ++ varIds b
  | Exp.EMakeMap2 a b => varIds a ++ varIds b
  | Exp.EMapGet a b => varIds a ++ varIds b
  | Exp.EStateVar a => varIds a
  | Exp.EDropFront a => varIds a
  | Exp.EDropBack a => varIds a

/-- Free variables with their types, in occurrence order and possibly
with duplicates (helper for `freeVars`). -/
def freeVarsL : Exp → List (Nat × Ty)
  | Exp.ENum _ => []
  | Exp.EBool _ => []
  | Exp.EVar id ty => [(id, ty)]
  | Exp.EBinOp a _ b => freeVarsL a ++ freeVarsL b
  | Exp.EUnaryOp _ a => freeVarsL a
  | Exp.EEmptyList _ => []
  | Exp.ESingleton a => freeVarsL a
  | Exp.ECond a b c => freeVarsL a ++ freeVarsL b ++ freeVarsL c
  | Exp.ELambda x _ b => (freeVarsL b).filter (fun p => p.1 ≠ x)
  | Exp.EMap a b => freeVarsL a ++ freeVarsL b
  | Exp.EFilter a b => freeVarsL a ++ freeVarsL b
  | Exp.EFlatMap a b => freeVarsL a ++ freeVarsL b
  | Exp.EArgMin a b => freeVarsL a ++ freeVarsL b
  | Exp.EArgMax a b => freeVarsL a ++ freeVarsL b
  | Exp.EMakeMap2 a b => freeVarsL a ++ freeVarsL b
  | Exp.EMapGet a b => freeVarsL a ++ freeVarsL b
  | Exp.EStateVar a => freeVarsL a
  | Exp.EDropFront a => freeVarsL a
  | Exp.EDropBack a => freeVarsL a

/-- Keep the first occurrence of each element, given the elements seen
so far (helper for `freeVars`). -/
def dedupSeen (seen : List (Nat × Ty)) : List (Nat × Ty) → List (Nat × Ty)
  | [] => []
  | x :: xs => if seen.contains x then dedupSeen seen xs else x :: dedupSeen (x :: seen) xs

/-- Keep the first occurrence of each element (helper for `freeVars`). -/
def dedupKeepFirst (l : List (Nat × Ty)) : List (Nat × Ty) := dedupSeen [] l

/-- Modelled from the spec: `free_vars(e)` of the external syntax
module, in first-occurrence order without duplicates. -/
def freeVars (e : Exp) : List (Nat × Ty) := dedupKeepFirst (freeVarsL e)

/-- Identifiers of the free variables of a formula (the source's
`free_vars(cards)` in `Cost.always`). -/
def freeVarIds (e : Exp) : List Nat := (freeVarsL e).map Prod.fst

/-- Rename every variable identifier (binders included) by `ρ`. -/
def renameE (ρ : Nat → Nat) : Exp → Exp
  | Exp.ENum n => Exp.ENum n
  | Exp.EBool b => Exp.EBool b
  | Exp.EVar id ty => Exp.EVar (ρ id) ty
  | Exp.EBinOp a op b => Exp.EBinOp (renameE ρ a) op (renameE ρ b)
  | Exp.EUnaryOp op a => Exp.EUnaryOp op (renameE ρ a)
  | Exp.EEmptyList t => Exp.EEmptyList t
  | Exp.ESingleton a => Exp.ESingleton (renameE ρ a)
  | Exp.ECond a b c => Exp.ECond (renameE ρ a) (renameE ρ b) (renameE ρ c)
  | Exp.ELambda x t b => Exp.ELambda (ρ x) t (renameE ρ b)
  | Exp.EMap a b => Exp.EMap (renameE ρ a) (renameE ρ b)
  | Exp.EFilter a b => Exp.EFilter (renameE ρ a) (renameE ρ b)
  | Exp.EFlatMap a b => Exp.EFlatMap (renameE ρ a) (renameE ρ b)
  | Exp.EArgMin a b => Exp.EArgMin (renameE ρ a) (renameE ρ b)
  | Exp.EArgMax a b => Exp.EArgMax (renameE ρ a) (renameE ρ b)
  | Exp.EMakeMap2 a b => Exp.EMakeMap2 (renameE ρ a) (renameE ρ b)
  | Exp.EMapGet a b => Exp.EMapGet (renameE ρ a) (renameE ρ b)
  | Exp.EStateVar a => Exp.EStateVar (renameE ρ a)
  | Exp.EDropFront a => Exp.EDropFront (renameE ρ a)
  | Exp.EDropBack a => Exp.EDropBack (renameE ρ a)

/-- Modelled from the spec: capture-avoiding substitution of the
external syntax module, specialised to the cost model's only use —
`ELambda.apply_to(fresh_var)`, which replaces the formal parameter by a
fresh variable that is never captured.  Occurrences under a rebinding of
the same identifier are left alone. -/
def substVar (x : Nat) (v : Exp) : Exp → Exp
  | Exp.ENum n => Exp.ENum n
  | Exp.EBool b => Exp.EBool b
  | Exp.EVar id ty => if id = x then v else Exp.EVar id ty
  | Exp.EBinOp a op b => Exp.EBinOp (substVar x v a) op (substVar x v b)
  | Exp.EUnaryOp op a => Exp.EUnaryOp op (substVar x v a)
  | Exp.EEmptyList t => Exp.EEmptyList t
  | Exp.ESingleton a => Exp.ESingleton (substVar x v a)
  | Exp.ECond a b c => Exp.ECond (substVar x v a) (substVar x v b) (substVar x v c)
  | Exp.ELambda y t b => if y = x then Exp.ELambda y t b else Exp.ELambda y t (substVar x v b)
  | Exp.EMap a b => Exp.EMap (substVar x v a) (substVar x v b)
  | Exp.EFilter a b => Exp.EFilter (substVar x v a) (substVar x v b)
  | Exp.EFlatMap a b => Exp.EFlatMap (substVar x v a) (substVar x v b)
  | Exp.EArgMin a b => Exp.EArgMin (substVar x v a) (substVar x v b)
  | Exp.EArgMax a b => Exp.EArgMax (substVar x v a) (substVar x v b)
  | Exp.EMakeMap2 a b => Exp.EMakeMap2 (substVar x v a) (substVar x v b)
  | Exp.EMapGet a b => Exp.EMapGet (substVar x v a) (substVar x v b)
  | Exp.EStateVar a => Exp.EStateVar (substVar x v a)
  | Exp.EDropFront a => Exp.EDropFront (substVar x v a)
  | Exp.EDropBack a => Exp.EDropBack (substVar x v a)

theorem sizeE_substVar_var (x n : Nat) (t : Ty) (b : Exp) :
    sizeE (substVar x (Exp.EVar n t) b) = sizeE b := by
  induction b with
  | EVar id ty => simp only [substVar]; split <;> simp [sizeE]
  | ELambda y ty body ih => simp only [substVar]; split <;> simp [sizeE, ih]
  | _ => simp_all [substVar, sizeE]

/-- `break_sum` (cost_model.py:230): flatten a tree of `+` nodes. -/
def break_sum : Exp → List Exp
  | Exp.EBinOp a "+" b => break_sum a ++ break_sum b
  | e => [e]

/-- Modelled from the spec: `build_balanced_tree` of the external common
module — rebuild a non-literal sum (or conjunction) as a balanced binary
operator tree, for solver-friendliness.  `bbtF` is the fuel-indexed
worker (the fuel bounds the list length and is never exhausted when
called from `buildBalancedTree`). -/
def bbtF (op : String) (dflt : Exp) : Nat → List Exp → Exp
  | _, [] => dflt
  | _, [e] => e
  | 0, e :: _ :: _ => e
  | fuel + 1, a :: b :: rest =>
      Exp.EBinOp
        (bbtF op dflt fuel ((a :: b :: rest).take ((a :: b :: rest).length / 2))) op
        (bbtF op dflt fuel ((a :: b :: rest).drop ((a :: b :: rest).length / 2)))

def buildBalancedTree (op : String) (dflt : Exp) (es : List Exp) : Exp :=
  bbtF op dflt es.length es

/-- `ESum` (cost_model.py:237): flatten the summands, drop zeros,
constant-fold the numeric literals into one, and rebuild the remainder
as a balanced `+` tree. -/
def ESum (es : List Exp) : Exp :=
  let es := (es.flatMap break_sum).filter (fun e => e ≠ ZERO)
  if es.isEmpty then ZERO
  else
    let nums := es.filter (fun e => isENum e)
    let nonnums := es.filter (fun e => ¬ isENum e)
    let es := if nums.isEmpty then nonnums
              else nonnums ++ [Exp.ENum ((nums.map numVal).sum)]
    buildBalancedTree "+" ZERO es

/-- `EAll` of the external syntax tools: conjunction of a list of
formulas (`T` when empty). -/
def EAll (es : List Exp) : Exp := buildBalancedTree "and" ETRUE es

/-- `EAny` of the external syntax tools: disjunction of a list of
formulas (false when empty). -/
def EAny (es : List Exp) : Exp := buildBalancedTree "or" (Exp.EBool false) es

/-- `EImplies` of the external syntax tools. -/
def EImplies (a b : Exp) : Exp := Exp.EBinOp a "=>" b

/-- `ELen` of the external syntax (`EUnaryOp(UOp.Length, e)`). -/
def ELen (e : Exp) : Exp := Exp.EUnaryOp "len" e

/-- `EEq` of the external syntax tools. -/
def EEq (a b : Exp) : Exp := Exp.EBinOp a "==" b

/-- Shorthand: `a <= b` formula. -/
def leF (a b : Exp) : Exp := Exp.EBinOp a "<=" b

/-- Shorthand: `a < b` formula. -/
def ltF (a b : Exp) : Exp := Exp.EBinOp a "<" b

/-- Shorthand: `a >= b` formula. -/
def geF (a b : Exp) : Exp := Exp.EBinOp a ">=" b

/-- Shorthand: `a > b` formula. -/
def gtF (a b : Exp) : Exp := Exp.EBinOp a ">" b

/-- Shorthand: `a * b` term. -/
def mulF (a b : Exp) : Exp := Exp.EBinOp a "*" b

/-- Two-sided environment lookup used by `alphaEqAux`: the translation
recorded for a left-hand binder. -/
def lookBndL (env : List (Nat × Nat)) (x : Nat) : Option Nat :=
  (env.find? (fun p => p.1 = x)).map Prod.snd

/-- Two-sided environment lookup used by `alphaEqAux`: the source
recorded for a right-hand binder. -/
def lookBndR (env : List (Nat × Nat)) (y : Nat) : Option Nat :=
  (env.find? (fun p => p.2 = y)).map Prod.fst

/-- Modelled from the spec: `alpha_equivalent` of the external syntax
module — structural equality modulo consistent renaming of bound
variables; free variables must match exactly. -/
def alphaEqAux (env : List (Nat × Nat)) : Exp → Exp → Bool
  | Exp.ENum a, e2 =>
      match e2 with
      | Exp.ENum b => a = b
      | _ => false
  | Exp.EBool a, e2 =>
      match e2 with
      | Exp.EBool b => a = b
      | _ => false
  | Exp.EVar x tx, e2 =>
      match e2 with
      | Exp.EVar y ty =>
          (tx = ty) &&
            match lookBndL env x, lookBndR env y with
            | some y', some x' => y' = y && x' = x
            | none, none => x = y
            | _, _ => false
      | _ => false
  | Exp.EBinOp a1 op1 b1, e2 =>
      match e2 with
      | Exp.EBinOp a2 op2 b2 => op1 = op2 && alphaEqAux env a1 a2 && alphaEqAux env b1 b2
      | _ => false
  | Exp.EUnaryOp op1 a1, e2 =>
      match e2 with
      | Exp.EUnaryOp op2 a2 => op1 = op2 && alphaEqAux env a1 a2
      | _ => false
  | Exp.EEmptyList t1, e2 =>
      match e2 with
      | Exp.EEmptyList t2 => t1 = t2
      | _ => false
  | Exp.ESingleton a1, e2 =>
      match e2 with
      | Exp.ESingleton a2 => alphaEqAux env a1 a2
      | _ => false
  | Exp.ECond a1 b1 c1, e2 =>
      match e2 with
      | Exp.ECond a2 b2 c2 =>
          alphaEqAux env a1 a2 && alphaEqAux env b1 b2 && alphaEqAux env c1 c2
      | _ => false
  | Exp.ELambda x1 t1 b1, e2 =>
      match e2 with
      | Exp.ELambda x2 t2 b2 => (t1 = t2) && alphaEqAux ((x1, x2) :: env) b1 b2
      | _ => false
  | Exp.EMap a1 b1, e2 =>
      match e2 with
      | Exp.EMap a2 b2 => alphaEqAux env a1 a2 && alphaEqAux env b1 b2
      | _ => false
  | Exp.EFilter a1 b1, e2 =>
      match e2 with
      | Exp.EFilter a2 b2 => alphaEqAux env a1 a2 && alphaEqAux env b1 b2
      | _ => false
  | Exp.EFlatMap a1 b1, e2 =>
      match e2 with
      | Exp.EFlatMap a2 b2 => alphaEqAux env a1 a2 && alphaEqAux env b1 b2
      | _ => false
  | Exp.EArgMin a1 b1, e2 =>
      match e2 with
      | Exp.EArgMin a2 b2 => alphaEqAux env a1 a2 && alphaEqAux env b1 b2
      | _ => false
  | Exp.EArgMax a1 b1, e2 =>
      match e2 with
      | Exp.EArgMax a2 b2 => alphaEqAux env a1 a2 && alphaEqAux env b1 b2
      | _ => false
  | Exp.EMakeMap2 a1 b1, e2 =>
      match e2 with
      | Exp.EMakeMap2 a2 b2 => alphaEqAux env a1 a2 && alphaEqAux env b1 b2
      | _ => false
  | Exp.EMapGet a1 b1, e2 =>
      match e2 with
      | Exp.EMapGet a2 b2 => alphaEqAux env a1 a2 && alphaEqAux env b1 b2
      | _ => false
  | Exp.EStateVar a1, e2 =>
      match e2 with
      | Exp.EStateVar a2 => alphaEqAux env a1 a2
      | _ => false
  | Exp.EDropFront a1, e2 =>
      match e2 with
      | Exp.EDropFront a2 => alphaEqAux env a1 a2
      | _ => false
  | Exp.EDropBack a1, e2 =>
      match e2 with
      | Exp.EDropBack a2 => alphaEqAux env a1 a2
      | _ => false

/-- `alpha_equivalent(e1, e2)` of the external syntax module. -/
def alphaEquivalent (a b : Exp) : Bool := alphaEqAux [] a b

/-- Integer semantics of the arithmetic binary operators. -/
def binopI (op : String) (x y : Int) : Int :=
  if op = "+" then x + y
  else if op = "*" then x * y
  else if op = "-" then x - y
  else 0

/-- Integer evaluation of an arithmetic term under a binding of the
(integer-typed) variables.  Non-arithmetic nodes evaluate to 0; the cost
formulas and cardinality assumptions the engine manipulates only contain
numerals, variables, `+`, `*` and `-`. -/
def evalA (env : Nat → Int) : Exp → Int
  | Exp.ENum n => n
  | Exp.EVar id _ => env id
  | Exp.EBinOp a op b => binopI op (evalA env a) (evalA env b)
  | _ => 0

/-- Boolean semantics of the comparison operators. -/
def cmpI (op : String) (x y : Int) : Bool :=
  if op = "<=" then x ≤ y
  else if op = "<" then x < y
  else if op = ">=" then y ≤ x
  else if op = ">" then y < x
  else if op = "==" then x = y
  else false

/-- Boolean evaluation of a formula under a binding of the variables.
Variable types are ignored, so the real-domain relaxation of
`Cost.always` is semantically transparent here. -/
def evalB (env : Nat → Int) : Exp → Bool
  | Exp.EBool b => b
  | Exp.EBinOp a op b =>
      if op = "and" then evalB env a && evalB env b
      else if op = "or" then evalB env a || evalB env b
      else if op = "=>" then !evalB env a || evalB env b
      else cmpI op (evalA env a) (evalA env b)
  | Exp.EUnaryOp op a => if op = "not" then !(evalB env a) else false
  | _ => false

/-- Two formulas are semantically equal when they evaluate alike under
every integer binding of the variables. -/
def SemEq (f g : Exp) : Prop := ∀ env : Nat → Int, evalB env f = evalB env g

/-- Result of one external solver call: a definite answer or the
solver's "unknown" signal (`SolverReportedUnknown` in the source). -/
inductive SRes where
  | ok (b : Bool)
  | unknown
  deriving DecidableEq, Repr

/-- The two external solver entry points the engine uses, as abstract
parameters: `S f logic timeout` models `valid(f, logic=..., timeout=...)`
of the SMT facade, and `O f` models the `IncrementalSolver.valid` call
made by `cardinality_le` (a separate solver object — the source's
shared-default-argument `IncrementalSolver()`). -/
structure SolverCtx where
  S : Exp → String → Nat → SRes
  O : Exp → Bool

/-- `cardinality_le(c1, c2, assumptions)` (cost_model.py:28): is
`|c1| <= |c2|` provable under the assumptions?  The source asserts
`c1.type == c2.type` (a fail-fast precondition violation otherwise,
modelled as `none`) and asks the solver one validity query
`assumptions ==> (len c1 <= len c2)`.  The per-element occurrence
comparison in the source sits in a dead `else` branch of `if True:` and
is never built. -/
def cardinality_le (O : Exp → Bool) (c1 c2 A : Exp) : Option Bool :=
  if typeOf c1 = typeOf c2 then
    some (O (EImplies A (leF (ELen c1) (ELen c2))))
  else none

/-- `cardinality_le_implies_lt` (cost_model.py:50): `return False`
— "disabled for performance"; the code below that return is dead. -/
def cardinality_le_implies_lt (_c1 _c2 _A : Exp) : Bool := false

/-- The `Cost` object (cost_model.py:58).  `secondary` (a Python float)
is modelled as an exact rational; `cardinalities` maps each cardinality
variable's identifier to the collection expression whose length it
denotes, in insertion order. -/
structure Cost where
  e : Option Exp
  pool : Option Nat
  formula : Exp
  secondary : Rat := 0
  assumptions : Exp := ETRUE
  cardinalities : List (Nat × Exp) := []
  deriving Repr

/-- `Cost.WORSE` (cost_model.py:60). -/
def Cost.WORSE : String := "worse"

/-- `Cost.BETTER` (cost_model.py:61). -/
def Cost.BETTER : String := "better"

/-- `Cost.UNORDERED` (cost_model.py:62). -/
def Cost.UNORDERED : String := "unordered"

/-- `Cost.ZERO = Cost(None, None, ZERO)` (cost_model.py:228). -/
def Cost.ZEROC : Cost := { e := none, pool := none, formula := ZERO }

/-- One `OrderedDict.__setitem__`: replace the value in place when the
key exists, otherwise append. -/
def updAL (m : List (Nat × Exp)) (k : Nat) (v : Exp) : List (Nat × Exp) :=
  match m with
  | [] => [(k, v)]
  | (k', v') :: rest => if k' = k then (k', v) :: rest else (k', v') :: updAL rest k v

/-- `OrderedDict.update`: merge the second map into the first,
preserving insertion order (cost_model.py:84). -/
def mergeCards (a b : List (Nat × Exp)) : List (Nat × Exp) :=
  b.foldl (fun m kv => updAL m kv.1 kv.2) a

/-- The conjunct list built by the double loop of `order_cardinalities`
(cost_model.py:88, with the permanently-off `incremental` /
`use_indicators` modes elided as in the default configuration): each
variable is non-negative; distinct variables denoting alpha-equivalent
same-typed expressions are equal; when the cardinality oracle proves
`<=` the corresponding inequality is added (strict `<` only if the
disabled strict oracle confirms it, which it never does). -/
def cardConds (O : Exp → Bool) (A : Exp) (merged : List (Nat × Exp)) : List Exp :=
  merged.flatMap (fun p1 =>
    geF (Exp.EVar p1.1 Ty.TInt) ZERO ::
      merged.flatMap (fun p2 =>
        if p1.1 = p2.1 then []
        else if typeOf p1.2 ≠ typeOf p2.2 then []
        else if alphaEquivalent p1.2 p2.2 then
          [EEq (Exp.EVar p1.1 Ty.TInt) (Exp.EVar p2.1 Ty.TInt)]
        else if cardinality_le O p1.2 p2.2 A = some true then
          if cardinality_le_implies_lt p1.2 p2.2 A then
            [ltF (Exp.EVar p1.1 Ty.TInt) (Exp.EVar p2.1 Ty.TInt)]
          else [leF (Exp.EVar p1.1 Ty.TInt) (Exp.EVar p2.1 Ty.TInt)]
        else []))

/-- `Cost.order_cardinalities(self, other, assumptions)`
(cost_model.py:80). -/
def order_cardinalities (O : Exp → Bool) (self other : Cost) (A : Exp) : Exp :=
  EAll (cardConds O A (mergeCards self.cardinalities other.cardinalities))

/-- `subst(f, {v.id: EVar(v.id).with_type(REAL) ...})` of the real-domain
relaxation in `Cost.always`: retype the listed variables as reals.
Occurrences under a rebinding of the identifier are left alone (the
formulas involved never contain lambdas). -/
def relaxReal (s : List Nat) : Exp → Exp
  | Exp.ENum n => Exp.ENum n
  | Exp.EBool b => Exp.EBool b
  | Exp.EVar id ty => if s.contains id then Exp.EVar id Ty.TReal else Exp.EVar id ty
  | Exp.EBinOp a op b => Exp.EBinOp (relaxReal s a) op (relaxReal s b)
  | Exp.EUnaryOp op a => Exp.EUnaryOp op (relaxReal s a)
  | Exp.EEmptyList t => Exp.EEmptyList t
  | Exp.ESingleton a => Exp.ESingleton (relaxReal s a)
  | Exp.ECond a b c => Exp.ECond (relaxReal s a) (relaxReal s b) (relaxReal s c)
  | Exp.ELambda y t b => Exp.ELambda y t (relaxReal (s.filter (fun z => z ≠ y)) b)
  | Exp.EMap a b => Exp.EMap (relaxReal s a) (relaxReal s b)
  | Exp.EFilter a b => Exp.EFilter (relaxReal s a) (relaxReal s b)
  | Exp.EFlatMap a b => Exp.EFlatMap (relaxReal s a) (relaxReal s b)
  | Exp.EArgMin a b => Exp.EArgMin (relaxReal s a) (relaxReal s b)
  | Exp.EArgMax a b => Exp.EArgMax (relaxReal s a) (relaxReal s b)
  | Exp.EMakeMap2 a b => Exp.EMakeMap2 (relaxReal s a) (relaxReal s b)
  | Exp.EMapGet a b => Exp.EMapGet (relaxReal s a) (relaxReal s b)
  | Exp.EStateVar a => Exp.EStateVar (relaxReal s a)
  | Exp.EDropFront a => Exp.EDropFront (relaxReal s a)
  | Exp.EDropBack a => Exp.EDropBack (relaxReal s a)

/-- `Cost.always(self, op, other, assumptions, cards)`
(cost_model.py:123), instrumented with the number of solver calls it
makes (second component).  With the joint constraints in hand: if both
formulas are numeric literals, compare them directly; otherwise ask the
solver for validity of the implication under `QF_LIA` with a 1-second
timeout, on "unknown" retry once with every cardinality variable
retyped to real under `QF_NRA` with a 5-second timeout, and on a second
"unknown" give up and answer `False`. -/
def alwaysR (ctx : SolverCtx) (self other : Cost) (op : String) (A : Exp)
    (cards? : Option Exp) : Bool × Nat :=
  let cards := match cards? with
    | some c => c
    | none => order_cardinalities ctx.O self other A
  if isENum self.formula && isENum other.formula then
    (cmpI op (numVal self.formula) (numVal other.formula), 0)
  else
    let f := EImplies (EAll [self.assumptions, other.assumptions, cards])
      (Exp.EBinOp self.formula op other.formula)
    match ctx.S f "QF_LIA" 1 with
    | SRes.ok b => (b, 1)
    | SRes.unknown =>
        let f2 := relaxReal (freeVarIds cards) f
        match ctx.S f2 "QF_NRA" 5 with
        | SRes.ok b => (b, 2)
        | SRes.unknown => (false, 2)

/-- `Cost.always`, result only. -/
def always (ctx : SolverCtx) (self other : Cost) (op : String) (A : Exp)
    (cards? : Option Exp) : Bool :=
  (alwaysR ctx self other op A cards?).1

/-- `Cost.compare_to(self, other, assumptions)` (cost_model.py:150). -/
def compare_to (ctx : SolverCtx) (self other : Cost) (A : Exp) : String :=
  let cards := order_cardinalities ctx.O self other A
  let o1 := always ctx self other "<=" A (some cards)
  let o2 := always ctx other self "<=" A (some cards)
  if o1 && !o2 then Cost.BETTER
  else if o2 && !o1 then Cost.WORSE
  else if !o1 && !o2 then Cost.UNORDERED
  else
    if self.secondary > other.secondary then Cost.WORSE
    else if self.secondary < other.secondary then Cost.BETTER
    else Cost.UNORDERED

/-- `Cost.always_worse_than` (cost_model.py:166). -/
def always_worse_than (ctx : SolverCtx) (self other : Cost) (A : Exp)
    (cards? : Option Exp) : Bool := always ctx self other ">" A cards?

/-- `Cost.always_better_than` (cost_model.py:170). -/
def always_better_than (ctx : SolverCtx) (self other : Cost) (A : Exp)
    (cards? : Option Exp) : Bool := always ctx self other "<" A cards?

/-- `Cost.sometimes_worse_than` (cost_model.py:174). -/
def sometimes_worse_than (ctx : SolverCtx) (self other : Cost) (A : Exp)
    (cards? : Option Exp) : Bool := !(always ctx self other "<=" A cards?)

/-- `Cost.sometimes_better_than` (cost_model.py:178). -/
def sometimes_better_than (ctx : SolverCtx) (self other : Cost) (A : Exp)
    (cards? : Option Exp) : Bool := !(always ctx self other ">=" A cards?)

/-- `assume_large_cardinalities` option (cost_model.py:14), default
`True`. -/
def assume_large_cardinalities : Bool := true

/-- `simple-cost-model` option (cost_model.py:15), default `False`. -/
def simple_cost_model : Bool := false

/-- `RUNTIME_POOL` of the external pools module. -/
def RUNTIME_POOL : Nat := 0

/-- `STATE_POOL` of the external pools module. -/
def STATE_POOL : Nat := 1

/-- The per-call scratch state of `CompositeCostModel`:
`self.cardinalities` (collection expression ↦ cardinality-variable
identifier, in insertion order), `self.assumptions` (in append order),
`self.secondaries`, and the external `fresh_var` counter. -/
structure CMState where
  cardinalities : List (Exp × Nat)
  assumptions : List Exp
  secondaries : Rat
  counter : Nat
  deriving Repr

/-- Modelled from the spec: the memo-table lookup `e in
self.cardinalities` uses the external expression module's equality and
hashing, which the spec requires to respect alpha-equivalence
("a fresh variable per distinct (up to alpha-equivalence)
subexpression"). -/
def lookupCard (t : List (Exp × Nat)) (e : Exp) : Option Nat :=
  (t.find? (fun p => alphaEquivalent p.1 e)).map Prod.snd

/-- Allocate a fresh cardinality variable for `e` and record it
(`v = fresh_var(INT); self.cardinalities[e] = v`). -/
def allocCard (e : Exp) (st : CMState) : CMState :=
  CMState.mk (st.cardinalities ++ [(e, st.counter)]) st.assumptions st.secondaries
    (st.counter + 1)

/-- The memoized branch of `CompositeCostModel.cardinality` for shapes
that carry no extra heuristic assumptions. -/
def memoPlain (e : Exp) (st : CMState) : Exp × CMState :=
  match lookupCard st.cardinalities e with
  | some v => (Exp.EVar v Ty.TInt, st)
  | none => (Exp.EVar st.counter Ty.TInt, allocCard e st)

/-- `CompositeCostModel.cardinality(self, e)` (cost_model.py:258).
Structural cases: empty collection is 0, singleton is 1, concatenation
is the sum of the children, map and state-wrapper delegate to the inner
collection.  Every other shape is memoized to a fresh variable with the
shape's heuristic assumptions recorded at allocation time (`plus_one`
is a no-op in the source and is omitted here). -/
def cardinality : Exp → CMState → Exp × CMState
  | Exp.EEmptyList _, st => (ZERO, st)
  | Exp.ESingleton _, st => (ONE, st)
  | Exp.EMap a _, st => cardinality a st
  | Exp.EStateVar a, st => cardinality a st
  | Exp.EBinOp e1 op e2, st =>
      if op = "+" then
        (ESum [(cardinality e1 st).1, (cardinality e2 (cardinality e1 st).2).1],
          (cardinality e2 (cardinality e1 st).2).2)
      else
        match lookupCard st.cardinalities (Exp.EBinOp e1 op e2) with
        | some v => (Exp.EVar v Ty.TInt, st)
        | none =>
            if op = "-" then
              (Exp.EVar st.counter Ty.TInt,
                CMState.mk
                  (cardinality e1 (allocCard (Exp.EBinOp e1 op e2) st)).2.cardinalities
                  ((cardinality e1 (allocCard (Exp.EBinOp e1 op e2) st)).2.assumptions ++
                    [leF (Exp.EVar st.counter Ty.TInt)
                      (cardinality e1 (allocCard (Exp.EBinOp e1 op e2) st)).1])
                  (cardinality e1 (allocCard (Exp.EBinOp e1 op e2) st)).2.secondaries
                  (cardinality e1 (allocCard (Exp.EBinOp e1 op e2) st)).2.counter)
            else (Exp.EVar st.counter Ty.TInt, allocCard (Exp.EBinOp e1 op e2) st)
  | Exp.EUnaryOp op a, st =>
      match lookupCard st.cardinalities (Exp.EUnaryOp op a) with
      | some v => (Exp.EVar v Ty.TInt, st)
      | none =>
          if op = "distinct" then
            (Exp.EVar st.counter Ty.TInt,
              CMState.mk
                (cardinality a (allocCard (Exp.EUnaryOp op a) st)).2.cardinalities
                ((cardinality a (allocCard (Exp.EUnaryOp op a) st)).2.assumptions ++
                  [leF (Exp.EVar st.counter Ty.TInt)
                    (cardinality a (allocCard (Exp.EUnaryOp op a) st)).1,
                   geF (mulF (Exp.EVar st.counter Ty.TInt) (Exp.ENum 5))
                    (mulF (cardinality a (allocCard (Exp.EUnaryOp op a) st)).1 (Exp.ENum 4))])
                (cardinality a (allocCard (Exp.EUnaryOp op a) st)).2.secondaries
                (cardinality a (allocCard (Exp.EUnaryOp op a) st)).2.counter)
          else (Exp.EVar st.counter Ty.TInt, allocCard (Exp.EUnaryOp op a) st)
  | Exp.EFilter a p, st =>
      match lookupCard st.cardinalities (Exp.EFilter a p) with
      | some v => (Exp.EVar v Ty.TInt, st)
      | none =>
          (Exp.EVar st.counter Ty.TInt,
            CMState.mk
              (cardinality a (allocCard (Exp.EFilter a p) st)).2.cardinalities
              ((cardinality a (allocCard (Exp.EFilter a p) st)).2.assumptions ++
                [leF (Exp.EVar st.counter Ty.TInt)
                  (cardinality a (allocCard (Exp.EFilter a p) st)).1,
                 geF (mulF (Exp.EVar st.counter Ty.TInt) (Exp.ENum 5))
                  (mulF (cardinality a (allocCard (Exp.EFilter a p) st)).1 (Exp.ENum 4))])
              (cardinality a (allocCard (Exp.EFilter a p) st)).2.secondaries
              (cardinality a (allocCard (Exp.EFilter a p) st)).2.counter)
  | Exp.ECond c t f, st =>
      match lookupCard st.cardinalities (Exp.ECond c t f) with
      | some v => (Exp.EVar v Ty.TInt, st)
      | none =>
          (Exp.EVar st.counter Ty.TInt,
            CMState.mk
              (cardinality f (cardinality t (allocCard (Exp.ECond c t f) st)).2).2.cardinalities
              ((cardinality f (cardinality t (allocCard (Exp.ECond c t f) st)).2).2.assumptions ++
                [EAny [EEq (Exp.EVar st.counter Ty.TInt)
                    (cardinality t (allocCard (Exp.ECond c t f) st)).1,
                  EEq (Exp.EVar st.counter Ty.TInt)
                    (cardinality f (cardinality t (allocCard (Exp.ECond c t f) st)).2).1]])
              (cardinality f (cardinality t (allocCard (Exp.ECond c t f) st)).2).2.secondaries
              (cardinality f (cardinality t (allocCard (Exp.ECond c t f) st)).2).2.counter)
  | Exp.ENum n, st => memoPlain (Exp.ENum n) st
  | Exp.EBool b, st => memoPlain (Exp.EBool b) st
  | Exp.EVar id ty, st => memoPlain (Exp.EVar id ty) st
  | Exp.ELambda x t b, st => memoPlain (Exp.ELambda x t b) st
  | Exp.EFlatMap a b, st => memoPlain (Exp.EFlatMap a b) st
  | Exp.EArgMin a b, st => memoPlain (Exp.EArgMin a b) st
  | Exp.EArgMax a b, st => memoPlain (Exp.EArgMax a b) st
  | Exp.EMakeMap2 a b, st => memoPlain (Exp.EMakeMap2 a b) st
  | Exp.EMapGet a b, st => memoPlain (Exp.EMapGet a b) st
  | Exp.EDropFront a, st => memoPlain (Exp.EDropFront a) st
  | Exp.EDropBack a, st => memoPlain (Exp.EDropBack a) st

/-- `CompositeCostModel.statecost(self, e)` (cost_model.py:296):
`e.size() / 100`. -/
def statecost (e : Exp) : Rat := (sizeE e : Rat) / 100

/-- `CompositeCostModel.sizeof(self, e)` (cost_model.py:298): the cost
of storing `e` — its cardinality for collections, 1 otherwise. -/
def sizeofE (e : Exp) (st : CMState) : Exp × CMState :=
  if isCollection (typeOf e) then cardinality e st else (ONE, st)

/-- The operators of `visit_EUnaryOp`'s reduction list
(`UOp.Sum, UOp.Distinct, UOp.AreUnique, UOp.All, UOp.Any, UOp.Length`,
cost_model.py:315). -/
def reductionOps : List String := ["sum", "distinct", "unique", "all", "any", "len"]

/-- The cost-assignment fold of `CompositeCostModel` (the `visit_E*`
methods plus the generic `BottomUpExplorer`/`join` traversal,
cost_model.py:310): every node costs 1 (or the node-specific constant)
plus its children, reductions add the source's cardinality, collection
equality and difference add `EXTREME_COST` and both cardinalities, map
lookups add `MILD_PENALTY`, per-element operators multiply the source
cardinality into the body's cost, lambdas are folded after substituting
a fresh variable for the formal, and state-wrapped subexpressions cost
1 plus storage size while charging `statecost` to the secondary
accumulator.  `visit_EFlatMap` delegates to the `EMap` rule in the
source (`self.visit(EMap(e.e, e.f))`), inlined here.  `visitF` is the
fuel-indexed worker; the fuel bounds the node count of the expression
and is never exhausted when called from `visitC` (every recursive call
is on a proper subterm or on a lambda body with a size-1 variable
substituted for the formal). -/
def visitF : Nat → Exp → CMState → Exp × CMState
  | _, Exp.ENum _, st => (ONE, st)
  | _, Exp.EBool _, st => (ONE, st)
  | _, Exp.EVar _ _, st => (ONE, st)
  | _, Exp.EEmptyList _, st => (ONE, st)
  | 0, _, st => (ZERO, st)
  | fuel + 1, Exp.ESingleton a, st =>
      (ESum [ONE, (visitF fuel a st).1], (visitF fuel a st).2)
  | fuel + 1, Exp.ECond c t f, st =>
      (ESum [ONE, (visitF fuel c st).1, (visitF fuel t (visitF fuel c st).2).1,
        (visitF fuel f (visitF fuel t (visitF fuel c st).2).2).1],
       (visitF fuel f (visitF fuel t (visitF fuel c st).2).2).2)
  | _ + 1, Exp.EStateVar a, st =>
      (ESum [ONE, (sizeofE a (CMState.mk st.cardinalities st.assumptions
          (st.secondaries + statecost a) st.counter)).1],
       (sizeofE a (CMState.mk st.cardinalities st.assumptions
          (st.secondaries + statecost a) st.counter)).2)
  | fuel + 1, Exp.EUnaryOp op a, st =>
      if reductionOps.contains op then
        (ESum [ONE, (visitF fuel a st).1, (cardinality a (visitF fuel a st).2).1],
          (cardinality a (visitF fuel a st).2).2)
      else (ESum [ONE, (visitF fuel a st).1], (visitF fuel a st).2)
  | fuel + 1, Exp.EBinOp e1 op e2, st =>
      if op = "in" then
        (ESum [ONE, (visitF fuel e1 st).1, (visitF fuel e2 (visitF fuel e1 st).2).1,
          (cardinality e2 (visitF fuel e2 (visitF fuel e1 st).2).2).1],
         (cardinality e2 (visitF fuel e2 (visitF fuel e1 st).2).2).2)
      else if op = "==" && isCollection (typeOf e1) then
        (ESum [ONE, (visitF fuel e1 st).1, (visitF fuel e2 (visitF fuel e1 st).2).1,
          EXTREME_COST,
          (cardinality e1 (visitF fuel e2 (visitF fuel e1 st).2).2).1,
          (cardinality e2 (cardinality e1 (visitF fuel e2 (visitF fuel e1 st).2).2).2).1],
         (cardinality e2 (cardinality e1 (visitF fuel e2 (visitF fuel e1 st).2).2).2).2)
      else if op = "-" && isCollection (typeOf (Exp.EBinOp e1 op e2)) then
        (ESum [ONE, (visitF fuel e1 st).1, (visitF fuel e2 (visitF fuel e1 st).2).1,
          EXTREME_COST,
          (cardinality e1 (visitF fuel e2 (visitF fuel e1 st).2).2).1,
          (cardinality e2 (cardinality e1 (visitF fuel e2 (visitF fuel e1 st).2).2).2).1],
         (cardinality e2 (cardinality e1 (visitF fuel e2 (visitF fuel e1 st).2).2).2).2)
      else (ESum [ONE, (visitF fuel e1 st).1, (visitF fuel e2 (visitF fuel e1 st).2).1],
        (visitF fuel e2 (visitF fuel e1 st).2).2)
  | fuel + 1, Exp.ELambda x t b, st =>
      visitF fuel (substVar x (Exp.EVar st.counter t) b)
        (CMState.mk st.cardinalities st.assumptions st.secondaries (st.counter + 1))
  | fuel + 1, Exp.EMapGet m k, st =>
      (ESum [MILD_PENALTY, (visitF fuel m st).1, (visitF fuel k (visitF fuel m st).2).1],
        (visitF fuel k (visitF fuel m st).2).2)
  | fuel + 1, Exp.EMakeMap2 a v, st =>
      (ESum [EXTREME_COST, (visitF fuel a st).1,
        Exp.EBinOp (cardinality a (visitF fuel a st).2).1 "*"
          (visitF fuel v (cardinality a (visitF fuel a st).2).2).1],
       (visitF fuel v (cardinality a (visitF fuel a st).2).2).2)
  | fuel + 1, Exp.EFilter a p, st =>
      (ESum [TWO, (visitF fuel a st).1,
        Exp.EBinOp (cardinality a (visitF fuel a st).2).1 "*"
          (visitF fuel p (cardinality a (visitF fuel a st).2).2).1],
       (visitF fuel p (cardinality a (visitF fuel a st).2).2).2)
  | fuel + 1, Exp.EMap a f, st =>
      (ESum [TWO, (visitF fuel a st).1,
        Exp.EBinOp (cardinality a (visitF fuel a st).2).1 "*"
          (visitF fuel f (cardinality a (visitF fuel a st).2).2).1],
       (visitF fuel f (cardinality a (visitF fuel a st).2).2).2)
  | fuel + 1, Exp.EFlatMap a f, st =>
      (ESum [TWO, (visitF fuel a st).1,
        Exp.EBinOp (cardinality a (visitF fuel a st).2).1 "*"
          (visitF fuel f (cardinality a (visitF fuel a st).2).2).1],
       (visitF fuel f (cardinality a (visitF fuel a st).2).2).2)
  | fuel + 1, Exp.EArgMin a f, st =>
      (ESum [TWO, (visitF fuel a st).1,
        Exp.EBinOp (cardinality a (visitF fuel a st).2).1 "*"
          (visitF fuel f (cardinality a (visitF fuel a st).2).2).1],
       (visitF fuel f (cardinality a (visitF fuel a st).2).2).2)
  | fuel + 1, Exp.EArgMax a f, st =>
      (ESum [TWO, (visitF fuel a st).1,
        Exp.EBinOp (cardinality a (visitF fuel a st).2).1 "*"
          (visitF fuel f (cardinality a (visitF fuel a st).2).2).1],
       (visitF fuel f (cardinality a (visitF fuel a st).2).2).2)
  | fuel + 1, Exp.EDropFront a, st =>
      (ESum [MILD_PENALTY, (visitF fuel a st).1, (cardinality a (visitF fuel a st).2).1],
        (cardinality a (visitF fuel a st).2).2)
  | fuel + 1, Exp.EDropBack a, st =>
      (ESum [MILD_PENALTY, (visitF fuel a st).1, (cardinality a (visitF fuel a st).2).1],
        (cardinality a (visitF fuel a st).2).2)

/-- `CompositeCostModel.visit(self, e)`: run the fold with exactly the
fuel it needs. -/
def visitC (e : Exp) (st : CMState) : Exp × CMState := visitF (sizeE e) e st

/-- The large-cardinality pass of `CompositeCostModel.cost`
(cost_model.py:370): for every collection-typed free variable, assert
its cardinality exceeds 1000. -/
def largePass : List (Nat × Ty) → CMState → CMState
  | [], st => st
  | (id, ty) :: rest, st =>
      if isCollection ty then
        largePass rest
          (CMState.mk (cardinality (Exp.EVar id ty) st).2.cardinalities
            ((cardinality (Exp.EVar id ty) st).2.assumptions ++
              [gtF (cardinality (Exp.EVar id ty) st).1 (Exp.ENum 1000)])
            (cardinality (Exp.EVar id ty) st).2.secondaries
            (cardinality (Exp.EVar id ty) st).2.counter)
      else largePass rest st

/-- `CompositeCostModel.is_monotonic` (cost_model.py:361). -/
def is_monotonic : Bool := false

/-- `CompositeCostModel.cost(self, e, pool)` (cost_model.py:363),
with the external `fresh_var` counter made explicit (argument `n`, and
returned updated).  NOTE the runtime-pool branch reproduces the
source's loop `for e, v in self.cardinalities.items(): invcard[v] = e`,
whose loop variable shadows the parameter `e`: the `Cost` records the
last cardinality-table key, not the argument, whenever the table is
non-empty. -/
def cost (e : Exp) (pool : Nat) (n : Nat) : Cost × Nat :=
  if simple_cost_model then
    ({ e := some e, pool := some pool, formula := ZERO, secondary := (sizeE e : Rat) }, n)
  else if pool = RUNTIME_POOL then
    let st0 := CMState.mk [] [] 0 n
    let st1 := if assume_large_cardinalities then largePass (freeVars e) st0 else st0
    let r := visitC e st1
    let invcard := r.2.cardinalities.map (fun p => (p.2, p.1))
    let eShadowed := match r.2.cardinalities.getLast? with
      | some p => p.1
      | none => e
    ({ e := some eShadowed, pool := some pool, formula := r.1,
       secondary := r.2.secondaries, assumptions := EAll r.2.assumptions,
       cardinalities := invcard }, r.2.counter)
  else
    ({ e := some e, pool := some pool, formula := ZERO, secondary := statecost e }, n)

/-- Is a formula a strict `<` comparison?  (Used to state that the
joint cardinality constraints never contain one.) -/
def isStrictLt : Exp → Bool
  | Exp.EBinOp _ "<" _ => true
  | _ => false

/-- The shapes `CompositeCostModel.cardinality` computes structurally
(empty, singleton, concatenation, map, state-wrapper); every other
shape goes through the memo table. -/
def structuralCard : Exp → Bool
  | Exp.EEmptyList _ => true
  | Exp.ESingleton _ => true
  | Exp.EMap _ _ => true
  | Exp.EStateVar _ => true
  | Exp.EBinOp _ "+" _ => true
  | _ => false

/-!  ## General lemmas  -/

theorem better_ne_worse : Cost.BETTER ≠ Cost.WORSE := by decide

theorem better_ne_unordered : Cost.BETTER ≠ Cost.UNORDERED := by decide

theorem worse_ne_unordered : Cost.WORSE ≠ Cost.UNORDERED := by decide

/-!  ## Claim theorems: the comparison engine  -/
/-- C1: for any two `Cost` objects and external assumptions, `compare_to`
computes the joint cardinality constraints once, asks `always "<="` in both
directions with those constraints, and returns BETTER when only the first
direction is proved, WORSE when only the second is, UNORDERED when neither
is, and when both are proved breaks the tie on the `secondary` scalars:
strictly greater secondary is WORSE, strictly smaller is BETTER, and equal
secondaries give UNORDERED. -/
theorem compare_to_four_way (ctx : SolverCtx) (c1 c2 : Cost) (A : Exp) :
    (compare_to ctx c1 c2 A = Cost.BETTER ↔
      ((always ctx c1 c2 "<=" A (some (order_cardinalities ctx.O c1 c2 A)) = true ∧
        always ctx c2 c1 "<=" A (some (order_cardinalities ctx.O c1 c2 A)) = false) ∨
       (always ctx c1 c2 "<=" A (some (order_cardinalities ctx.O c1 c2 A)) = true ∧
        always ctx c2 c1 "<=" A (some (order_cardinalities ctx.O c1 c2 A)) = true ∧
        c1.secondary < c2.secondary))) ∧
    (compare_to ctx c1 c2 A = Cost.WORSE ↔
      ((always ctx c1 c2 "<=" A (some (order_cardinalities ctx.O c1 c2 A)) = false ∧
        always ctx c2 c1 "<=" A (some (order_cardinalities ctx.O c1 c2 A)) = true) ∨
       (always ctx c1 c2 "<=" A (some (order_cardinalities ctx.O c1 c2 A)) = true ∧
        always ctx c2 c1 "<=" A (some (order_cardinalities ctx.O c1 c2 A)) = true ∧
        c2.secondary < c1.secondary))) ∧
    (compare_to ctx c1 c2 A = Cost.UNORDERED ↔
      ((always ctx c1 c2 "<=" A (some (order_cardinalities ctx.O c1 c2 A)) = false ∧
        always ctx c2 c1 "<=" A (some (order_cardinalities ctx.O c1 c2 A)) = false) ∨
       (always ctx c1 c2 "<=" A (some (order_cardinalities ctx.O c1 c2 A)) = true ∧
        always ctx c2 c1 "<=" A (some (order_cardinalities ctx.O c1 c2 A)) = true ∧
        c1.secondary = c2.secondary))) := by
  unfold compare_to
  rcases h1 : always ctx c1 c2 "<=" A (some (order_cardinalities ctx.O c1 c2 A)) <;>
    rcases h2 : always ctx c2 c1 "<=" A (some (order_cardinalities ctx.O c1 c2 A)) <;>
      simp only [h1, h2, Bool.not_true, Bool.not_false, Bool.true_and, Bool.false_and,
        Bool.and_self, Bool.and_false, Bool.and_true, if_true, if_false, Cost.BETTER,
        Cost.WORSE, Cost.UNORDERED, Bool.true_eq_false, Bool.false_eq_true] <;>
      simp
  rcases lt_trichotomy c1.secondary c2.secondary with h | h | h
  · rw [if_neg (by exact not_lt.mpr h.le), if_pos h]
    simp [h, h.ne, not_lt.mpr h.le]
  · rw [if_neg (by simp [h]), if_neg (by simp [h])]
    simp [h]
  · rw [if_pos h]
    simp [h, h.ne, h.ne', not_lt.mpr h.le]

/-- C3: for collection expressions of the same type, `cardinality_le`
returns exactly the solver's answer to the single validity query
`assumptions ==> (len c1 <= len c2)` — a coarse total-length comparison,
never a per-element occurrence comparison; differently-typed arguments
are a fail-fast precondition violation (the `assert`), not a recoverable
condition. -/
theorem cardinality_le_single_length_query (O : Exp → Bool) (c1 c2 A : Exp) :
    (typeOf c1 = typeOf c2 →
      cardinality_le O c1 c2 A =
        some (O (EImplies A (leF (ELen c1) (ELen c2))))) ∧
    (typeOf c1 ≠ typeOf c2 → cardinality_le O c1 c2 A = none) := by
  constructor
  · intro h
    simp [cardinality_le, h]
  · intro h
    simp [cardinality_le, h]

/-- C3 witness: a concrete same-typed pair goes to the solver as the
length query, and a mismatched pair fails fast. -/
theorem cardinality_le_single_length_query_witness :
    (typeOf (Exp.EVar 0 (Ty.TBag Ty.TInt)) = typeOf (Exp.EVar 1 (Ty.TBag Ty.TInt)) ∧
      cardinality_le (fun _ => true) (Exp.EVar 0 (Ty.TBag Ty.TInt))
        (Exp.EVar 1 (Ty.TBag Ty.TInt)) ETRUE =
        some ((fun _ => true)
          (EImplies ETRUE (leF (ELen (Exp.EVar 0 (Ty.TBag Ty.TInt)))
            (ELen (Exp.EVar 1 (Ty.TBag Ty.TInt))))))) ∧
    (typeOf (Exp.EVar 0 (Ty.TBag Ty.TInt)) ≠ typeOf (Exp.EVar 1 Ty.TInt) ∧
      cardinality_le (fun _ => true) (Exp.EVar 0 (Ty.TBag Ty.TInt))
        (Exp.EVar 1 Ty.TInt) ETRUE = none) :=
  ⟨⟨by decide,
    (cardinality_le_single_length_query (fun _ => true) (Exp.EVar 0 (Ty.TBag Ty.TInt))
      (Exp.EVar 1 (Ty.TBag Ty.TInt)) ETRUE).1 (by decide)⟩,
   ⟨by decide,
    (cardinality_le_single_length_query (fun _ => true) (Exp.EVar 0 (Ty.TBag Ty.TInt))
      (Exp.EVar 1 Ty.TInt) ETRUE).2 (by decide)⟩⟩

/-- C6: for every expression and any non-runtime pool (the state pool in
particular), the cost's formula is the literal constant 0 — hence it
evaluates to 0 under every variable binding — and its secondary is the
expression's node count divided by 100. -/
theorem state_pool_trivial (e : Exp) (pool n : Nat) (h : pool ≠ RUNTIME_POOL) :
    (cost e pool n).1.formula = ZERO ∧
    (∀ env : Nat → Int, evalA env (cost e pool n).1.formula = 0) ∧
    (cost e pool n).1.secondary = (sizeE e : Rat) / 100 := by
  unfold cost
  simp only [simple_cost_model, if_false, h, Bool.false_eq_true]
  exact ⟨trivial, fun env => rfl, rfl⟩

/-- C6 witness: the state-pool cost of `len xs` at a concrete input. -/
theorem state_pool_trivial_witness :
    STATE_POOL ≠ RUNTIME_POOL ∧
    (cost (Exp.EUnaryOp "len" (Exp.EVar 0 (Ty.TBag Ty.TInt))) STATE_POOL 1).1.formula = ZERO ∧
    (cost (Exp.EUnaryOp "len" (Exp.EVar 0 (Ty.TBag Ty.TInt))) STATE_POOL 1).1.secondary =
      ((2 : Rat) / 100) :=
  ⟨by decide,
   (state_pool_trivial (Exp.EUnaryOp "len" (Exp.EVar 0 (Ty.TBag Ty.TInt))) STATE_POOL 1
      (by decide)).1,
   ((state_pool_trivial (Exp.EUnaryOp "len" (Exp.EVar 0 (Ty.TBag Ty.TInt))) STATE_POOL 1
      (by decide)).2.2.trans (by norm_num [sizeE]))⟩

/-- C10: contrary to the claim, the runtime-pool path of `cost` does not
record the argument as the `Cost`'s source expression whenever the
cardinality table is non-empty: the loop `for e, v in
self.cardinalities.items()` rebinds `e`, so the last table key is stored.
At the concrete input `len xs` (with `xs : Bag Int` free), the recorded
expression is `xs`, not `len xs`. -/
theorem cost_records_shadowed_expression :
    (cost (Exp.EUnaryOp "len" (Exp.EVar 0 (Ty.TBag Ty.TInt))) RUNTIME_POOL 1).1.e =
      some (Exp.EVar 0 (Ty.TBag Ty.TInt)) ∧
    (cost (Exp.EUnaryOp "len" (Exp.EVar 0 (Ty.TBag Ty.TInt))) RUNTIME_POOL 1).1.e ≠
      some (Exp.EUnaryOp "len" (Exp.EVar 0 (Ty.TBag Ty.TInt))) ∧
    (cost (Exp.EUnaryOp "len" (Exp.EVar 0 (Ty.TBag Ty.TInt))) STATE_POOL 1).1.e =
      some (Exp.EUnaryOp "len" (Exp.EVar 0 (Ty.TBag Ty.TInt))) := by
  exact ⟨by decide, by decide, by decide⟩
/-- C2: `always` returns a defined boolean within at most two solver
calls and never raises.  When both formulas are numeric literals the
comparison is evaluated directly with no solver call; otherwise the
implication `(assumptions1 and assumptions2 and joint constraints) ==>
(formula1 op formula2)` is asked under integer arithmetic (`QF_LIA`,
1-second timeout); on "unknown" the same implication is retried exactly
once with every cardinality variable retyped to real (`QF_NRA`,
5-second timeout), and a second "unknown" makes the result `False`. -/
theorem always_two_calls_and_real_retry (ctx : SolverCtx) (c1 c2 : Cost) (op : String)
    (A : Exp) (cards : Exp) :
    ((alwaysR ctx c1 c2 op A (some cards)).2 ≤ 2) ∧
    (alwaysR ctx c1 c2 op A none =
      alwaysR ctx c1 c2 op A (some (order_cardinalities ctx.O c1 c2 A))) ∧
    (isENum c1.formula = true → isENum c2.formula = true →
      alwaysR ctx c1 c2 op A (some cards) =
        (cmpI op (numVal c1.formula) (numVal c2.formula), 0)) ∧
    (¬(isENum c1.formula = true ∧ isENum c2.formula = true) →
      (∀ b, ctx.S (EImplies (EAll [c1.assumptions, c2.assumptions, cards])
            (Exp.EBinOp c1.formula op c2.formula)) "QF_LIA" 1 = SRes.ok b →
          alwaysR ctx c1 c2 op A (some cards) = (b, 1)) ∧
      (ctx.S (EImplies (EAll [c1.assumptions, c2.assumptions, cards])
            (Exp.EBinOp c1.formula op c2.formula)) "QF_LIA" 1 = SRes.unknown →
        (∀ b, ctx.S (relaxReal (freeVarIds cards)
              (EImplies (EAll [c1.assumptions, c2.assumptions, cards])
                (Exp.EBinOp c1.formula op c2.formula))) "QF_NRA" 5 = SRes.ok b →
            alwaysR ctx c1 c2 op A (some cards) = (b, 2)) ∧
        (ctx.S (relaxReal (freeVarIds cards)
              (EImplies (EAll [c1.assumptions, c2.assumptions, cards])
                (Exp.EBinOp c1.formula op c2.formula))) "QF_NRA" 5 = SRes.unknown →
          alwaysR ctx c1 c2 op A (some cards) = (false, 2)))) := by
  refine ⟨?_, rfl, ?_, ?_⟩
  · unfold alwaysR
    dsimp only
    split
    · simp
    · split
      · simp
      · split <;> simp
  · intro h1 h2
    unfold alwaysR
    simp [h1, h2]
  · intro hne
    have hcond : (isENum c1.formula && isENum c2.formula) = false := by
      rcases h1 : isENum c1.formula <;> rcases h2 : isENum c2.formula <;> simp_all
    refine ⟨?_, ?_⟩
    · intro b hb
      unfold alwaysR
      simp only [hcond, Bool.false_eq_true, if_false, hb]
    · intro hu
      refine ⟨?_, ?_⟩
      · intro b hb
        unfold alwaysR
        simp only [hcond, Bool.false_eq_true, if_false, hu, hb]
      · intro hu2
        unfold alwaysR
        simp only [hcond, Bool.false_eq_true, if_false, hu, hu2]

/-- C2 witness: with a solver that reports "unknown" twice, `always`
answers `false` after exactly two solver calls at a concrete input. -/
theorem always_two_calls_and_real_retry_witness :
    (¬(isENum (Exp.EVar 0 Ty.TInt) = true ∧ isENum ZERO = true)) ∧
    alwaysR (SolverCtx.mk (fun _ _ _ => SRes.unknown) (fun _ => false))
      { e := none, pool := none, formula := Exp.EVar 0 Ty.TInt }
      { e := none, pool := none, formula := ZERO } "<=" ETRUE (some ETRUE) =
      (false, 2) :=
  ⟨by decide,
   (((always_two_calls_and_real_retry
        (SolverCtx.mk (fun _ _ _ => SRes.unknown) (fun _ => false))
        { e := none, pool := none, formula := Exp.EVar 0 Ty.TInt }
        { e := none, pool := none, formula := ZERO } "<=" ETRUE ETRUE).2.2.2
      (by decide)).2 rfl).2 rfl⟩
/-- C4: `order_cardinalities` merges the two cardinality maps and
returns the conjunction that asserts `v >= 0` for every merged
cardinality variable, `v1 = v2` for every pair of distinct variables
denoting same-typed alpha-equivalent expressions, and `v1 <= v2`
whenever the cardinality oracle proves `|e1| <= |e2|` under the
assumptions; a strict `v1 < v2` is never asserted, because
`cardinality_le_implies_lt` returns `False` unconditionally. -/
theorem order_cardinalities_conjunct_shape (O : Exp → Bool) (c1 c2 : Cost) (A : Exp) :
    order_cardinalities O c1 c2 A =
      EAll (cardConds O A (mergeCards c1.cardinalities c2.cardinalities)) ∧
    (∀ p ∈ mergeCards c1.cardinalities c2.cardinalities,
      geF (Exp.EVar p.1 Ty.TInt) ZERO ∈
        cardConds O A (mergeCards c1.cardinalities c2.cardinalities)) ∧
    (∀ p1 ∈ mergeCards c1.cardinalities c2.cardinalities,
     ∀ p2 ∈ mergeCards c1.cardinalities c2.cardinalities,
      p1.1 ≠ p2.1 → typeOf p1.2 = typeOf p2.2 → alphaEquivalent p1.2 p2.2 = true →
      EEq (Exp.EVar p1.1 Ty.TInt) (Exp.EVar p2.1 Ty.TInt) ∈
        cardConds O A (mergeCards c1.cardinalities c2.cardinalities)) ∧
    (∀ p1 ∈ mergeCards c1.cardinalities c2.cardinalities,
     ∀ p2 ∈ mergeCards c1.cardinalities c2.cardinalities,
      p1.1 ≠ p2.1 → typeOf p1.2 = typeOf p2.2 → alphaEquivalent p1.2 p2.2 = false →
      cardinality_le O p1.2 p2.2 A = some true →
      leF (Exp.EVar p1.1 Ty.TInt) (Exp.EVar p2.1 Ty.TInt) ∈
        cardConds O A (mergeCards c1.cardinalities c2.cardinalities)) ∧
    (∀ f ∈ cardConds O A (mergeCards c1.cardinalities c2.cardinalities),
      isStrictLt f = false) ∧
    (∀ x y z : Exp, cardinality_le_implies_lt x y z = false) := by
  refine ⟨rfl, ?_, ?_, ?_, ?_, fun _ _ _ => rfl⟩
  · intro p hp
    exact List.mem_flatMap.mpr ⟨p, hp, List.mem_cons_self _ _⟩
  · intro p1 hp1 p2 hp2 hne hty ha
    refine List.mem_flatMap.mpr ⟨p1, hp1, List.mem_cons_of_mem _ ?_⟩
    refine List.mem_flatMap.mpr ⟨p2, hp2, ?_⟩
    simp [hne, hty, ha]
  · intro p1 hp1 p2 hp2 hne hty ha hle
    refine List.mem_flatMap.mpr ⟨p1, hp1, List.mem_cons_of_mem _ ?_⟩
    refine List.mem_flatMap.mpr ⟨p2, hp2, ?_⟩
    simp [hne, hty, ha, hle, cardinality_le_implies_lt]
  · intro f hf
    rcases List.mem_flatMap.mp hf with ⟨p1, _, hf⟩
    rcases List.mem_cons.mp hf with rfl | hf
    · rfl
    rcases List.mem_flatMap.mp hf with ⟨p2, _, hf⟩
    simp only [cardinality_le_implies_lt, if_false] at hf
    split at hf
    · simp at hf
    split at hf
    · simp at hf
    split at hf
    · rcases List.mem_singleton.mp hf with rfl
      rfl
    split at hf
    · rcases List.mem_singleton.mp hf with rfl
      rfl
    · simp at hf

/-- C4 witness: two concrete bag variables whose cardinality variables
the oracle orders; the constraints contain the non-negativity and `<=`
facts and no strict `<`. -/
theorem order_cardinalities_conjunct_shape_witness :
    (geF (Exp.EVar 1 Ty.TInt) ZERO ∈
      cardConds (fun _ => true) ETRUE
        (mergeCards [(1, Exp.EVar 0 (Ty.TBag Ty.TInt))] [(2, Exp.EVar 3 (Ty.TBag Ty.TInt))])) ∧
    (leF (Exp.EVar 1 Ty.TInt) (Exp.EVar 2 Ty.TInt) ∈
      cardConds (fun _ => true) ETRUE
        (mergeCards [(1, Exp.EVar 0 (Ty.TBag Ty.TInt))] [(2, Exp.EVar 3 (Ty.TBag Ty.TInt))])) :=
  ⟨(order_cardinalities_conjunct_shape (fun _ => true)
      { e := none, pool := none, formula := ZERO,
        cardinalities := [(1, Exp.EVar 0 (Ty.TBag Ty.TInt))] }
      { e := none, pool := none, formula := ZERO,
        cardinalities := [(2, Exp.EVar 3 (Ty.TBag Ty.TInt))] } ETRUE).2.1
     (1, Exp.EVar 0 (Ty.TBag Ty.TInt)) (by decide),
   (order_cardinalities_conjunct_shape (fun _ => true)
      { e := none, pool := none, formula := ZERO,
        cardinalities := [(1, Exp.EVar 0 (Ty.TBag Ty.TInt))] }
      { e := none, pool := none, formula := ZERO,
        cardinalities := [(2, Exp.EVar 3 (Ty.TBag Ty.TInt))] } ETRUE).2.2.2.1
     (1, Exp.EVar 0 (Ty.TBag Ty.TInt)) (by decide)
     (2, Exp.EVar 3 (Ty.TBag Ty.TInt)) (by decide)
     (by decide) (by decide) (by decide) (by decide)⟩
/-!  ## Semantics of the sum machinery  -/

theorem evalA_break_sum (env : Nat → Int) (e : Exp) :
    ((break_sum e).map (evalA env)).sum = evalA env e := by
  induction e using break_sum.induct with
  | case1 a b ih1 ih2 =>
      simp [break_sum, List.sum_append, ih1, ih2, evalA, binopI]
  | case2 e h =>
      cases e <;> simp_all [break_sum, evalA]

theorem evalA_filter_zero (env : Nat → Int) (l : List Exp) :
    ((l.filter (fun e => e ≠ ZERO)).map (evalA env)).sum = (l.map (evalA env)).sum := by
  induction l with
  | nil => rfl
  | cons x xs ih =>
      by_cases hx : x = ZERO
      · subst hx
        simpa [ZERO, evalA] using ih
      · rw [List.filter_cons_of_pos (by simp [hx])]
        simp only [List.map_cons, List.sum_cons, ih]

theorem evalA_split_nums (env : Nat → Int) (l : List Exp) :
    (l.map (evalA env)).sum =
      ((l.filter (fun e => isENum e)).map (evalA env)).sum +
        ((l.filter (fun e => ¬ isENum e)).map (evalA env)).sum := by
  induction l with
  | nil => rfl
  | cons x xs ih =>
      by_cases hx : isENum x = true
      · simp [List.filter_cons, hx, ih]
        ring
      · simp [List.filter_cons, hx, ih]
        ring

theorem evalA_nums_fold (env : Nat → Int) (l : List Exp) :
    ((l.filter (fun e => isENum e)).map (evalA env)).sum =
      ((l.filter (fun e => isENum e)).map numVal).sum := by
  induction l with
  | nil => rfl
  | cons x xs ih =>
      by_cases hx : isENum x = true
      · cases x <;> simp_all [List.filter_cons, isENum, evalA, numVal]
      · simp [List.filter_cons, hx, ih]

theorem evalA_bbtF_add (env : Nat → Int) :
    ∀ (fuel : Nat) (es : List Exp), es.length ≤ fuel →
      evalA env (bbtF "+" ZERO fuel es) = (es.map (evalA env)).sum := by
  intro fuel
  induction fuel with
  | zero =>
      intro es h
      have : es = [] := List.length_eq_zero.mp (Nat.le_zero.mp h)
      subst this
      rfl
  | succ fuel ih =>
      intro es h
      match es with
      | [] => rfl
      | [e] => simp [bbtF]
      | a :: b :: rest =>
          have hlen : (a :: b :: rest).length = rest.length + 2 := by simp
          have htake : ((a :: b :: rest).take ((a :: b :: rest).length / 2)).length ≤ fuel := by
            simp only [List.length_take, hlen]
            omega
          have hdrop : ((a :: b :: rest).drop ((a :: b :: rest).length / 2)).length ≤ fuel := by
            simp only [List.length_drop, hlen]
            simp only [hlen] at h
            omega
          rw [bbtF, evalA, ih _ htake, ih _ hdrop]
          have := List.take_append_drop ((a :: b :: rest).length / 2) (a :: b :: rest)
          calc binopI "+" (((a :: b :: rest).take ((a :: b :: rest).length / 2)).map (evalA env)).sum
                (((a :: b :: rest).drop ((a :: b :: rest).length / 2)).map (evalA env)).sum
              = (((a :: b :: rest).take ((a :: b :: rest).length / 2)).map (evalA env)).sum +
                (((a :: b :: rest).drop ((a :: b :: rest).length / 2)).map (evalA env)).sum := by
                simp [binopI]
            _ = ((a :: b :: rest).map (evalA env)).sum := by
                rw [← List.sum_append, ← List.map_append, this]

theorem evalA_buildBalancedTree_add (env : Nat → Int) (es : List Exp) :
    evalA env (buildBalancedTree "+" ZERO es) = (es.map (evalA env)).sum :=
  evalA_bbtF_add env es.length es le_rfl

/-- The flattening, zero-dropping, constant-folding `ESum` preserves the
integer value of the summand list under every binding. -/
theorem evalA_ESum (env : Nat → Int) (es : List Exp) :
    evalA env (ESum es) = (es.map (evalA env)).sum := by
  unfold ESum
  have hflat : ∀ l : List Exp,
      ((l.flatMap break_sum).map (evalA env)).sum = (l.map (evalA env)).sum := by
    intro l
    induction l with
    | nil => rfl
    | cons x xs ih => simp [List.flatMap_cons, List.sum_append, ih, evalA_break_sum]
  set l1 := (es.flatMap break_sum).filter (fun e => e ≠ ZERO) with hl1
  have hsum1 : (l1.map (evalA env)).sum = (es.map (evalA env)).sum := by
    rw [hl1, evalA_filter_zero, hflat]
  by_cases hemp : l1.isEmpty
  · simp only [hemp, if_true]
    rw [← hsum1, List.isEmpty_iff.mp hemp]
    rfl
  · simp only [hemp, if_false, Bool.false_eq_true]
    by_cases hnums : (l1.filter (fun e => isENum e)).isEmpty
    · simp only [hnums, if_true]
      rw [evalA_buildBalancedTree_add, ← hsum1, evalA_split_nums env l1,
        List.isEmpty_iff.mp hnums]
      simp
    · simp only [hnums, if_false, Bool.false_eq_true]
      rw [evalA_buildBalancedTree_add, ← hsum1, evalA_split_nums env l1]
      rw [List.map_append, List.sum_append, ← evalA_nums_fold]
      simp [evalA]
      ring
theorem sizeE_pos (e : Exp) : 1 ≤ sizeE e := by
  cases e <;> simp [sizeE]

/-- The fuel of `visitF` is irrelevant once it covers the node count:
any sufficient fuel computes the same fold as `visitC`. -/
theorem visitF_fuel (m : Nat) (e : Exp) (st : CMState) (hm : sizeE e ≤ m) :
    visitF m e st = visitF (sizeE e) e st := by
  induction m using Nat.strong_induction_on generalizing e st with
  | _ m IH =>
  obtain ⟨k, rfl⟩ : ∃ k, m = k + 1 := ⟨m - 1, by have := sizeE_pos e; omega⟩
  cases e with
  | ENum n => rfl
  | EBool b => rfl
  | EVar i t => rfl
  | EEmptyList t => rfl
  | ESingleton a =>
      have h1 : sizeE a ≤ k := by simp [sizeE] at hm; omega
      simp only [visitF]
      rw [IH k (by omega) a st h1]
  | ECond c t f =>
      have hm' : sizeE c + sizeE t + sizeE f + 1 ≤ k + 1 := by simpa [sizeE] using hm
      simp only [visitF]
      rw [IH k (by omega) c st (by omega),
        IH (sizeE c + sizeE t + sizeE f) (by omega) c st (by omega),
        IH k (by omega) t _ (by omega),
        IH (sizeE c + sizeE t + sizeE f) (by omega) t _ (by omega),
        IH k (by omega) f _ (by omega),
        IH (sizeE c + sizeE t + sizeE f) (by omega) f _ (by omega)]
  | EStateVar a => simp only [visitF]
  | EUnaryOp op a =>
      have hm' : sizeE a + 1 ≤ k + 1 := by simpa [sizeE] using hm
      simp only [visitF]
      rw [IH k (by omega) a st (by omega)]
  | EBinOp e1 op e2 =>
      have hm' : sizeE e1 + sizeE e2 + 1 ≤ k + 1 := by simpa [sizeE] using hm
      simp only [visitF]
      rw [IH k (by omega) e1 st (by omega),
        IH (sizeE e1 + sizeE e2) (by omega) e1 st (by omega),
        IH k (by omega) e2 _ (by omega),
        IH (sizeE e1 + sizeE e2) (by omega) e2 _ (by omega)]
  | ELambda x t b =>
      have hm' : sizeE b + 1 ≤ k + 1 := by simpa [sizeE] using hm
      simp only [visitF]
      rw [IH k (by omega) _ _ (by rw [sizeE_substVar_var]; omega),
        IH (sizeE b) (by omega) _ _ (by rw [sizeE_substVar_var])]
  | EMapGet a b =>
      have hm' : sizeE a + sizeE b + 1 ≤ k + 1 := by simpa [sizeE] using hm
      simp only [visitF]
      rw [IH k (by omega) a st (by omega),
        IH (sizeE a + sizeE b) (by omega) a st (by omega),
        IH k (by omega) b _ (by omega),
        IH (sizeE a + sizeE b) (by omega) b _ (by omega)]
  | EMakeMap2 a b =>
      have hm' : sizeE a + sizeE b + 1 ≤ k + 1 := by simpa [sizeE] using hm
      simp only [visitF]
      rw [IH k (by omega) a st (by omega),
        IH (sizeE a + sizeE b) (by omega) a st (by omega),
        IH k (by omega) b _ (by omega),
        IH (sizeE a + sizeE b) (by omega) b _ (by omega)]
  | EFilter a b =>
      have hm' : sizeE a + sizeE b + 1 ≤ k + 1 := by simpa [sizeE] using hm
      simp only [visitF]
      rw [IH k (by omega) a st (by omega),
        IH (sizeE a + sizeE b) (by omega) a st (by omega),
        IH k (by omega) b _ (by omega),
        IH (sizeE a + sizeE b) (by omega) b _ (by omega)]
  | EMap a b =>
      have hm' : sizeE a + sizeE b + 1 ≤ k + 1 := by simpa [sizeE] using hm
      simp only [visitF]
      rw [IH k (by omega) a st (by omega),
        IH (sizeE a + sizeE b) (by omega) a st (by omega),
        IH k (by omega) b _ (by omega),
        IH (sizeE a + sizeE b) (by omega) b _ (by omega)]
  | EFlatMap a b =>
      have hm' : sizeE a + sizeE b + 1 ≤ k + 1 := by simpa [sizeE] using hm
      simp only [visitF]
      rw [IH k (by omega) a st (by omega),
        IH (sizeE a + sizeE b) (by omega) a st (by omega),
        IH k (by omega) b _ (by omega),
        IH (sizeE a + sizeE b) (by omega) b _ (by omega)]
  | EArgMin a b =>
      have hm' : sizeE a + sizeE b + 1 ≤ k + 1 := by simpa [sizeE] using hm
      simp only [visitF]
      rw [IH k (by omega) a st (by omega),
        IH (sizeE a + sizeE b) (by omega) a st (by omega),
        IH k (by omega) b _ (by omega),
        IH (sizeE a + sizeE b) (by omega) b _ (by omega)]
  | EArgMax a b =>
      have hm' : sizeE a + sizeE b + 1 ≤ k + 1 := by simpa [sizeE] using hm
      simp only [visitF]
      rw [IH k (by omega) a st (by omega),
        IH (sizeE a + sizeE b) (by omega) a st (by omega),
        IH k (by omega) b _ (by omega),
        IH (sizeE a + sizeE b) (by omega) b _ (by omega)]
  | EDropFront a =>
      have hm' : sizeE a + 1 ≤ k + 1 := by simpa [sizeE] using hm
      simp only [visitF]
      rw [IH k (by omega) a st (by omega)]
  | EDropBack a =>
      have hm' : sizeE a + 1 ≤ k + 1 := by simpa [sizeE] using hm
      simp only [visitF]
      rw [IH k (by omega) a st (by omega)]
theorem lookBnd_refl (env : List (Nat × Nat)) (h : ∀ p ∈ env, p.1 = p.2) (x : Nat) :
    (lookBndL env x = none ∧ lookBndR env x = none) ∨
      (lookBndL env x = some x ∧ lookBndR env x = some x) := by
  induction env with
  | nil => exact Or.inl ⟨rfl, rfl⟩
  | cons a rest ih =>
      obtain ⟨u, v⟩ := a
      have huv : u = v := h (u, v) (List.mem_cons_self _ _)
      subst huv
      have hrest := ih (fun p hp => h p (List.mem_cons_of_mem _ hp))
      by_cases hx : u = x
      · subst hx
        refine Or.inr ⟨?_, ?_⟩
        · simp [lookBndL, List.find?_cons]
        · simp [lookBndR, List.find?_cons]
      · have e1 : lookBndL ((u, u) :: rest) x = lookBndL rest x := by
          simp [lookBndL, List.find?_cons, hx]
        have e2 : lookBndR ((u, u) :: rest) x = lookBndR rest x := by
          simp [lookBndR, List.find?_cons, hx]
        rw [e1, e2]
        exact hrest

theorem alphaEqAux_refl (e : Exp) :
    ∀ env : List (Nat × Nat), (∀ p ∈ env, p.1 = p.2) → alphaEqAux env e e = true := by
  induction e with
  | ENum n => intro env h; simp [alphaEqAux]
  | EBool b => intro env h; simp [alphaEqAux]
  | EVar x tx =>
      intro env h
      rcases lookBnd_refl env h x with ⟨h1, h2⟩ | ⟨h1, h2⟩ <;>
        simp [alphaEqAux, h1, h2]
  | EBinOp a op b iha ihb => intro env h; simp [alphaEqAux, iha env h, ihb env h]
  | EUnaryOp op a iha => intro env h; simp [alphaEqAux, iha env h]
  | EEmptyList t => intro env h; simp [alphaEqAux]
  | ESingleton a iha => intro env h; simp [alphaEqAux, iha env h]
  | ECond a b c iha ihb ihc =>
      intro env h; simp [alphaEqAux, iha env h, ihb env h, ihc env h]
  | ELambda x t b ihb =>
      intro env h
      have hx : ∀ p ∈ (x, x) :: env, p.1 = p.2 := by
        intro p hp
        rcases List.mem_cons.mp hp with rfl | hp
        · rfl
        · exact h p hp
      simp [alphaEqAux, ihb ((x, x) :: env) hx]
  | EMap a b iha ihb => intro env h; simp [alphaEqAux, iha env h, ihb env h]
  | EFilter a b iha ihb => intro env h; simp [alphaEqAux, iha env h, ihb env h]
  | EFlatMap a b iha ihb => intro env h; simp [alphaEqAux, iha env h, ihb env h]
  | EArgMin a b iha ihb => intro env h; simp [alphaEqAux, iha env h, ihb env h]
  | EArgMax a b iha ihb => intro env h; simp [alphaEqAux, iha env h, ihb env h]
  | EMakeMap2 a b iha ihb => intro env h; simp [alphaEqAux, iha env h, ihb env h]
  | EMapGet a b iha ihb => intro env h; simp [alphaEqAux, iha env h, ihb env h]
  | EStateVar a iha => intro env h; simp [alphaEqAux, iha env h]
  | EDropFront a iha => intro env h; simp [alphaEqAux, iha env h]
  | EDropBack a iha => intro env h; simp [alphaEqAux, iha env h]

theorem alphaEquivalent_refl (e : Exp) : alphaEquivalent e e = true :=
  alphaEqAux_refl e [] (by intro p hp; cases hp)

theorem largePass_filter (l : List (Nat × Ty)) (st : CMState) :
    largePass l st = largePass (l.filter (fun q => isCollection q.2)) st := by
  induction l generalizing st with
  | nil => rfl
  | cons a rest ih =>
      obtain ⟨id, ty⟩ := a
      by_cases hc : isCollection ty = true
      · rw [List.filter_cons_of_pos (by simpa using hc)]
        simp only [largePass, hc, if_true]
        exact ih _
      · rw [List.filter_cons_of_neg (by simpa using hc)]
        simp only [largePass, hc, if_false, Bool.false_eq_true]
        exact ih _
/-- C7: for a free bag-typed variable `xs` and a predicate lambda `p`
(`xs` being the only collection-typed free variable of the filter), the
formula produced by `cost (EFilter xs p) RUNTIME_POOL` equals — under
every integer binding of the cardinality variables, i.e. as a valid
`==` with no extra assumptions — `2 + cost(xs) + cardinality(xs) *
cost(p)`, where `cost(xs)` and `cost(p)` are the fold results for the
subterms and `cardinality(xs)` is `xs`'s cardinality variable (the
first fresh variable `n`). -/
theorem filter_cost_decomposition (xid parg : Nat) (t pty : Ty) (pbody : Exp) (n : Nat)
    (hfv : (freeVars (Exp.EFilter (Exp.EVar xid (Ty.TBag t))
        (Exp.ELambda parg pty pbody))).filter
        (fun q => isCollection q.2) = [(xid, Ty.TBag t)]) :
    (cardinality (Exp.EVar xid (Ty.TBag t))
        (largePass (freeVars (Exp.EFilter (Exp.EVar xid (Ty.TBag t))
            (Exp.ELambda parg pty pbody))) (CMState.mk [] [] 0 n))).1 =
      Exp.EVar n Ty.TInt ∧
    (∀ env : Nat → Int,
      evalA env (cost (Exp.EFilter (Exp.EVar xid (Ty.TBag t))
          (Exp.ELambda parg pty pbody)) RUNTIME_POOL n).1.formula =
        2 + evalA env (visitC (Exp.EVar xid (Ty.TBag t))
              (largePass (freeVars (Exp.EFilter (Exp.EVar xid (Ty.TBag t))
                  (Exp.ELambda parg pty pbody))) (CMState.mk [] [] 0 n))).1 +
          evalA env (cardinality (Exp.EVar xid (Ty.TBag t))
              (largePass (freeVars (Exp.EFilter (Exp.EVar xid (Ty.TBag t))
                  (Exp.ELambda parg pty pbody))) (CMState.mk [] [] 0 n))).1 *
            evalA env (visitC (Exp.ELambda parg pty pbody)
              (largePass (freeVars (Exp.EFilter (Exp.EVar xid (Ty.TBag t))
                  (Exp.ELambda parg pty pbody))) (CMState.mk [] [] 0 n))).1) := by
  have hst : largePass (freeVars (Exp.EFilter (Exp.EVar xid (Ty.TBag t))
      (Exp.ELambda parg pty pbody))) (CMState.mk [] [] 0 n) =
      CMState.mk [(Exp.EVar xid (Ty.TBag t), n)]
        [gtF (Exp.EVar n Ty.TInt) (Exp.ENum 1000)] 0 (n + 1) := by
    rw [largePass_filter, hfv]
    simp [largePass, isCollection, cardinality, memoPlain, lookupCard, allocCard]
  have hcard : cardinality (Exp.EVar xid (Ty.TBag t))
      (CMState.mk [(Exp.EVar xid (Ty.TBag t), n)]
        [gtF (Exp.EVar n Ty.TInt) (Exp.ENum 1000)] 0 (n + 1)) =
      (Exp.EVar n Ty.TInt,
        CMState.mk [(Exp.EVar xid (Ty.TBag t), n)]
          [gtF (Exp.EVar n Ty.TInt) (Exp.ENum 1000)] 0 (n + 1)) := by
    simp [cardinality, memoPlain, lookupCard, List.find?_cons, alphaEquivalent_refl]
  have hvisit : visitC (Exp.EFilter (Exp.EVar xid (Ty.TBag t)) (Exp.ELambda parg pty pbody))
      (CMState.mk [(Exp.EVar xid (Ty.TBag t), n)]
        [gtF (Exp.EVar n Ty.TInt) (Exp.ENum 1000)] 0 (n + 1)) =
      (ESum [TWO, ONE, Exp.EBinOp (Exp.EVar n Ty.TInt) "*"
          (visitC (Exp.ELambda parg pty pbody)
            (CMState.mk [(Exp.EVar xid (Ty.TBag t), n)]
              [gtF (Exp.EVar n Ty.TInt) (Exp.ENum 1000)] 0 (n + 1))).1],
        (visitC (Exp.ELambda parg pty pbody)
          (CMState.mk [(Exp.EVar xid (Ty.TBag t), n)]
            [gtF (Exp.EVar n Ty.TInt) (Exp.ENum 1000)] 0 (n + 1))).2) := by
    have hsz : sizeE (Exp.EFilter (Exp.EVar xid (Ty.TBag t)) (Exp.ELambda parg pty pbody)) =
        (1 + (sizeE pbody + 1)) + 1 := by
      simp [sizeE]
    unfold visitC
    rw [hsz]
    simp only [visitF]
    rw [hcard]
    dsimp only
    rw [visitF_fuel (Nat.add 1 (sizeE pbody)) (substVar parg (Exp.EVar (n + 1) pty) pbody)
        (CMState.mk [(Exp.EVar xid (Ty.TBag t), n)]
          [gtF (Exp.EVar n Ty.TInt) (Exp.ENum 1000)] 0 (n + 1 + 1))
        (by rw [sizeE_substVar_var]; exact Nat.le_add_left _ _), sizeE_substVar_var]
  have hform : (cost (Exp.EFilter (Exp.EVar xid (Ty.TBag t))
      (Exp.ELambda parg pty pbody)) RUNTIME_POOL n).1.formula =
      ESum [TWO, ONE, Exp.EBinOp (Exp.EVar n Ty.TInt) "*"
        (visitC (Exp.ELambda parg pty pbody)
          (CMState.mk [(Exp.EVar xid (Ty.TBag t), n)]
            [gtF (Exp.EVar n Ty.TInt) (Exp.ENum 1000)] 0 (n + 1))).1] := by
    unfold cost
    simp only [simple_cost_model, Bool.false_eq_true, if_false, assume_large_cardinalities,
      if_true, RUNTIME_POOL, if_pos rfl]
    rw [hst]
    rw [show visitC = fun e st => visitF (sizeE e) e st from rfl] at hvisit ⊢
    simp only at hvisit ⊢
    rw [hvisit]
  constructor
  · rw [hst, hcard]
  · intro env
    rw [hform, hst, hcard, evalA_ESum]
    simp [evalA, binopI, TWO, ONE, visitC]
    ring

/-- C7 witness: the decomposition at `xs : Bag Int`, `p = fun a => true`,
counter 5, under the binding sending every variable to 7. -/
theorem filter_cost_decomposition_witness :
    ((freeVars (Exp.EFilter (Exp.EVar 0 (Ty.TBag Ty.TInt))
        (Exp.ELambda 1 Ty.TInt (Exp.EBool true)))).filter
        (fun q => isCollection q.2) = [(0, Ty.TBag Ty.TInt)]) ∧
    evalA (fun _ => 7) (cost (Exp.EFilter (Exp.EVar 0 (Ty.TBag Ty.TInt))
        (Exp.ELambda 1 Ty.TInt (Exp.EBool true))) RUNTIME_POOL 5).1.formula =
      2 + evalA (fun _ => 7) (visitC (Exp.EVar 0 (Ty.TBag Ty.TInt))
            (largePass (freeVars (Exp.EFilter (Exp.EVar 0 (Ty.TBag Ty.TInt))
                (Exp.ELambda 1 Ty.TInt (Exp.EBool true)))) (CMState.mk [] [] 0 5))).1 +
        evalA (fun _ => 7) (cardinality (Exp.EVar 0 (Ty.TBag Ty.TInt))
            (largePass (freeVars (Exp.EFilter (Exp.EVar 0 (Ty.TBag Ty.TInt))
                (Exp.ELambda 1 Ty.TInt (Exp.EBool true)))) (CMState.mk [] [] 0 5))).1 *
          evalA (fun _ => 7) (visitC (Exp.ELambda 1 Ty.TInt (Exp.EBool true))
            (largePass (freeVars (Exp.EFilter (Exp.EVar 0 (Ty.TBag Ty.TInt))
                (Exp.ELambda 1 Ty.TInt (Exp.EBool true)))) (CMState.mk [] [] 0 5))).1 :=
  ⟨by decide,
   (filter_cost_decomposition 0 1 Ty.TInt Ty.TInt (Exp.EBool true) 5 (by decide)).2 (fun _ => 7)⟩
/-- `cardinality` only appends to the memo table. -/
theorem cardinality_table_mono (e : Exp) (st : CMState) :
    ∃ d, (cardinality e st).2.cardinalities = st.cardinalities ++ d := by
  induction e, st using cardinality.induct with
  | case1 t st => exact ⟨[], by simp [cardinality]⟩
  | case2 e st => exact ⟨[], by simp [cardinality]⟩
  | case3 a f st ih => simpa [cardinality] using ih
  | case4 a st ih => simpa [cardinality] using ih
  | case5 e1 e2 st ih1 ih2 =>
      obtain ⟨d1, h1⟩ := ih1
      obtain ⟨d2, h2⟩ := ih2
      exact ⟨d1 ++ d2, by simp [cardinality, h2, h1]⟩
  | case6 e1 op e2 st hop v hlook =>
      exact ⟨[], by simp [cardinality, hop, hlook]⟩
  | case7 e1 e2 st htriv hlook ih =>
      obtain ⟨d, hd⟩ := ih
      refine ⟨(Exp.EBinOp e1 "-" e2, st.counter) :: d, ?_⟩
      simp [cardinality, hlook, allocCard] at hd ⊢
      simp [hd]
  | case8 e1 op e2 st hop hlook hne =>
      exact ⟨[(Exp.EBinOp e1 op e2, st.counter)], by
        simp [cardinality, hop, hlook, hne, allocCard]⟩
  | case9 op a st v hlook => exact ⟨[], by simp [cardinality, hlook]⟩
  | case10 a st hlook ih =>
      obtain ⟨d, hd⟩ := ih
      refine ⟨(Exp.EUnaryOp "distinct" a, st.counter) :: d, ?_⟩
      simp [cardinality, hlook, allocCard] at hd ⊢
      simp [hd]
  | case11 op a st hlook hop =>
      exact ⟨[(Exp.EUnaryOp op a, st.counter)], by simp [cardinality, hlook, hop, allocCard]⟩
  | case12 a p st v hlook => exact ⟨[], by simp [cardinality, hlook]⟩
  | case13 a p st hlook ih =>
      obtain ⟨d, hd⟩ := ih
      refine ⟨(Exp.EFilter a p, st.counter) :: d, ?_⟩
      simp [cardinality, hlook, allocCard] at hd ⊢
      simp [hd]
  | case14 c t f st v hlook => exact ⟨[], by simp [cardinality, hlook]⟩
  | case15 c t f st hlook iht ihf =>
      obtain ⟨d1, h1⟩ := iht
      obtain ⟨d2, h2⟩ := ihf
      refine ⟨(Exp.ECond c t f, st.counter) :: (d1 ++ d2), ?_⟩
      simp [cardinality, hlook, allocCard] at h1 h2 ⊢
      simp [h2, h1]
  | case16 n st =>
      rcases h : lookupCard st.cardinalities (Exp.ENum n) with _ | v
      · exact ⟨[(Exp.ENum n, st.counter)], by simp [cardinality, memoPlain, h, allocCard]⟩
      · exact ⟨[], by simp [cardinality, memoPlain, h]⟩
  | case17 b st =>
      rcases h : lookupCard st.cardinalities (Exp.EBool b) with _ | v
      · exact ⟨[(Exp.EBool b, st.counter)], by simp [cardinality, memoPlain, h, allocCard]⟩
      · exact ⟨[], by simp [cardinality, memoPlain, h]⟩
  | case18 id ty st =>
      rcases h : lookupCard st.cardinalities (Exp.EVar id ty) with _ | v
      · exact ⟨[(Exp.EVar id ty, st.counter)], by simp [cardinality, memoPlain, h, allocCard]⟩
      · exact ⟨[], by simp [cardinality, memoPlain, h]⟩
  | case19 x t b st =>
      rcases h : lookupCard st.cardinalities (Exp.ELambda x t b) with _ | v
      · exact ⟨[(Exp.ELambda x t b, st.counter)], by simp [cardinality, memoPlain, h, allocCard]⟩
      · exact ⟨[], by simp [cardinality, memoPlain, h]⟩
  | case20 a b st =>
      rcases h : lookupCard st.cardinalities (Exp.EFlatMap a b) with _ | v
      · exact ⟨[(Exp.EFlatMap a b, st.counter)], by simp [cardinality, memoPlain, h, allocCard]⟩
      · exact ⟨[], by simp [cardinality, memoPlain, h]⟩
  | case21 a b st =>
      rcases h : lookupCard st.cardinalities (Exp.EArgMin a b) with _ | v
      · exact ⟨[(Exp.EArgMin a b, st.counter)], by simp [cardinality, memoPlain, h, allocCard]⟩
      · exact ⟨[], by simp [cardinality, memoPlain, h]⟩
  | case22 a b st =>
      rcases h : lookupCard st.cardinalities (Exp.EArgMax a b) with _ | v
      · exact ⟨[(Exp.EArgMax a b, st.counter)], by simp [cardinality, memoPlain, h, allocCard]⟩
      · exact ⟨[], by simp [cardinality, memoPlain, h]⟩
  | case23 a b st =>
      rcases h : lookupCard st.cardinalities (Exp.EMakeMap2 a b) with _ | v
      · exact ⟨[(Exp.EMakeMap2 a b, st.counter)], by simp [cardinality, memoPlain, h, allocCard]⟩
      · exact ⟨[], by simp [cardinality, memoPlain, h]⟩
  | case24 a b st =>
      rcases h : lookupCard st.cardinalities (Exp.EMapGet a b) with _ | v
      · exact ⟨[(Exp.EMapGet a b, st.counter)], by simp [cardinality, memoPlain, h, allocCard]⟩
      · exact ⟨[], by simp [cardinality, memoPlain, h]⟩
  | case25 a st =>
      rcases h : lookupCard st.cardinalities (Exp.EDropFront a) with _ | v
      · exact ⟨[(Exp.EDropFront a, st.counter)], by simp [cardinality, memoPlain, h, allocCard]⟩
      · exact ⟨[], by simp [cardinality, memoPlain, h]⟩
  | case26 a st =>
      rcases h : lookupCard st.cardinalities (Exp.EDropBack a) with _ | v
      · exact ⟨[(Exp.EDropBack a, st.counter)], by simp [cardinality, memoPlain, h, allocCard]⟩
      · exact ⟨[], by simp [cardinality, memoPlain, h]⟩
/-- Memoized shapes with a table hit reuse the variable and leave the
state untouched. -/
theorem cardinality_lookup_hit (e : Exp) (st : CMState) (v : Nat)
    (hs : structuralCard e = false) (hl : lookupCard st.cardinalities e = some v) :
    cardinality e st = (Exp.EVar v Ty.TInt, st) := by
  cases e with
  | EEmptyList t => simp [structuralCard] at hs
  | ESingleton a => simp [structuralCard] at hs
  | EMap a b => simp [structuralCard] at hs
  | EStateVar a => simp [structuralCard] at hs
  | EBinOp e1 op e2 =>
      have hop : ¬op = "+" := by
        intro h
        subst h
        simp [structuralCard] at hs
      simp [cardinality, hop, hl]
  | EUnaryOp op a => simp [cardinality, hl]
  | EFilter a p => simp [cardinality, hl]
  | ECond c t f => simp [cardinality, hl]
  | ENum n => simp [cardinality, memoPlain, hl]
  | EBool b => simp [cardinality, memoPlain, hl]
  | EVar id ty => simp [cardinality, memoPlain, hl]
  | ELambda x t b => simp [cardinality, memoPlain, hl]
  | EFlatMap a b => simp [cardinality, memoPlain, hl]
  | EArgMin a b => simp [cardinality, memoPlain, hl]
  | EArgMax a b => simp [cardinality, memoPlain, hl]
  | EMakeMap2 a b => simp [cardinality, memoPlain, hl]
  | EMapGet a b => simp [cardinality, memoPlain, hl]
  | EDropFront a => simp [cardinality, memoPlain, hl]
  | EDropBack a => simp [cardinality, memoPlain, hl]

/-- A memoized shape with a table miss allocates the current counter as
its variable and records itself at the head of the table extension. -/
theorem cardinality_alloc_head (e : Exp) (st : CMState)
    (hs : structuralCard e = false) (hl : lookupCard st.cardinalities e = none) :
    (cardinality e st).1 = Exp.EVar st.counter Ty.TInt ∧
    ∃ d, (cardinality e st).2.cardinalities = st.cardinalities ++ ((e, st.counter) :: d) := by
  cases e with
  | EEmptyList t => simp [structuralCard] at hs
  | ESingleton a => simp [structuralCard] at hs
  | EMap a b => simp [structuralCard] at hs
  | EStateVar a => simp [structuralCard] at hs
  | EBinOp e1 op e2 =>
      have hop : ¬op = "+" := by
        intro h
        subst h
        simp [structuralCard] at hs
      by_cases hm : op = "-"
      · subst hm
        obtain ⟨d, hd⟩ := cardinality_table_mono e1 (allocCard (Exp.EBinOp e1 "-" e2) st)
        refine ⟨by simp [cardinality, hop, hl], d, ?_⟩
        simp only [cardinality, hop, hl, if_false, if_true, allocCard] at hd ⊢
        simp [hd]
      · refine ⟨by simp [cardinality, hop, hl, hm], [], ?_⟩
        simp [cardinality, hop, hl, hm, allocCard]
  | EUnaryOp op a =>
      by_cases hm : op = "distinct"
      · subst hm
        obtain ⟨d, hd⟩ := cardinality_table_mono a (allocCard (Exp.EUnaryOp "distinct" a) st)
        refine ⟨by simp [cardinality, hl], d, ?_⟩
        simp only [cardinality, hl, allocCard] at hd ⊢
        simp [hd]
      · refine ⟨by simp [cardinality, hl, hm], [], ?_⟩
        simp [cardinality, hl, hm, allocCard]
  | EFilter a p =>
      obtain ⟨d, hd⟩ := cardinality_table_mono a (allocCard (Exp.EFilter a p) st)
      refine ⟨by simp [cardinality, hl], d, ?_⟩
      simp only [cardinality, hl, allocCard] at hd ⊢
      simp [hd]
  | ECond c t f =>
      obtain ⟨d1, h1⟩ := cardinality_table_mono t (allocCard (Exp.ECond c t f) st)
      obtain ⟨d2, h2⟩ := cardinality_table_mono f
        (cardinality t (allocCard (Exp.ECond c t f) st)).2
      refine ⟨by simp [cardinality, hl], d1 ++ d2, ?_⟩
      simp only [cardinality, hl, allocCard] at h1 h2 ⊢
      simp [h2, h1]
  | ENum n => exact ⟨by simp [cardinality, memoPlain, hl], [], by simp [cardinality, memoPlain, hl, allocCard]⟩
  | EBool b => exact ⟨by simp [cardinality, memoPlain, hl], [], by simp [cardinality, memoPlain, hl, allocCard]⟩
  | EVar id ty => exact ⟨by simp [cardinality, memoPlain, hl], [], by simp [cardinality, memoPlain, hl, allocCard]⟩
  | ELambda x t b => exact ⟨by simp [cardinality, memoPlain, hl], [], by simp [cardinality, memoPlain, hl, allocCard]⟩
  | EFlatMap a b => exact ⟨by simp [cardinality, memoPlain, hl], [], by simp [cardinality, memoPlain, hl, allocCard]⟩
  | EArgMin a b => exact ⟨by simp [cardinality, memoPlain, hl], [], by simp [cardinality, memoPlain, hl, allocCard]⟩
  | EArgMax a b => exact ⟨by simp [cardinality, memoPlain, hl], [], by simp [cardinality, memoPlain, hl, allocCard]⟩
  | EMakeMap2 a b => exact ⟨by simp [cardinality, memoPlain, hl], [], by simp [cardinality, memoPlain, hl, allocCard]⟩
  | EMapGet a b => exact ⟨by simp [cardinality, memoPlain, hl], [], by simp [cardinality, memoPlain, hl, allocCard]⟩
  | EDropFront a => exact ⟨by simp [cardinality, memoPlain, hl], [], by simp [cardinality, memoPlain, hl, allocCard]⟩
  | EDropBack a => exact ⟨by simp [cardinality, memoPlain, hl], [], by simp [cardinality, memoPlain, hl, allocCard]⟩

/-- Scanning an extended table finds the new entry when nothing earlier
matches. -/
theorem lookupCard_append_hit (l1 l2 : List (Exp × Nat)) (e e' : Exp) (v : Nat)
    (h1 : ∀ p ∈ l1, alphaEquivalent p.1 e' = false)
    (h2 : alphaEquivalent e e' = true) :
    lookupCard (l1 ++ ((e, v) :: l2)) e' = some v := by
  induction l1 with
  | nil => simp [lookupCard, List.find?_cons, h2]
  | cons a rest ih =>
      have ha : alphaEquivalent a.1 e' = false := h1 a (List.mem_cons_self _ _)
      have := ih (fun p hp => h1 p (List.mem_cons_of_mem _ hp))
      simp only [lookupCard, List.cons_append, List.find?_cons, ha] at this ⊢
      simpa [lookupCard] using this
/-- C5: within one runtime-pool cost-assignment call, cardinalities are
derived structurally — empty is 0, singleton is 1, concatenation is the
sum of the children, map and state-wrapper delegate to the inner
collection — and every other subexpression gets a fresh integer
variable shared with subsequent alpha-equivalent occurrences, with the
heuristic assumptions recorded at allocation: `v <= c` and `5*v >= 4*c`
for filter and distinct, `v <=` the minuend's cardinality for set
difference, and for a conditional the disjunction that `v` equals one
of the two branch cardinalities. -/
theorem cardinality_structural_and_memo (st : CMState) :
    (∀ t, cardinality (Exp.EEmptyList t) st = (ZERO, st)) ∧
    (∀ x, cardinality (Exp.ESingleton x) st = (ONE, st)) ∧
    (∀ a b, ∀ env : Nat → Int,
      evalA env (cardinality (Exp.EBinOp a "+" b) st).1 =
        evalA env (cardinality a st).1 +
          evalA env (cardinality b (cardinality a st).2).1) ∧
    (∀ a f, cardinality (Exp.EMap a f) st = cardinality a st) ∧
    (∀ a, cardinality (Exp.EStateVar a) st = cardinality a st) ∧
    (∀ e v, structuralCard e = false → lookupCard st.cardinalities e = some v →
      cardinality e st = (Exp.EVar v Ty.TInt, st)) ∧
    (∀ e, structuralCard e = false → lookupCard st.cardinalities e = none →
      (cardinality e st).1 = Exp.EVar st.counter Ty.TInt ∧
      (e, st.counter) ∈ (cardinality e st).2.cardinalities) ∧
    (∀ e e', structuralCard e = false → structuralCard e' = false →
      lookupCard st.cardinalities e = none →
      (∀ p ∈ st.cardinalities, alphaEquivalent p.1 e' = false) →
      alphaEquivalent e e' = true →
      (cardinality e' (cardinality e st).2).1 = Exp.EVar st.counter Ty.TInt) ∧
    (∀ a p, lookupCard st.cardinalities (Exp.EFilter a p) = none →
      (cardinality (Exp.EFilter a p) st).2.assumptions =
        (cardinality a (allocCard (Exp.EFilter a p) st)).2.assumptions ++
          [leF (Exp.EVar st.counter Ty.TInt)
            (cardinality a (allocCard (Exp.EFilter a p) st)).1,
           geF (mulF (Exp.EVar st.counter Ty.TInt) (Exp.ENum 5))
            (mulF (cardinality a (allocCard (Exp.EFilter a p) st)).1 (Exp.ENum 4))]) ∧
    (∀ a, lookupCard st.cardinalities (Exp.EUnaryOp "distinct" a) = none →
      (cardinality (Exp.EUnaryOp "distinct" a) st).2.assumptions =
        (cardinality a (allocCard (Exp.EUnaryOp "distinct" a) st)).2.assumptions ++
          [leF (Exp.EVar st.counter Ty.TInt)
            (cardinality a (allocCard (Exp.EUnaryOp "distinct" a) st)).1,
           geF (mulF (Exp.EVar st.counter Ty.TInt) (Exp.ENum 5))
            (mulF (cardinality a (allocCard (Exp.EUnaryOp "distinct" a) st)).1 (Exp.ENum 4))]) ∧
    (∀ a b, lookupCard st.cardinalities (Exp.EBinOp a "-" b) = none →
      (cardinality (Exp.EBinOp a "-" b) st).2.assumptions =
        (cardinality a (allocCard (Exp.EBinOp a "-" b) st)).2.assumptions ++
          [leF (Exp.EVar st.counter Ty.TInt)
            (cardinality a (allocCard (Exp.EBinOp a "-" b) st)).1]) ∧
    (∀ c t f, lookupCard st.cardinalities (Exp.ECond c t f) = none →
      (cardinality (Exp.ECond c t f) st).2.assumptions =
        (cardinality f (cardinality t (allocCard (Exp.ECond c t f) st)).2).2.assumptions ++
          [EAny [EEq (Exp.EVar st.counter Ty.TInt)
              (cardinality t (allocCard (Exp.ECond c t f) st)).1,
            EEq (Exp.EVar st.counter Ty.TInt)
              (cardinality f (cardinality t (allocCard (Exp.ECond c t f) st)).2).1]]) := by
  refine ⟨fun t => rfl, fun x => rfl, ?_, fun a f => rfl, fun a => rfl,
    fun e v hs hl => cardinality_lookup_hit e st v hs hl, ?_, ?_, ?_, ?_, ?_, ?_⟩
  · intro a b env
    have h : cardinality (Exp.EBinOp a "+" b) st =
        (ESum [(cardinality a st).1, (cardinality b (cardinality a st).2).1],
          (cardinality b (cardinality a st).2).2) := by
      simp [cardinality]
    rw [h, evalA_ESum]
    simp
  · intro e hs hl
    obtain ⟨h1, d, hd⟩ := cardinality_alloc_head e st hs hl
    exact ⟨h1, by rw [hd]; simp⟩
  · intro e e' hs hs' hl hprior halpha
    obtain ⟨h1, d, hd⟩ := cardinality_alloc_head e st hs hl
    have hhit : lookupCard (cardinality e st).2.cardinalities e' = some st.counter := by
      rw [hd]
      exact lookupCard_append_hit st.cardinalities d e e' st.counter hprior halpha
    rw [cardinality_lookup_hit e' _ st.counter hs' hhit]
  · intro a p hl
    simp [cardinality, hl]
  · intro a hl
    simp [cardinality, hl]
  · intro a b hl
    simp [cardinality, hl]
  · intro c t f hl
    simp [cardinality, hl]

/-- C5 witness: the structural, allocation, sharing and heuristic facts
evaluated at concrete inputs (`xs, ys : Bag Int`, one table entry). -/
theorem cardinality_structural_and_memo_witness :
    (cardinality (Exp.EEmptyList Ty.TInt) (CMState.mk [] [] 0 3) =
      (ZERO, CMState.mk [] [] 0 3)) ∧
    (cardinality (Exp.EVar 0 (Ty.TBag Ty.TInt))
        (CMState.mk [(Exp.EVar 0 (Ty.TBag Ty.TInt), 1)] [] 0 2) =
      (Exp.EVar 1 Ty.TInt, CMState.mk [(Exp.EVar 0 (Ty.TBag Ty.TInt), 1)] [] 0 2)) ∧
    ((cardinality (Exp.EVar 0 (Ty.TBag Ty.TInt)) (CMState.mk [] [] 0 3)).1 =
      Exp.EVar 3 Ty.TInt) ∧
    ((cardinality (Exp.EVar 0 (Ty.TBag Ty.TInt))
        (cardinality (Exp.EVar 0 (Ty.TBag Ty.TInt)) (CMState.mk [] [] 0 3)).2).1 =
      Exp.EVar 3 Ty.TInt) ∧
    ((cardinality (Exp.EFilter (Exp.EVar 0 (Ty.TBag Ty.TInt))
          (Exp.ELambda 1 Ty.TInt (Exp.EBool true))) (CMState.mk [] [] 0 3)).2.assumptions =
      (cardinality (Exp.EVar 0 (Ty.TBag Ty.TInt))
          (allocCard (Exp.EFilter (Exp.EVar 0 (Ty.TBag Ty.TInt))
            (Exp.ELambda 1 Ty.TInt (Exp.EBool true))) (CMState.mk [] [] 0 3))).2.assumptions ++
        [leF (Exp.EVar 3 Ty.TInt)
          (cardinality (Exp.EVar 0 (Ty.TBag Ty.TInt))
            (allocCard (Exp.EFilter (Exp.EVar 0 (Ty.TBag Ty.TInt))
              (Exp.ELambda 1 Ty.TInt (Exp.EBool true))) (CMState.mk [] [] 0 3))).1,
         geF (mulF (Exp.EVar 3 Ty.TInt) (Exp.ENum 5))
          (mulF (cardinality (Exp.EVar 0 (Ty.TBag Ty.TInt))
            (allocCard (Exp.EFilter (Exp.EVar 0 (Ty.TBag Ty.TInt))
              (Exp.ELambda 1 Ty.TInt (Exp.EBool true))) (CMState.mk [] [] 0 3))).1 (Exp.ENum 4))]) :=
  ⟨(cardinality_structural_and_memo (CMState.mk [] [] 0 3)).1 Ty.TInt,
   (cardinality_structural_and_memo
      (CMState.mk [(Exp.EVar 0 (Ty.TBag Ty.TInt), 1)] [] 0 2)).2.2.2.2.2.1
     (Exp.EVar 0 (Ty.TBag Ty.TInt)) 1 (by decide) (by decide),
   ((cardinality_structural_and_memo (CMState.mk [] [] 0 3)).2.2.2.2.2.2.1
     (Exp.EVar 0 (Ty.TBag Ty.TInt)) (by decide) (by decide)).1,
   (cardinality_structural_and_memo (CMState.mk [] [] 0 3)).2.2.2.2.2.2.2.1
     (Exp.EVar 0 (Ty.TBag Ty.TInt)) (Exp.EVar 0 (Ty.TBag Ty.TInt)) (by decide) (by decide)
     (by decide) (by intro p hp; cases hp) (by decide),
   (cardinality_structural_and_memo (CMState.mk [] [] 0 3)).2.2.2.2.2.2.2.2.1
     (Exp.EVar 0 (Ty.TBag Ty.TInt)) (Exp.ELambda 1 Ty.TInt (Exp.EBool true)) (by decide)⟩
/-!  ## Semantics of conjunctions, permutation lemmas  -/

theorem evalB_bbtF_and (env : Nat → Int) :
    ∀ (fuel : Nat) (l : List Exp), l.length ≤ fuel →
      evalB env (bbtF "and" ETRUE fuel l) = l.all (evalB env) := by
  intro fuel
  induction fuel with
  | zero =>
      intro l h
      have : l = [] := List.length_eq_zero.mp (Nat.le_zero.mp h)
      subst this
      rfl
  | succ fuel ih =>
      intro l h
      match l with
      | [] => rfl
      | [e] => simp [bbtF]
      | a :: b :: rest =>
          have hlen : (a :: b :: rest).length = rest.length + 2 := by simp
          have htake : ((a :: b :: rest).take ((a :: b :: rest).length / 2)).length ≤ fuel := by
            simp only [List.length_take, hlen]
            omega
          have hdrop : ((a :: b :: rest).drop ((a :: b :: rest).length / 2)).length ≤ fuel := by
            simp only [List.length_drop, hlen]
            simp only [hlen] at h
            omega
          rw [bbtF, evalB, ih _ htake, ih _ hdrop]
          have hsplit := List.take_append_drop ((a :: b :: rest).length / 2) (a :: b :: rest)
          simp only [← List.all_append, hsplit]
          simp

theorem evalB_EAll (env : Nat → Int) (l : List Exp) :
    evalB env (EAll l) = l.all (evalB env) :=
  evalB_bbtF_and env l.length l le_rfl

theorem all_of_perm {l1 l2 : List Exp} (f : Exp → Bool) (h : l1.Perm l2) :
    l1.all f = l2.all f := by
  rcases hb : l2.all f with _ | _
  · rcases List.all_eq_false.mp hb with ⟨x, hx, hfx⟩
    exact List.all_eq_false.mpr ⟨x, h.mem_iff.mpr hx, hfx⟩
  · exact List.all_eq_true.mpr fun x hx =>
      List.all_eq_true.mp hb x (h.mem_iff.mp hx)

theorem evalA_relaxReal (env : Nat → Int) (s : List Nat) (e : Exp) :
    evalA env (relaxReal s e) = evalA env e := by
  induction e generalizing s with
  | EVar id ty =>
      by_cases h : id ∈ s <;> simp [relaxReal, h, evalA]
  | EBinOp a op b iha ihb => simp [relaxReal, evalA, iha, ihb]
  | _ => simp [relaxReal, evalA]

theorem evalB_relaxReal (env : Nat → Int) (s : List Nat) (e : Exp) :
    evalB env (relaxReal s e) = evalB env e := by
  induction e generalizing s with
  | EVar id ty =>
      by_cases h : id ∈ s <;> simp [relaxReal, h, evalB]
  | EBinOp a op b iha ihb =>
      simp [relaxReal, evalB, iha, ihb, evalA_relaxReal]
  | EUnaryOp op a iha => simp [relaxReal, evalB, iha]
  | _ => simp [relaxReal, evalB]

/-- `always` only depends on the joint constraints through their
semantics, for a solver that answers semantically. -/
theorem evalB_EImplies (env : Nat → Int) (a b : Exp) :
    evalB env (EImplies a b) = (!evalB env a || evalB env b) := by
  simp [EImplies, evalB]

theorem always_cards_semEq (ctx : SolverCtx)
    (hS : ∀ f g l t, SemEq f g → ctx.S f l t = ctx.S g l t)
    (c1 c2 : Cost) (op : String) (A : Exp) (cards1 cards2 : Exp)
    (hc : SemEq cards1 cards2) :
    always ctx c1 c2 op A (some cards1) = always ctx c1 c2 op A (some cards2) := by
  have hq : SemEq
      (EImplies (EAll [c1.assumptions, c2.assumptions, cards1])
        (Exp.EBinOp c1.formula op c2.formula))
      (EImplies (EAll [c1.assumptions, c2.assumptions, cards2])
        (Exp.EBinOp c1.formula op c2.formula)) := by
    intro env
    rw [evalB_EImplies, evalB_EImplies, evalB_EAll, evalB_EAll]
    simp [hc env]
  have hq2 : SemEq
      (relaxReal (freeVarIds cards1)
        (EImplies (EAll [c1.assumptions, c2.assumptions, cards1])
          (Exp.EBinOp c1.formula op c2.formula)))
      (relaxReal (freeVarIds cards2)
        (EImplies (EAll [c1.assumptions, c2.assumptions, cards2])
          (Exp.EBinOp c1.formula op c2.formula))) := by
    intro env
    rw [evalB_relaxReal, evalB_relaxReal]
    exact hq env
  unfold always alwaysR
  simp only
  rw [hS _ _ "QF_LIA" 1 hq]
  rcases ctx.S (EImplies (EAll [c1.assumptions, c2.assumptions, cards2])
      (Exp.EBinOp c1.formula op c2.formula)) "QF_LIA" 1 with b | _
  · rfl
  · rw [hS _ _ "QF_NRA" 5 hq2]
/-!  ## Merged cardinality maps under swapped argument order  -/

theorem updAL_not_mem (m : List (Nat × Exp)) (k : Nat) (v : Exp)
    (h : k ∉ m.map Prod.fst) : updAL m k v = m ++ [(k, v)] := by
  induction m with
  | nil => rfl
  | cons a rest ih =>
      obtain ⟨a1, a2⟩ := a
      simp only [List.map_cons, List.mem_cons, not_or] at h
      obtain ⟨h1, h2⟩ := h
      have hk : ¬ a1 = k := fun hh => h1 hh.symm
      simp only [updAL, hk, if_false]
      rw [ih h2]
      simp

theorem updAL_mem_same (m : List (Nat × Exp)) (k : Nat) (v : Exp)
    (hmem : (k, v) ∈ m) (hnd : (m.map Prod.fst).Nodup) : updAL m k v = m := by
  induction m with
  | nil => cases hmem
  | cons a rest ih =>
      obtain ⟨a1, a2⟩ := a
      simp only [List.map_cons, List.nodup_cons] at hnd
      obtain ⟨hnd1, hnd2⟩ := hnd
      rcases List.mem_cons.mp hmem with heq | hmem'
      · cases heq
        simp [updAL]
      · have hk : ¬ a1 = k := by
          intro hh
          subst hh
          exact hnd1 (List.mem_map.mpr ⟨(a1, v), hmem', rfl⟩)
        simp only [updAL, hk, if_false]
        rw [ih hmem' hnd2]

theorem mergeCards_eq_append (b : List (Nat × Exp)) :
    ∀ a : List (Nat × Exp), (a.map Prod.fst).Nodup → (b.map Prod.fst).Nodup →
    (∀ p ∈ b, p.1 ∈ a.map Prod.fst → p ∈ a) →
    mergeCards a b = a ++ b.filter (fun p => p.1 ∉ a.map Prod.fst) := by
  induction b with
  | nil => intro a _ _ _; simp [mergeCards]
  | cons p rest ih =>
      intro a hnda hndb hagree
      obtain ⟨k, v⟩ := p
      simp only [List.map_cons, List.nodup_cons] at hndb
      obtain ⟨hkrest, hndrest⟩ := hndb
      have hstep : mergeCards a ((k, v) :: rest) = mergeCards (updAL a k v) rest := rfl
      by_cases hk : k ∈ a.map Prod.fst
      · have hmem : (k, v) ∈ a := hagree (k, v) (List.mem_cons_self _ _) hk
        rw [hstep, updAL_mem_same a k v hmem hnda,
          ih a hnda hndrest
            (fun p hp hpa => hagree p (List.mem_cons_of_mem _ hp) hpa),
          List.filter_cons_of_neg (by simp [hk])]
      · rw [hstep, updAL_not_mem a k v hk]
        have hnda' : ((a ++ [(k, v)]).map Prod.fst).Nodup := by
          rw [List.map_append]
          exact List.Nodup.append hnda (by simp) (by simpa using hk)
        have hagree' : ∀ p ∈ rest, p.1 ∈ (a ++ [(k, v)]).map Prod.fst → p ∈ a ++ [(k, v)] := by
          intro p hp hpa
          rw [List.map_append] at hpa
          rcases List.mem_append.mp hpa with h | h
          · exact List.mem_append_left _ (hagree p (List.mem_cons_of_mem _ hp) h)
          · exfalso
            simp only [List.map_cons, List.map_nil, List.mem_singleton] at h
            exact hkrest (h ▸ List.mem_map.mpr ⟨p, hp, rfl⟩)
        rw [ih (a ++ [(k, v)]) hnda' hndrest hagree']
        rw [List.filter_cons_of_pos (by simpa using hk)]
        have hfc : rest.filter (fun p => p.1 ∉ (a ++ [(k, v)]).map Prod.fst) =
            rest.filter (fun p => p.1 ∉ a.map Prod.fst) := by
          apply List.filter_congr
          intro p hp
          have hpk : ¬ p.1 = k := by
            intro hh
            exact hkrest (hh ▸ List.mem_map.mpr ⟨p, hp, rfl⟩)
          simp [List.map_append, hpk]
        rw [hfc]
        simp

theorem mergeCards_mem_iff (a b : List (Nat × Exp))
    (hnda : (a.map Prod.fst).Nodup) (hndb : (b.map Prod.fst).Nodup)
    (hab : ∀ p ∈ b, p.1 ∈ a.map Prod.fst → p ∈ a) :
    ∀ x, x ∈ mergeCards a b ↔ (x ∈ a ∨ x ∈ b) := by
  intro x
  rw [mergeCards_eq_append b a hnda hndb hab]
  constructor
  · intro h
    rcases List.mem_append.mp h with h | h
    · exact Or.inl h
    · exact Or.inr (List.mem_filter.mp h).1
  · intro h
    rcases h with h | h
    · exact List.mem_append_left _ h
    · by_cases hx : x.1 ∈ a.map Prod.fst
      · exact List.mem_append_left _ (hab x h hx)
      · exact List.mem_append_right _ (List.mem_filter.mpr ⟨h, by simpa using hx⟩)

theorem mergeCards_nodup (a b : List (Nat × Exp))
    (hnda : (a.map Prod.fst).Nodup) (hndb : (b.map Prod.fst).Nodup)
    (hab : ∀ p ∈ b, p.1 ∈ a.map Prod.fst → p ∈ a) :
    (mergeCards a b).Nodup := by
  rw [mergeCards_eq_append b a hnda hndb hab]
  apply List.Nodup.of_map Prod.fst
  rw [List.map_append]
  refine List.Nodup.append hnda ?_ ?_
  · exact List.Nodup.sublist (List.Sublist.map Prod.fst (List.filter_sublist _)) hndb
  · intro x hx1 hx2
    rcases List.mem_map.mp hx2 with ⟨p, hp, rfl⟩
    have h3 := (List.mem_filter.mp hp).2
    rw [decide_eq_true_eq] at h3
    exact h3 hx1

/-- Merging the two cardinality maps in either order yields the same
entries up to permutation, for maps with distinct keys that agree on
shared keys. -/
theorem mergeCards_swap_perm (a b : List (Nat × Exp))
    (hnda : (a.map Prod.fst).Nodup) (hndb : (b.map Prod.fst).Nodup)
    (hagree : ∀ k v v', (k, v) ∈ a → (k, v') ∈ b → v = v') :
    (mergeCards a b).Perm (mergeCards b a) := by
  have hab : ∀ p ∈ b, p.1 ∈ a.map Prod.fst → p ∈ a := by
    intro p hp hpa
    obtain ⟨k, v'⟩ := p
    rcases List.mem_map.mp hpa with ⟨q, hq, hqe⟩
    obtain ⟨k2, v⟩ := q
    simp only at hqe
    subst hqe
    have hv := hagree k2 v v' hq hp
    subst hv
    exact hq
  have hba : ∀ p ∈ a, p.1 ∈ b.map Prod.fst → p ∈ b := by
    intro p hp hpa
    obtain ⟨k, v⟩ := p
    rcases List.mem_map.mp hpa with ⟨q, hq, hqe⟩
    obtain ⟨k2, v'⟩ := q
    simp only at hqe
    subst hqe
    have hv := hagree k2 v v' hp hq
    subst hv
    exact hq
  rw [List.perm_ext_iff_of_nodup (mergeCards_nodup a b hnda hndb hab)
    (mergeCards_nodup b a hndb hnda hba)]
  intro x
  rw [mergeCards_mem_iff a b hnda hndb hab, mergeCards_mem_iff b a hndb hnda hba]
  exact Or.comm

/-- The joint-constraint conjunct list is permutation-congruent in the
merged map. -/
theorem cardConds_perm (O : Exp → Bool) (A : Exp) (m1 m2 : List (Nat × Exp))
    (h : m1.Perm m2) : (cardConds O A m1).Perm (cardConds O A m2) := by
  unfold cardConds
  refine (List.Perm.flatMap_right _ h).trans ?_
  apply List.Perm.flatMap_left
  intro p1 _
  exact List.Perm.cons _ (List.Perm.flatMap_right _ h)
/-- C9: `compare_to` is antisymmetric for a solver that answers by the
semantics of the query: swapping the arguments merges the cardinality
maps in the opposite order, but the joint-constraint formula is
semantically equivalent, so BETTER in one order is WORSE in the other
and UNORDERED is self-symmetric.  The cardinality maps are assumed
key-distinct and agreeing on shared keys (the `Cost` invariants). -/
theorem compare_to_antisymmetric (ctx : SolverCtx) (c1 c2 : Cost) (A : Exp)
    (hnd1 : (c1.cardinalities.map Prod.fst).Nodup)
    (hnd2 : (c2.cardinalities.map Prod.fst).Nodup)
    (hagree : ∀ k v v', (k, v) ∈ c1.cardinalities → (k, v') ∈ c2.cardinalities → v = v')
    (hS : ∀ f g l t, SemEq f g → ctx.S f l t = ctx.S g l t) :
    (compare_to ctx c1 c2 A = Cost.BETTER ↔ compare_to ctx c2 c1 A = Cost.WORSE) ∧
    (compare_to ctx c1 c2 A = Cost.WORSE ↔ compare_to ctx c2 c1 A = Cost.BETTER) ∧
    (compare_to ctx c1 c2 A = Cost.UNORDERED ↔ compare_to ctx c2 c1 A = Cost.UNORDERED) := by
  have hperm := mergeCards_swap_perm c1.cardinalities c2.cardinalities hnd1 hnd2 hagree
  have hcperm := cardConds_perm ctx.O A _ _ hperm
  have hsem : SemEq (order_cardinalities ctx.O c1 c2 A) (order_cardinalities ctx.O c2 c1 A) := by
    intro env
    unfold order_cardinalities
    rw [evalB_EAll, evalB_EAll]
    exact all_of_perm _ hcperm
  have h12 : always ctx c1 c2 "<=" A (some (order_cardinalities ctx.O c1 c2 A)) =
      always ctx c1 c2 "<=" A (some (order_cardinalities ctx.O c2 c1 A)) :=
    always_cards_semEq ctx hS c1 c2 "<=" A _ _ hsem
  have h21 : always ctx c2 c1 "<=" A (some (order_cardinalities ctx.O c1 c2 A)) =
      always ctx c2 c1 "<=" A (some (order_cardinalities ctx.O c2 c1 A)) :=
    always_cards_semEq ctx hS c2 c1 "<=" A _ _ hsem
  have e12 : compare_to ctx c1 c2 A =
      (if always ctx c1 c2 "<=" A (some (order_cardinalities ctx.O c2 c1 A)) &&
          !always ctx c2 c1 "<=" A (some (order_cardinalities ctx.O c2 c1 A)) then Cost.BETTER
       else if always ctx c2 c1 "<=" A (some (order_cardinalities ctx.O c2 c1 A)) &&
          !always ctx c1 c2 "<=" A (some (order_cardinalities ctx.O c2 c1 A)) then Cost.WORSE
       else if !always ctx c1 c2 "<=" A (some (order_cardinalities ctx.O c2 c1 A)) &&
          !always ctx c2 c1 "<=" A (some (order_cardinalities ctx.O c2 c1 A)) then Cost.UNORDERED
       else if c1.secondary > c2.secondary then Cost.WORSE
       else if c1.secondary < c2.secondary then Cost.BETTER
       else Cost.UNORDERED) := by
    unfold compare_to
    dsimp only
    rw [h12, h21]
  have e21 : compare_to ctx c2 c1 A =
      (if always ctx c2 c1 "<=" A (some (order_cardinalities ctx.O c2 c1 A)) &&
          !always ctx c1 c2 "<=" A (some (order_cardinalities ctx.O c2 c1 A)) then Cost.BETTER
       else if always ctx c1 c2 "<=" A (some (order_cardinalities ctx.O c2 c1 A)) &&
          !always ctx c2 c1 "<=" A (some (order_cardinalities ctx.O c2 c1 A)) then Cost.WORSE
       else if !always ctx c2 c1 "<=" A (some (order_cardinalities ctx.O c2 c1 A)) &&
          !always ctx c1 c2 "<=" A (some (order_cardinalities ctx.O c2 c1 A)) then Cost.UNORDERED
       else if c2.secondary > c1.secondary then Cost.WORSE
       else if c2.secondary < c1.secondary then Cost.BETTER
       else Cost.UNORDERED) := by
    unfold compare_to
    dsimp only
  rw [e12, e21]
  rcases ha1 : always ctx c1 c2 "<=" A (some (order_cardinalities ctx.O c2 c1 A)) <;>
    rcases ha2 : always ctx c2 c1 "<=" A (some (order_cardinalities ctx.O c2 c1 A))
  · simp [Cost.UNORDERED, Cost.BETTER, Cost.WORSE]
  · simp [Cost.UNORDERED, Cost.BETTER, Cost.WORSE]
  · simp [Cost.UNORDERED, Cost.BETTER, Cost.WORSE]
  · simp only [Bool.not_true, Bool.and_false, Bool.false_and, Bool.and_self,
      Bool.false_eq_true, if_false]
    rcases lt_trichotomy c1.secondary c2.secondary with h | h | h
    · rw [if_neg (by exact not_lt.mpr h.le), if_pos h, if_pos h]
      simp [Cost.UNORDERED, Cost.BETTER, Cost.WORSE]
    · rw [if_neg (by simp [h]), if_neg (by simp [h]), if_neg (by simp [h]), if_neg (by simp [h])]
      simp [Cost.UNORDERED, Cost.BETTER, Cost.WORSE]
    · rw [if_pos h, if_neg (by exact not_lt.mpr h.le), if_pos h]
      simp [Cost.UNORDERED, Cost.BETTER, Cost.WORSE]

/-- C9 witness: two concrete costs with empty cardinality maps under a
solver that proves nothing; both orders answer UNORDERED. -/
theorem compare_to_antisymmetric_witness :
    compare_to (SolverCtx.mk (fun _ _ _ => SRes.ok false) (fun _ => false))
        { e := none, pool := none, formula := Exp.EVar 0 Ty.TInt }
        { e := none, pool := none, formula := Exp.EVar 1 Ty.TInt } ETRUE = Cost.UNORDERED ↔
    compare_to (SolverCtx.mk (fun _ _ _ => SRes.ok false) (fun _ => false))
        { e := none, pool := none, formula := Exp.EVar 1 Ty.TInt }
        { e := none, pool := none, formula := Exp.EVar 0 Ty.TInt } ETRUE = Cost.UNORDERED :=
  (compare_to_antisymmetric (SolverCtx.mk (fun _ _ _ => SRes.ok false) (fun _ => false))
    { e := none, pool := none, formula := Exp.EVar 0 Ty.TInt }
    { e := none, pool := none, formula := Exp.EVar 1 Ty.TInt } ETRUE
    (by simp) (by simp) (by intro k v v' h1 h2; cases h1)
    (fun f g l t _ => rfl)).2.2
/-!  ## Renaming lemmas for the second-run equivariance argument  -/

theorem typeOf_renameE (ρ : Nat → Nat) (e : Exp) : typeOf (renameE ρ e) = typeOf e := by
  induction e <;> simp_all [renameE, typeOf]

theorem sizeE_renameE (ρ : Nat → Nat) (e : Exp) : sizeE (renameE ρ e) = sizeE e := by
  induction e <;> simp_all [renameE, sizeE]

theorem isENum_renameE (ρ : Nat → Nat) (e : Exp) : isENum (renameE ρ e) = isENum e := by
  cases e <;> rfl

theorem numVal_renameE (ρ : Nat → Nat) (e : Exp) : numVal (renameE ρ e) = numVal e := by
  cases e <;> rfl

theorem renameE_congr (ρ1 ρ2 : Nat → Nat) (e : Exp)
    (h : ∀ i ∈ varIds e, ρ1 i = ρ2 i) : renameE ρ1 e = renameE ρ2 e := by
  induction e with
  | ENum n => rfl
  | EBool b => rfl
  | EVar id ty => simp [renameE, h id (by simp [varIds])]
  | EEmptyList t => rfl
  | EBinOp a op b iha ihb =>
      simp only [renameE]
      rw [iha (fun i hi => h i (by simp [varIds, hi])),
        ihb (fun i hi => h i (by simp [varIds, hi]))]
  | EUnaryOp op a iha =>
      simp only [renameE]
      rw [iha (fun i hi => h i (by simp [varIds, hi]))]
  | ESingleton a iha =>
      simp only [renameE]
      rw [iha (fun i hi => h i (by simp [varIds, hi]))]
  | ECond a b c iha ihb ihc =>
      simp only [renameE]
      rw [iha (fun i hi => h i (by simp [varIds, hi])),
        ihb (fun i hi => h i (by simp [varIds, hi])),
        ihc (fun i hi => h i (by simp [varIds, hi]))]
  | ELambda x t b ihb =>
      simp only [renameE]
      rw [h x (by simp [varIds]), ihb (fun i hi => h i (by simp [varIds, hi]))]
  | EMap a b iha ihb =>
      simp only [renameE]
      rw [iha (fun i hi => h i (by simp [varIds, hi])),
        ihb (fun i hi => h i (by simp [varIds, hi]))]
  | EFilter a b iha ihb =>
      simp only [renameE]
      rw [iha (fun i hi => h i (by simp [varIds, hi])),
        ihb (fun i hi => h i (by simp [varIds, hi]))]
  | EFlatMap a b iha ihb =>
      simp only [renameE]
      rw [iha (fun i hi => h i (by simp [varIds, hi])),
        ihb (fun i hi => h i (by simp [varIds, hi]))]
  | EArgMin a b iha ihb =>
      simp only [renameE]
      rw [iha (fun i hi => h i (by simp [varIds, hi])),
        ihb (fun i hi => h i (by simp [varIds, hi]))]
  | EArgMax a b iha ihb =>
      simp only [renameE]
      rw [iha (fun i hi => h i (by simp [varIds, hi])),
        ihb (fun i hi => h i (by simp [varIds, hi]))]
  | EMakeMap2 a b iha ihb =>
      simp only [renameE]
      rw [iha (fun i hi => h i (by simp [varIds, hi])),
        ihb (fun i hi => h i (by simp [varIds, hi]))]
  | EMapGet a b iha ihb =>
      simp only [renameE]
      rw [iha (fun i hi => h i (by simp [varIds, hi])),
        ihb (fun i hi => h i (by simp [varIds, hi]))]
  | EStateVar a iha =>
      simp only [renameE]
      rw [iha (fun i hi => h i (by simp [varIds, hi]))]
  | EDropFront a iha =>
      simp only [renameE]
      rw [iha (fun i hi => h i (by simp [varIds, hi]))]
  | EDropBack a iha =>
      simp only [renameE]
      rw [iha (fun i hi => h i (by simp [varIds, hi]))]

theorem renameE_id_fun (e : Exp) : renameE (fun i => i) e = e := by
  induction e <;> simp_all [renameE]

theorem renameE_fix (ρ : Nat → Nat) (e : Exp) (h : ∀ i ∈ varIds e, ρ i = i) :
    renameE ρ e = e := by
  rw [renameE_congr ρ (fun i => i) e h, renameE_id_fun]
theorem lookBndL_map (ρ : Nat → Nat) (hinj : Function.Injective ρ)
    (env : List (Nat × Nat)) (x : Nat) :
    lookBndL (env.map (fun p => (ρ p.1, ρ p.2))) (ρ x) =
      Option.map ρ (lookBndL env x) := by
  induction env with
  | nil => rfl
  | cons a rest ih =>
      by_cases hx : a.1 = x
      · simp [lookBndL, List.find?_cons, hx]
      · have hx2 : ¬ρ a.1 = ρ x := fun hh => hx (hinj hh)
        simp only [lookBndL, List.map_cons, List.find?_cons] at ih ⊢
        simp only [hx, hx2, decide_False]
        simpa [lookBndL] using ih

theorem lookBndR_map (ρ : Nat → Nat) (hinj : Function.Injective ρ)
    (env : List (Nat × Nat)) (y : Nat) :
    lookBndR (env.map (fun p => (ρ p.1, ρ p.2))) (ρ y) =
      Option.map ρ (lookBndR env y) := by
  induction env with
  | nil => rfl
  | cons a rest ih =>
      by_cases hy : a.2 = y
      · simp [lookBndR, List.find?_cons, hy]
      · have hy2 : ¬ρ a.2 = ρ y := fun hh => hy (hinj hh)
        simp only [lookBndR, List.map_cons, List.find?_cons] at ih ⊢
        simp only [hy, hy2, decide_False]
        simpa [lookBndR] using ih
theorem alphaEqAux_rename (ρ : Nat → Nat) (hinj : Function.Injective ρ) :
    ∀ (a b : Exp) (env : List (Nat × Nat)),
      alphaEqAux (env.map (fun p => (ρ p.1, ρ p.2))) (renameE ρ a) (renameE ρ b) =
        alphaEqAux env a b := by
  intro a
  induction a with
  | ENum n => intro b env; cases b <;> simp [renameE, alphaEqAux]
  | EBool v => intro b env; cases b <;> simp [renameE, alphaEqAux]
  | EVar x tx =>
      intro b env
      cases b <;> simp only [renameE, alphaEqAux]
      case EVar y ty =>
        rw [lookBndL_map ρ hinj, lookBndR_map ρ hinj]
        rcases lookBndL env x with _ | y' <;> rcases lookBndR env y with _ | x' <;>
          simp [hinj.eq_iff]
  | EBinOp a1 op b1 ih1 ih2 =>
      intro b env
      cases b <;> simp [renameE, alphaEqAux, ih1, ih2]
  | EUnaryOp op a1 ih1 =>
      intro b env
      cases b <;> simp [renameE, alphaEqAux, ih1]
  | EEmptyList t =>
      intro b env
      cases b <;> simp [renameE, alphaEqAux]
  | ESingleton a1 ih1 =>
      intro b env
      cases b <;> simp [renameE, alphaEqAux, ih1]
  | ECond a1 b1 c1 ih1 ih2 ih3 =>
      intro b env
      cases b <;> simp [renameE, alphaEqAux, ih1, ih2, ih3]
  | ELambda x t b1 ih1 =>
      intro b env
      cases b <;> simp only [renameE, alphaEqAux]
      case ELambda y ty b2 =>
        have := ih1 b2 ((x, y) :: env)
        simp only [List.map_cons] at this
        rw [this]
  | EMap a1 b1 ih1 ih2 =>
      intro b env
      cases b <;> simp [renameE, alphaEqAux, ih1, ih2]
  | EFilter a1 b1 ih1 ih2 =>
      intro b env
      cases b <;> simp [renameE, alphaEqAux, ih1, ih2]
  | EFlatMap a1 b1 ih1 ih2 =>
      intro b env
      cases b <;> simp [renameE, alphaEqAux, ih1, ih2]
  | EArgMin a1 b1 ih1 ih2 =>
      intro b env
      cases b <;> simp [renameE, alphaEqAux, ih1, ih2]
  | EArgMax a1 b1 ih1 ih2 =>
      intro b env
      cases b <;> simp [renameE, alphaEqAux, ih1, ih2]
  | EMakeMap2 a1 b1 ih1 ih2 =>
      intro b env
      cases b <;> simp [renameE, alphaEqAux, ih1, ih2]
  | EMapGet a1 b1 ih1 ih2 =>
      intro b env
      cases b <;> simp [renameE, alphaEqAux, ih1, ih2]
  | EStateVar a1 ih1 =>
      intro b env
      cases b <;> simp [renameE, alphaEqAux, ih1]
  | EDropFront a1 ih1 =>
      intro b env
      cases b <;> simp [renameE, alphaEqAux, ih1]
  | EDropBack a1 ih1 =>
      intro b env
      cases b <;> simp [renameE, alphaEqAux, ih1]

theorem alphaEquivalent_rename (ρ : Nat → Nat) (hinj : Function.Injective ρ) (a b : Exp) :
    alphaEquivalent (renameE ρ a) (renameE ρ b) = alphaEquivalent a b := by
  have := alphaEqAux_rename ρ hinj a b []
  simpa [alphaEquivalent] using this

theorem substVar_rename (ρ : Nat → Nat) (hinj : Function.Injective ρ) (x : Nat) (v : Exp) :
    ∀ b : Exp, renameE ρ (substVar x v b) = substVar (ρ x) (renameE ρ v) (renameE ρ b) := by
  intro b
  induction b with
  | EVar id ty =>
      by_cases h : id = x
      · simp [substVar, renameE, h]
      · have h2 : ¬ρ id = ρ x := fun hh => h (hinj hh)
        simp [substVar, renameE, h, h2]
  | ELambda y t b1 ih =>
      by_cases h : y = x
      · have h2 : ρ y = ρ x := by rw [h]
        simp [substVar, renameE, h, h2]
      · have h2 : ¬ρ y = ρ x := fun hh => h (hinj hh)
        simp [substVar, renameE, h, h2, ih]
  | _ => simp_all [substVar, renameE]
theorem break_sum_renameE (ρ : Nat → Nat) (e : Exp) :
    break_sum (renameE ρ e) = (break_sum e).map (renameE ρ) := by
  induction e using break_sum.induct with
  | case1 a b ih1 ih2 => simp [renameE, break_sum, ih1, ih2]
  | case2 e h =>
      have h2 : break_sum e = [e] := by
        cases e <;> simp_all [break_sum]
      have h3 : break_sum (renameE ρ e) = [renameE ρ e] := by
        cases e <;> simp_all [break_sum, renameE]
      rw [h2, h3]
      rfl

theorem bbtF_renameE (ρ : Nat → Nat) (op : String) (dflt : Exp) :
    ∀ (fuel : Nat) (l : List Exp),
      renameE ρ (bbtF op dflt fuel l) =
        bbtF op (renameE ρ dflt) fuel (l.map (renameE ρ)) := by
  intro fuel
  induction fuel with
  | zero =>
      intro l
      match l with
      | [] => rfl
      | [e] => rfl
      | a :: b :: rest => rfl
  | succ fuel ih =>
      intro l
      match l with
      | [] => rfl
      | [e] => rfl
      | a :: b :: rest =>
          simp only [bbtF, List.map_cons, renameE]
          rw [ih, ih]
          rw [show renameE ρ a :: renameE ρ b :: List.map (renameE ρ) rest =
            List.map (renameE ρ) (a :: b :: rest) from by simp]
          rw [List.map_take, List.map_drop, List.length_map]

theorem buildBalancedTree_renameE (ρ : Nat → Nat) (op : String) (dflt : Exp) (l : List Exp) :
    renameE ρ (buildBalancedTree op dflt l) =
      buildBalancedTree op (renameE ρ dflt) (l.map (renameE ρ)) := by
  unfold buildBalancedTree
  rw [bbtF_renameE, List.length_map]

theorem ESum_renameE (ρ : Nat → Nat) (l : List Exp) :
    renameE ρ (ESum l) = ESum (l.map (renameE ρ)) := by
  unfold ESum
  have hflat : (l.map (renameE ρ)).flatMap break_sum =
      (l.flatMap break_sum).map (renameE ρ) := by
    induction l with
    | nil => rfl
    | cons x xs ih => simp [List.flatMap_cons, break_sum_renameE, ih]
  rw [hflat]
  have hz : ∀ e : Exp, (renameE ρ e = ZERO) = (e = ZERO) := by
    intro e
    cases e <;> simp [renameE, ZERO]
  have hfil : ((l.flatMap break_sum).map (renameE ρ)).filter (fun e => e ≠ ZERO) =
      (((l.flatMap break_sum)).filter (fun e => e ≠ ZERO)).map (renameE ρ) := by
    rw [List.filter_map]
    exact congrArg _ (List.filter_congr (fun e _ => by simp [hz]))
  rw [hfil]
  set base := (l.flatMap break_sum).filter (fun e => e ≠ ZERO) with hbase
  by_cases hemp : base.isEmpty
  · simp [hemp, List.isEmpty_iff.mp hemp, renameE, ZERO]
  · have hemp2 : ¬(base.map (renameE ρ)).isEmpty := by
      simpa [List.isEmpty_iff] using fun hh => hemp (by simpa [List.isEmpty_iff, List.map_eq_nil_iff] using hh)
    simp only [hemp, hemp2, if_false, Bool.false_eq_true]
    have hnum : ∀ e : Exp, isENum (renameE ρ e) = isENum e := isENum_renameE ρ
    have hnums : (base.map (renameE ρ)).filter (fun e => isENum e) =
        (base.filter (fun e => isENum e)).map (renameE ρ) := by
      rw [List.filter_map]
      exact congrArg _ (List.filter_congr (fun e _ => by simp [hnum]))
    have hnonnums : (base.map (renameE ρ)).filter (fun e => ¬ isENum e) =
        (base.filter (fun e => ¬ isENum e)).map (renameE ρ) := by
      rw [List.filter_map]
      exact congrArg _ (List.filter_congr (fun e _ => by simp [hnum]))
    rw [hnums, hnonnums]
    by_cases hn : (base.filter (fun e => isENum e)).isEmpty
    · have hn2 : ((base.filter (fun e => isENum e)).map (renameE ρ)).isEmpty := by
        simp [List.isEmpty_iff.mp hn]
      rw [buildBalancedTree_renameE]
      simp [hn, hn2, renameE, ZERO]
    · have hn2 : ¬((base.filter (fun e => isENum e)).map (renameE ρ)).isEmpty := by
        intro hh
        apply hn
        rw [List.isEmpty_iff] at hh ⊢
        exact List.map_eq_nil_iff.mp hh
      simp only [hn, hn2, if_false, Bool.false_eq_true]
      have hsum : ((base.filter (fun e => isENum e)).map (renameE ρ)).map numVal =
          (base.filter (fun e => isENum e)).map numVal := by
        rw [List.map_map]
        exact List.map_congr_left (fun e _ => numVal_renameE ρ e)
      rw [buildBalancedTree_renameE]
      simp only [List.map_append, List.map_cons, List.map_nil, renameE, ZERO, hsum]

theorem EAll_renameE (ρ : Nat → Nat) (l : List Exp) :
    renameE ρ (EAll l) = EAll (l.map (renameE ρ)) := by
  unfold EAll
  rw [buildBalancedTree_renameE]
  rfl

theorem EAny_renameE (ρ : Nat → Nat) (l : List Exp) :
    renameE ρ (EAny l) = EAny (l.map (renameE ρ)) := by
  unfold EAny
  rw [buildBalancedTree_renameE]
  rfl
theorem lookupCard_rename (ρ : Nat → Nat) (hinj : Function.Injective ρ)
    (σ : Nat → Nat) (t : List (Exp × Nat)) (e : Exp) :
    lookupCard (t.map (fun p => (renameE ρ p.1, σ p.2))) (renameE ρ e) =
      Option.map σ (lookupCard t e) := by
  induction t with
  | nil => rfl
  | cons a rest ih =>
      by_cases ha : alphaEquivalent a.1 e
      · simp [lookupCard, List.find?_cons, alphaEquivalent_rename ρ hinj, ha]
      · simp only [lookupCard, List.map_cons, List.find?_cons,
          alphaEquivalent_rename ρ hinj, ha] at ih ⊢
        simpa [lookupCard, ha] using ih

/-- Identifier shift: add `d` to every identifier at or above `N`. -/
def shiftN (N d : Nat) (i : Nat) : Nat := if N ≤ i then i + d else i

theorem shiftN_injective (N d : Nat) : Function.Injective (shiftN N d) := by
  intro a b h
  unfold shiftN at h
  split at h <;> split at h <;> omega

/-- Shift a scratch state: rename the table keys and variables, the
assumption formulas, and move the counter. -/
def shSt (N d : Nat) (st : CMState) : CMState :=
  CMState.mk
    (st.cardinalities.map (fun p => (renameE (shiftN N d) p.1, shiftN N d p.2)))
    (st.assumptions.map (renameE (shiftN N d)))
    st.secondaries (st.counter + d)

theorem cardinality_counter_mono (e : Exp) (st : CMState) :
    st.counter ≤ (cardinality e st).2.counter := by
  induction e, st using cardinality.induct with
  | case1 t st => simp [cardinality]
  | case2 e st => simp [cardinality]
  | case3 a f st ih => simpa [cardinality] using ih
  | case4 a st ih => simpa [cardinality] using ih
  | case5 e1 e2 st ih1 ih2 =>
      have h : cardinality (Exp.EBinOp e1 "+" e2) st =
          (ESum [(cardinality e1 st).1, (cardinality e2 (cardinality e1 st).2).1],
            (cardinality e2 (cardinality e1 st).2).2) := by
        simp [cardinality]
      rw [h]
      exact le_trans ih1 ih2
  | case6 e1 op e2 st hop v hlook => simp [cardinality, hop, hlook]
  | case7 e1 e2 st htriv hlook ih =>
      have h : (cardinality (Exp.EBinOp e1 "-" e2) st).2.counter =
          (cardinality e1 (allocCard (Exp.EBinOp e1 "-" e2) st)).2.counter := by
        simp [cardinality, hlook]
      rw [h]
      refine le_trans ?_ ih
      simp [allocCard]
  | case8 e1 op e2 st hop hlook hne =>
      simp [cardinality, hop, hlook, hne, allocCard]
  | case9 op a st v hlook => simp [cardinality, hlook]
  | case10 a st hlook ih =>
      have h : (cardinality (Exp.EUnaryOp "distinct" a) st).2.counter =
          (cardinality a (allocCard (Exp.EUnaryOp "distinct" a) st)).2.counter := by
        simp [cardinality, hlook]
      rw [h]
      refine le_trans ?_ ih
      simp [allocCard]
  | case11 op a st hlook hop =>
      simp [cardinality, hlook, hop, allocCard]
  | case12 a p st v hlook => simp [cardinality, hlook]
  | case13 a p st hlook ih =>
      have h : (cardinality (Exp.EFilter a p) st).2.counter =
          (cardinality a (allocCard (Exp.EFilter a p) st)).2.counter := by
        simp [cardinality, hlook]
      rw [h]
      refine le_trans ?_ ih
      simp [allocCard]
  | case14 c t f st v hlook => simp [cardinality, hlook]
  | case15 c t f st hlook iht ihf =>
      have h : (cardinality (Exp.ECond c t f) st).2.counter =
          (cardinality f (cardinality t (allocCard (Exp.ECond c t f) st)).2).2.counter := by
        simp [cardinality, hlook]
      rw [h]
      refine le_trans ?_ (le_trans iht ihf)
      simp [allocCard]
  | case16 n st =>
      unfold cardinality memoPlain
      split <;> simp [allocCard]
  | case17 b st =>
      unfold cardinality memoPlain
      split <;> simp [allocCard]
  | case18 id ty st =>
      unfold cardinality memoPlain
      split <;> simp [allocCard]
  | case19 x t b st =>
      unfold cardinality memoPlain
      split <;> simp [allocCard]
  | case20 a b st =>
      unfold cardinality memoPlain
      split <;> simp [allocCard]
  | case21 a b st =>
      unfold cardinality memoPlain
      split <;> simp [allocCard]
  | case22 a b st =>
      unfold cardinality memoPlain
      split <;> simp [allocCard]
  | case23 a b st =>
      unfold cardinality memoPlain
      split <;> simp [allocCard]
  | case24 a b st =>
      unfold cardinality memoPlain
      split <;> simp [allocCard]
  | case25 a st =>
      unfold cardinality memoPlain
      split <;> simp [allocCard]
  | case26 a st =>
      unfold cardinality memoPlain
      split <;> simp [allocCard]
theorem sizeofE_counter_mono (e : Exp) (st : CMState) :
    st.counter ≤ (sizeofE e st).2.counter := by
  unfold sizeofE
  split
  · exact cardinality_counter_mono e st
  · simp

theorem visitF_counter_mono : ∀ (fuel : Nat) (e : Exp) (st : CMState),
    st.counter ≤ (visitF fuel e st).2.counter := by
  intro fuel e st
  induction fuel, e, st using visitF.induct with
  | case1 t n st => simp [visitF]
  | case2 t b st => simp [visitF]
  | case3 t id ty st => simp [visitF]
  | case4 t ty st => simp [visitF]
  | case5 x st h1 h2 h3 h4 =>
      cases x <;> simp [visitF]
  | case6 fuel a st ih => simpa [visitF] using ih
  | case7 fuel c t f st ihc iht ihf =>
      simp only [visitF]
      exact le_trans ihc (le_trans iht ihf)
  | case8 n a st =>
      simp only [visitF]
      exact sizeofE_counter_mono a (CMState.mk st.cardinalities st.assumptions
        (st.secondaries + statecost a) st.counter)
  | case9 fuel op a st hop ih =>
      simp only [visitF, hop, if_true]
      exact le_trans ih (cardinality_counter_mono a _)
  | case10 fuel op a st hop ih =>
      simp only [visitF, hop, if_false]
      exact ih
  | case11 fuel e1 e2 st ih1 ih2 =>
      simp only [visitF, if_pos rfl]
      exact le_trans ih1 (le_trans ih2 (cardinality_counter_mono e2 _))
  | case12 fuel e1 op e2 st hop hcoll ih1 ih2 =>
      simp only [visitF, if_neg hop, hcoll, if_true]
      exact le_trans ih1 (le_trans ih2
        (le_trans (cardinality_counter_mono e1 _) (cardinality_counter_mono e2 _)))
  | case13 fuel e1 op e2 st hop hcoll1 hcoll2 ih1 ih2 =>
      simp only [visitF, if_neg hop, hcoll1, hcoll2, if_true,
        Bool.false_eq_true, if_false]
      exact le_trans ih1 (le_trans ih2
        (le_trans (cardinality_counter_mono e1 _) (cardinality_counter_mono e2 _)))
  | case14 fuel e1 op e2 st hop hcoll1 hcoll2 ih1 ih2 =>
      simp only [visitF, if_neg hop, hcoll1, hcoll2, Bool.false_eq_true, if_false]
      exact le_trans ih1 ih2
  | case15 fuel x t b st ih =>
      simp only [visitF]
      exact le_trans (Nat.le_succ _) ih
  | case16 fuel m k st ihm ihk =>
      simp only [visitF]
      exact le_trans ihm ihk
  | case17 fuel a v st iha ihv =>
      simp only [visitF]
      exact le_trans iha (le_trans (cardinality_counter_mono a _) ihv)
  | case18 fuel a p st iha ihp =>
      simp only [visitF]
      exact le_trans iha (le_trans (cardinality_counter_mono a _) ihp)
  | case19 fuel a f st iha ihf =>
      simp only [visitF]
      exact le_trans iha (le_trans (cardinality_counter_mono a _) ihf)
  | case20 fuel a f st iha ihf =>
      simp only [visitF]
      exact le_trans iha (le_trans (cardinality_counter_mono a _) ihf)
  | case21 fuel a f st iha ihf =>
      simp only [visitF]
      exact le_trans iha (le_trans (cardinality_counter_mono a _) ihf)
  | case22 fuel a f st iha ihf =>
      simp only [visitF]
      exact le_trans iha (le_trans (cardinality_counter_mono a _) ihf)
  | case23 fuel a st ih =>
      simp only [visitF]
      exact le_trans ih (cardinality_counter_mono a _)
  | case24 fuel a st ih =>
      simp only [visitF]
      exact le_trans ih (cardinality_counter_mono a _)

theorem largePass_counter_mono : ∀ (fvs : List (Nat × Ty)) (st : CMState),
    st.counter ≤ (largePass fvs st).counter := by
  intro fvs st
  induction fvs, st using largePass.induct with
  | case1 st => simp [largePass]
  | case2 id ty rest st hcoll ih =>
      simp only [largePass, if_pos hcoll]
      exact le_trans (cardinality_counter_mono (Exp.EVar id ty) st) ih
  | case3 id ty rest st hcoll ih =>
      simp only [largePass, if_neg hcoll]
      exact ih
theorem renameE_comp (σ ρ : Nat → Nat) (e : Exp) :
    renameE σ (renameE ρ e) = renameE (fun i => σ (ρ i)) e := by
  induction e <;> simp_all [renameE]

theorem varIds_break_sum (e : Exp) :
    ∀ x ∈ break_sum e, ∀ i ∈ varIds x, i ∈ varIds e := by
  induction e using break_sum.induct with
  | case1 a b ih1 ih2 =>
      intro x hx i hi
      simp only [break_sum, List.mem_append] at hx
      rcases hx with h | h
      · exact List.mem_append_left _ (ih1 x h i hi)
      · exact List.mem_append_right _ (ih2 x h i hi)
  | case2 e h =>
      intro x hx i hi
      have hbs : break_sum e = [e] := by
        cases e <;> simp_all [break_sum]
      rw [hbs] at hx
      simp only [List.mem_singleton] at hx
      subst hx
      exact hi

theorem varIds_bbtF (op : String) (dflt : Exp) :
    ∀ (fuel : Nat) (l : List Exp) (i : Nat), i ∈ varIds (bbtF op dflt fuel l) →
      i ∈ varIds dflt ∨ ∃ x ∈ l, i ∈ varIds x := by
  intro fuel
  induction fuel with
  | zero =>
      intro l i hi
      match l with
      | [] => exact Or.inl hi
      | [e] => exact Or.inr ⟨e, by simp, hi⟩
      | a :: b :: rest => exact Or.inr ⟨a, by simp, hi⟩
  | succ fuel ih =>
      intro l i hi
      match l with
      | [] => exact Or.inl hi
      | [e] => exact Or.inr ⟨e, by simp, hi⟩
      | a :: b :: rest =>
          simp only [bbtF, varIds, List.mem_append] at hi
          rcases hi with h | h
          · rcases ih _ i h with h2 | ⟨x, hx, hix⟩
            · exact Or.inl h2
            · exact Or.inr ⟨x, List.take_subset _ _ hx, hix⟩
          · rcases ih _ i h with h2 | ⟨x, hx, hix⟩
            · exact Or.inl h2
            · exact Or.inr ⟨x, List.drop_subset _ _ hx, hix⟩

theorem varIds_buildBalancedTree (op : String) (dflt : Exp) (l : List Exp) (i : Nat)
    (hi : i ∈ varIds (buildBalancedTree op dflt l)) :
    i ∈ varIds dflt ∨ ∃ x ∈ l, i ∈ varIds x :=
  varIds_bbtF op dflt l.length l i hi

theorem varIds_ESum (l : List Exp) (i : Nat) (hi : i ∈ varIds (ESum l)) :
    ∃ x ∈ l, i ∈ varIds x := by
  unfold ESum at hi
  dsimp only at hi
  have hbm : ∀ x ∈ (l.flatMap break_sum).filter (fun e => e ≠ ZERO),
      ∀ j ∈ varIds x, ∃ y ∈ l, j ∈ varIds y := by
    intro x hx j hj
    have hx2 : x ∈ l.flatMap break_sum := (List.mem_filter.mp hx).1
    rcases List.mem_flatMap.mp hx2 with ⟨y, hy, hxy⟩
    exact ⟨y, hy, varIds_break_sum y x hxy j hj⟩
  split at hi
  · simp [ZERO, varIds] at hi
  · rcases varIds_buildBalancedTree "+" ZERO _ i hi with h | ⟨x, hx, hix⟩
    · simp [ZERO, varIds] at h
    · have hx' : (x ∈ ((l.flatMap break_sum).filter (fun e => e ≠ ZERO)).filter
          (fun e => ¬ isENum e)) ∨ ∃ s : Int, x = Exp.ENum s := by
        split at hx
        · exact Or.inl hx
        · rcases List.mem_append.mp hx with h2 | h2
          · exact Or.inl h2
          · exact Or.inr ⟨_, by simpa using h2⟩
      rcases hx' with h2 | ⟨s, rfl⟩
      · exact hbm x (List.mem_filter.mp h2).1 i hix
      · simp [varIds] at hix

theorem varIds_EAll (l : List Exp) (i : Nat) (hi : i ∈ varIds (EAll l)) :
    ∃ x ∈ l, i ∈ varIds x := by
  rcases varIds_buildBalancedTree "and" ETRUE l i hi with h | h
  · simp [ETRUE, varIds] at h
  · exact h

theorem varIds_EAny (l : List Exp) (i : Nat) (hi : i ∈ varIds (EAny l)) :
    ∃ x ∈ l, i ∈ varIds x := by
  rcases varIds_buildBalancedTree "or" (Exp.EBool false) l i hi with h | h
  · simp [varIds] at h
  · exact h

theorem varIds_substVar (x : Nat) (v b : Exp) :
    ∀ i ∈ varIds (substVar x v b), i ∈ varIds v ∨ i ∈ varIds b := by
  induction b with
  | ENum n => intro i hi; exact Or.inr hi
  | EBool c => intro i hi; exact Or.inr hi
  | EEmptyList t => intro i hi; exact Or.inr hi
  | EVar id ty =>
      intro i hi
      simp only [substVar] at hi
      split at hi
      · exact Or.inl hi
      · exact Or.inr hi
  | ELambda y t b ih =>
      intro i hi
      simp only [substVar] at hi
      split at hi
      · exact Or.inr hi
      · simp only [varIds, List.mem_cons] at hi ⊢
        rcases hi with h | h
        · exact Or.inr (Or.inl h)
        · rcases ih i h with h2 | h2
          · exact Or.inl h2
          · exact Or.inr (Or.inr h2)
  | EBinOp a op b iha ihb =>
      intro i hi
      simp only [substVar, varIds, List.mem_append] at hi ⊢
      rcases hi with h | h
      · rcases iha i h with h2 | h2
        · exact Or.inl h2
        · exact Or.inr (Or.inl h2)
      · rcases ihb i h with h2 | h2
        · exact Or.inl h2
        · exact Or.inr (Or.inr h2)
  | ECond a b c iha ihb ihc =>
      intro i hi
      simp only [substVar, varIds, List.mem_append] at hi ⊢
      rcases hi with (h | h) | h
      · rcases iha i h with h2 | h2
        · exact Or.inl h2
        · exact Or.inr (Or.inl (Or.inl h2))
      · rcases ihb i h with h2 | h2
        · exact Or.inl h2
        · exact Or.inr (Or.inl (Or.inr h2))
      · rcases ihc i h with h2 | h2
        · exact Or.inl h2
        · exact Or.inr (Or.inr h2)
  | EUnaryOp op a ih =>
      intro i hi
      simp only [substVar, varIds] at hi ⊢
      exact ih i hi
  | ESingleton a ih =>
      intro i hi
      simp only [substVar, varIds] at hi ⊢
      exact ih i hi
  | EStateVar a ih =>
      intro i hi
      simp only [substVar, varIds] at hi ⊢
      exact ih i hi
  | EDropFront a ih =>
      intro i hi
      simp only [substVar, varIds] at hi ⊢
      exact ih i hi
  | EDropBack a ih =>
      intro i hi
      simp only [substVar, varIds] at hi ⊢
      exact ih i hi
  | EMap a b iha ihb =>
      intro i hi
      simp only [substVar, varIds, List.mem_append] at hi ⊢
      rcases hi with h | h
      · rcases iha i h with h2 | h2
        · exact Or.inl h2
        · exact Or.inr (Or.inl h2)
      · rcases ihb i h with h2 | h2
        · exact Or.inl h2
        · exact Or.inr (Or.inr h2)
  | EFilter a b iha ihb =>
      intro i hi
      simp only [substVar, varIds, List.mem_append] at hi ⊢
      rcases hi with h | h
      · rcases iha i h with h2 | h2
        · exact Or.inl h2
        · exact Or.inr (Or.inl h2)
      · rcases ihb i h with h2 | h2
        · exact Or.inl h2
        · exact Or.inr (Or.inr h2)
  | EFlatMap a b iha ihb =>
      intro i hi
      simp only [substVar, varIds, List.mem_append] at hi ⊢
      rcases hi with h | h
      · rcases iha i h with h2 | h2
        · exact Or.inl h2
        · exact Or.inr (Or.inl h2)
      · rcases ihb i h with h2 | h2
        · exact Or.inl h2
        · exact Or.inr (Or.inr h2)
  | EArgMin a b iha ihb =>
      intro i hi
      simp only [substVar, varIds, List.mem_append] at hi ⊢
      rcases hi with h | h
      · rcases iha i h with h2 | h2
        · exact Or.inl h2
        · exact Or.inr (Or.inl h2)
      · rcases ihb i h with h2 | h2
        · exact Or.inl h2
        · exact Or.inr (Or.inr h2)
  | EArgMax a b iha ihb =>
      intro i hi
      simp only [substVar, varIds, List.mem_append] at hi ⊢
      rcases hi with h | h
      · rcases iha i h with h2 | h2
        · exact Or.inl h2
        · exact Or.inr (Or.inl h2)
      · rcases ihb i h with h2 | h2
        · exact Or.inl h2
        · exact Or.inr (Or.inr h2)
  | EMakeMap2 a b iha ihb =>
      intro i hi
      simp only [substVar, varIds, List.mem_append] at hi ⊢
      rcases hi with h | h
      · rcases iha i h with h2 | h2
        · exact Or.inl h2
        · exact Or.inr (Or.inl h2)
      · rcases ihb i h with h2 | h2
        · exact Or.inl h2
        · exact Or.inr (Or.inr h2)
  | EMapGet a b iha ihb =>
      intro i hi
      simp only [substVar, varIds, List.mem_append] at hi ⊢
      rcases hi with h | h
      · rcases iha i h with h2 | h2
        · exact Or.inl h2
        · exact Or.inr (Or.inl h2)
      · rcases ihb i h with h2 | h2
        · exact Or.inl h2
        · exact Or.inr (Or.inr h2)

/-- The involution that swaps the identifier blocks `[N, N+d)` and
`[N+d, N+2d)` and fixes everything else. -/
def swapIds (N d : Nat) (i : Nat) : Nat :=
  if N ≤ i ∧ i < N + d then i + d
  else if N + d ≤ i ∧ i < N + 2 * d then i - d
  else i

theorem swapIds_invol (N d i : Nat) : swapIds N d (swapIds N d i) = i := by
  unfold swapIds
  split_ifs <;> omega

theorem swapIds_injective (N d : Nat) : Function.Injective (swapIds N d) :=
  Function.LeftInverse.injective (g := swapIds N d) (fun i => swapIds_invol N d i)

theorem swapIds_eq_shiftN (N d i : Nat) (h : i < N + d) :
    swapIds N d i = shiftN N d i := by
  unfold swapIds shiftN
  split_ifs <;> omega

theorem swapIds_shiftN_cancel (N d i : Nat) (h : i < N + d) :
    swapIds N d (shiftN N d i) = i := by
  unfold swapIds shiftN
  split_ifs <;> omega
theorem lookupCard_some_mem (t : List (Exp × Nat)) (e : Exp) (v : Nat)
    (h : lookupCard t e = some v) : ∃ p ∈ t, p.2 = v := by
  unfold lookupCard at h
  rcases ho : t.find? (fun p => alphaEquivalent p.1 e) with _ | p
  · rw [ho] at h; cases h
  · rw [ho] at h
    exact ⟨p, List.mem_of_find?_eq_some ho, by simpa using h⟩

/-- Range and distinctness invariant for the scratch state: the counter
is at least `lo`, every memo-table value is a distinct identifier in
`[lo, counter)`, and every identifier occurring in a table key or an
assumption is below the counter. -/
def BSt (lo : Nat) (st : CMState) : Prop :=
  lo ≤ st.counter ∧
  (∀ p ∈ st.cardinalities, (lo ≤ p.2 ∧ p.2 < st.counter) ∧ ∀ i ∈ varIds p.1, i < st.counter) ∧
  (∀ a ∈ st.assumptions, ∀ i ∈ varIds a, i < st.counter) ∧
  (st.cardinalities.map Prod.snd).Nodup

theorem allocCard_counter (e : Exp) (st : CMState) :
    (allocCard e st).counter = st.counter + 1 := rfl

theorem allocCard_cards (e : Exp) (st : CMState) :
    (allocCard e st).cardinalities = st.cardinalities ++ [(e, st.counter)] := rfl

theorem allocCard_assumptions (e : Exp) (st : CMState) :
    (allocCard e st).assumptions = st.assumptions := rfl

theorem BSt_allocCard (lo : Nat) (e : Exp) (st : CMState) (h : BSt lo st)
    (he : ∀ i ∈ varIds e, i < st.counter) : BSt lo (allocCard e st) := by
  obtain ⟨h1, h2, h3, h4⟩ := h
  refine ⟨?_, ?_, ?_, ?_⟩
  · rw [allocCard_counter]
    omega
  · intro p hp
    rw [allocCard_counter]
    rw [allocCard_cards] at hp
    simp only [List.mem_append, List.mem_singleton] at hp
    rcases hp with hp | hp
    · obtain ⟨⟨ha, hb⟩, hc⟩ := h2 p hp
      exact ⟨⟨ha, by omega⟩, fun i hi => by have := hc i hi; omega⟩
    · subst hp
      exact ⟨⟨h1, by omega⟩, fun i hi => by have := he i hi; omega⟩
  · intro a ha i hi
    rw [allocCard_assumptions] at ha
    have := h3 a ha i hi
    rw [allocCard_counter]
    omega
  · rw [allocCard_cards]
    simp only [List.map_append, List.map_cons, List.map_nil]
    refine List.Nodup.append h4 (by simp) ?_
    intro x hx hx2
    simp only [List.mem_singleton] at hx2
    subst hx2
    rcases List.mem_map.mp hx with ⟨p, hp, hps⟩
    have := (h2 p hp).1.2
    omega

theorem memoPlain_bound (lo : Nat) (e : Exp) (st : CMState) (hb : BSt lo st)
    (he : ∀ i ∈ varIds e, i < st.counter) :
    BSt lo (memoPlain e st).2 ∧
      ∀ i ∈ varIds (memoPlain e st).1, i < (memoPlain e st).2.counter := by
  unfold memoPlain
  rcases hl : lookupCard st.cardinalities e with _ | v
  · simp only [hl]
    refine ⟨BSt_allocCard lo e st hb he, ?_⟩
    intro i hi
    simp only [varIds, List.mem_singleton] at hi
    subst hi
    simp [allocCard]
  · simp only [hl]
    refine ⟨hb, ?_⟩
    intro i hi
    simp only [varIds, List.mem_singleton] at hi
    subst hi
    rcases lookupCard_some_mem _ _ _ hl with ⟨p, hp, hpv⟩
    subst hpv
    exact (hb.2.1 p hp).1.2

theorem cardinality_bound (lo : Nat) :
    ∀ (e : Exp) (st : CMState), BSt lo st → (∀ i ∈ varIds e, i < st.counter) →
      BSt lo (cardinality e st).2 ∧
      ∀ i ∈ varIds (cardinality e st).1, i < (cardinality e st).2.counter := by
  intro e st
  induction e, st using cardinality.induct with
  | case1 t st =>
      intro hb he
      exact ⟨hb, by simp [cardinality, ZERO, varIds]⟩
  | case2 e st =>
      intro hb he
      exact ⟨hb, by simp [cardinality, ONE, varIds]⟩
  | case3 a f st ih =>
      intro hb he
      have hEq : cardinality (Exp.EMap a f) st = cardinality a st := by
        simp [cardinality]
      rw [hEq]
      exact ih hb (fun i hi => he i (by
        simp only [varIds, List.mem_append]; exact Or.inl hi))
  | case4 a st ih =>
      intro hb he
      have hEq : cardinality (Exp.EStateVar a) st = cardinality a st := by
        simp [cardinality]
      rw [hEq]
      exact ih hb he
  | case5 e1 e2 st ih1 ih2 =>
      intro hb he
      have he1 : ∀ i ∈ varIds e1, i < st.counter := fun i hi =>
        he i (by simp only [varIds, List.mem_append]; exact Or.inl hi)
      have he2' : ∀ i ∈ varIds e2, i < st.counter := fun i hi =>
        he i (by simp only [varIds, List.mem_append]; exact Or.inr hi)
      obtain ⟨hb1, hr1⟩ := ih1 hb he1
      have he2 : ∀ i ∈ varIds e2, i < (cardinality e1 st).2.counter :=
        fun i hi => lt_of_lt_of_le (he2' i hi) (cardinality_counter_mono e1 st)
      obtain ⟨hb2, hr2⟩ := ih2 hb1 he2
      have hEq : cardinality (Exp.EBinOp e1 "+" e2) st =
          (ESum [(cardinality e1 st).1, (cardinality e2 (cardinality e1 st).2).1],
            (cardinality e2 (cardinality e1 st).2).2) := by
        simp [cardinality]
      rw [hEq]
      refine ⟨hb2, ?_⟩
      intro i hi
      rcases varIds_ESum _ i hi with ⟨x, hx, hix⟩
      simp only [List.mem_cons, List.not_mem_nil, or_false] at hx
      rcases hx with rfl | rfl
      · exact lt_of_lt_of_le (hr1 i hix) (cardinality_counter_mono e2 _)
      · exact hr2 i hix
  | case6 e1 op e2 st hop v hlook =>
      intro hb he
      have hv : v < st.counter := by
        rcases lookupCard_some_mem _ _ _ hlook with ⟨p, hp, hpv⟩
        subst hpv
        exact (hb.2.1 p hp).1.2
      have hEq : cardinality (Exp.EBinOp e1 op e2) st = (Exp.EVar v Ty.TInt, st) := by
        simp [cardinality, hop, hlook]
      rw [hEq]
      refine ⟨hb, ?_⟩
      intro i hi
      simp only [varIds, List.mem_singleton] at hi
      subst hi
      exact hv
  | case7 e1 e2 st htriv hlook ih =>
      intro hb he
      have halloc : BSt lo (allocCard (Exp.EBinOp e1 "-" e2) st) :=
        BSt_allocCard lo _ st hb he
      have hea : ∀ i ∈ varIds e1, i < (allocCard (Exp.EBinOp e1 "-" e2) st).counter :=
        fun i hi => lt_of_lt_of_le
          (he i (by simp only [varIds, List.mem_append]; exact Or.inl hi))
          (by rw [allocCard_counter]; omega)
      obtain ⟨hb2, hr2⟩ := ih halloc hea
      have hc : st.counter < (cardinality e1 (allocCard (Exp.EBinOp e1 "-" e2) st)).2.counter :=
        lt_of_lt_of_le (by rw [allocCard_counter]; omega : st.counter < (allocCard (Exp.EBinOp e1 "-" e2) st).counter) (cardinality_counter_mono e1 _)
      have hEq : cardinality (Exp.EBinOp e1 "-" e2) st =
          (Exp.EVar st.counter Ty.TInt,
            CMState.mk
              (cardinality e1 (allocCard (Exp.EBinOp e1 "-" e2) st)).2.cardinalities
              ((cardinality e1 (allocCard (Exp.EBinOp e1 "-" e2) st)).2.assumptions ++
                [leF (Exp.EVar st.counter Ty.TInt)
                  (cardinality e1 (allocCard (Exp.EBinOp e1 "-" e2) st)).1])
              (cardinality e1 (allocCard (Exp.EBinOp e1 "-" e2) st)).2.secondaries
              (cardinality e1 (allocCard (Exp.EBinOp e1 "-" e2) st)).2.counter) := by
        simp [cardinality, hlook]
      rw [hEq]
      obtain ⟨hi1, hi2, hi3, hi4⟩ := hb2
      refine ⟨⟨hi1, hi2, ?_, hi4⟩, ?_⟩
      · intro a ha i hi
        simp only [List.mem_append, List.mem_singleton] at ha
        rcases ha with ha | ha
        · exact hi3 a ha i hi
        · subst ha
          simp only [leF, varIds, List.mem_append, List.mem_singleton] at hi
          rcases hi with hi | hi
          · subst hi; exact hc
          · exact hr2 i hi
      · intro i hi
        simp only [varIds, List.mem_singleton] at hi
        subst hi
        exact hc
  | case8 e1 op e2 st hop hlook hne =>
      intro hb he
      have hEq : cardinality (Exp.EBinOp e1 op e2) st =
          (Exp.EVar st.counter Ty.TInt, allocCard (Exp.EBinOp e1 op e2) st) := by
        simp [cardinality, hop, hlook, hne]
      rw [hEq]
      refine ⟨BSt_allocCard lo _ st hb he, ?_⟩
      intro i hi
      simp only [varIds, List.mem_singleton] at hi
      subst hi
      simp [allocCard]
  | case9 op a st v hlook =>
      intro hb he
      have hv : v < st.counter := by
        rcases lookupCard_some_mem _ _ _ hlook with ⟨p, hp, hpv⟩
        subst hpv
        exact (hb.2.1 p hp).1.2
      have hEq : cardinality (Exp.EUnaryOp op a) st = (Exp.EVar v Ty.TInt, st) := by
        simp [cardinality, hlook]
      rw [hEq]
      refine ⟨hb, ?_⟩
      intro i hi
      simp only [varIds, List.mem_singleton] at hi
      subst hi
      exact hv
  | case10 a st hlook ih =>
      intro hb he
      have halloc : BSt lo (allocCard (Exp.EUnaryOp "distinct" a) st) :=
        BSt_allocCard lo _ st hb he
      have hea : ∀ i ∈ varIds a, i < (allocCard (Exp.EUnaryOp "distinct" a) st).counter :=
        fun i hi => lt_of_lt_of_le (he i hi) (by rw [allocCard_counter]; omega)
      obtain ⟨hb2, hr2⟩ := ih halloc hea
      have hc : st.counter <
          (cardinality a (allocCard (Exp.EUnaryOp "distinct" a) st)).2.counter :=
        lt_of_lt_of_le
          (by rw [allocCard_counter]; omega :
            st.counter < (allocCard (Exp.EUnaryOp "distinct" a) st).counter)
          (cardinality_counter_mono a _)
      have hEq : cardinality (Exp.EUnaryOp "distinct" a) st =
          (Exp.EVar st.counter Ty.TInt,
            CMState.mk
              (cardinality a (allocCard (Exp.EUnaryOp "distinct" a) st)).2.cardinalities
              ((cardinality a (allocCard (Exp.EUnaryOp "distinct" a) st)).2.assumptions ++
                [leF (Exp.EVar st.counter Ty.TInt)
                  (cardinality a (allocCard (Exp.EUnaryOp "distinct" a) st)).1,
                 geF (mulF (Exp.EVar st.counter Ty.TInt) (Exp.ENum 5))
                  (mulF (cardinality a (allocCard (Exp.EUnaryOp "distinct" a) st)).1
                    (Exp.ENum 4))])
              (cardinality a (allocCard (Exp.EUnaryOp "distinct" a) st)).2.secondaries
              (cardinality a (allocCard (Exp.EUnaryOp "distinct" a) st)).2.counter) := by
        simp [cardinality, hlook]
      rw [hEq]
      obtain ⟨hi1, hi2, hi3, hi4⟩ := hb2
      refine ⟨⟨hi1, hi2, ?_, hi4⟩, ?_⟩
      · intro b hbm i hi
        simp only [List.mem_append, List.mem_cons, List.mem_singleton,
          List.not_mem_nil, or_false] at hbm
        rcases hbm with hbm | hbm | hbm
        · exact hi3 b hbm i hi
        · subst hbm
          simp only [leF, varIds, List.mem_append, List.mem_singleton] at hi
          rcases hi with hi | hi
          · subst hi; exact hc
          · exact hr2 i hi
        · subst hbm
          simp only [geF, mulF, varIds, List.mem_append, List.mem_singleton,
            List.append_nil, List.not_mem_nil, or_false] at hi
          rcases hi with hi | hi
          · subst hi; exact hc
          · exact hr2 i hi
      · intro i hi
        simp only [varIds, List.mem_singleton] at hi
        subst hi
        exact hc
  | case11 op a st hlook hop =>
      intro hb he
      have hEq : cardinality (Exp.EUnaryOp op a) st =
          (Exp.EVar st.counter Ty.TInt, allocCard (Exp.EUnaryOp op a) st) := by
        simp [cardinality, hlook, hop]
      rw [hEq]
      refine ⟨BSt_allocCard lo _ st hb he, ?_⟩
      intro i hi
      simp only [varIds, List.mem_singleton] at hi
      subst hi
      simp [allocCard]
  | case12 a p st v hlook =>
      intro hb he
      have hv : v < st.counter := by
        rcases lookupCard_some_mem _ _ _ hlook with ⟨q, hq, hqv⟩
        subst hqv
        exact (hb.2.1 q hq).1.2
      have hEq : cardinality (Exp.EFilter a p) st = (Exp.EVar v Ty.TInt, st) := by
        simp [cardinality, hlook]
      rw [hEq]
      refine ⟨hb, ?_⟩
      intro i hi
      simp only [varIds, List.mem_singleton] at hi
      subst hi
      exact hv
  | case13 a p st hlook ih =>
      intro hb he
      have halloc : BSt lo (allocCard (Exp.EFilter a p) st) :=
        BSt_allocCard lo _ st hb he
      have hea : ∀ i ∈ varIds a, i < (allocCard (Exp.EFilter a p) st).counter :=
        fun i hi => lt_of_lt_of_le
          (he i (by simp only [varIds, List.mem_append]; exact Or.inl hi))
          (by rw [allocCard_counter]; omega)
      obtain ⟨hb2, hr2⟩ := ih halloc hea
      have hc : st.counter < (cardinality a (allocCard (Exp.EFilter a p) st)).2.counter :=
        lt_of_lt_of_le
          (by rw [allocCard_counter]; omega :
            st.counter < (allocCard (Exp.EFilter a p) st).counter)
          (cardinality_counter_mono a _)
      have hEq : cardinality (Exp.EFilter a p) st =
          (Exp.EVar st.counter Ty.TInt,
            CMState.mk
              (cardinality a (allocCard (Exp.EFilter a p) st)).2.cardinalities
              ((cardinality a (allocCard (Exp.EFilter a p) st)).2.assumptions ++
                [leF (Exp.EVar st.counter Ty.TInt)
                  (cardinality a (allocCard (Exp.EFilter a p) st)).1,
                 geF (mulF (Exp.EVar st.counter Ty.TInt) (Exp.ENum 5))
                  (mulF (cardinality a (allocCard (Exp.EFilter a p) st)).1 (Exp.ENum 4))])
              (cardinality a (allocCard (Exp.EFilter a p) st)).2.secondaries
              (cardinality a (allocCard (Exp.EFilter a p) st)).2.counter) := by
        simp [cardinality, hlook]
      rw [hEq]
      obtain ⟨hi1, hi2, hi3, hi4⟩ := hb2
      refine ⟨⟨hi1, hi2, ?_, hi4⟩, ?_⟩
      · intro b hbm i hi
        simp only [List.mem_append, List.mem_cons, List.mem_singleton,
          List.not_mem_nil, or_false] at hbm
        rcases hbm with hbm | hbm | hbm
        · exact hi3 b hbm i hi
        · subst hbm
          simp only [leF, varIds, List.mem_append, List.mem_singleton] at hi
          rcases hi with hi | hi
          · subst hi; exact hc
          · exact hr2 i hi
        · subst hbm
          simp only [geF, mulF, varIds, List.mem_append, List.mem_singleton,
            List.append_nil, List.not_mem_nil, or_false] at hi
          rcases hi with hi | hi
          · subst hi; exact hc
          · exact hr2 i hi
      · intro i hi
        simp only [varIds, List.mem_singleton] at hi
        subst hi
        exact hc
  | case14 c t f st v hlook =>
      intro hb he
      have hv : v < st.counter := by
        rcases lookupCard_some_mem _ _ _ hlook with ⟨q, hq, hqv⟩
        subst hqv
        exact (hb.2.1 q hq).1.2
      have hEq : cardinality (Exp.ECond c t f) st = (Exp.EVar v Ty.TInt, st) := by
        simp [cardinality, hlook]
      rw [hEq]
      refine ⟨hb, ?_⟩
      intro i hi
      simp only [varIds, List.mem_singleton] at hi
      subst hi
      exact hv
  | case15 c t f st hlook iht ihf =>
      intro hb he
      have halloc : BSt lo (allocCard (Exp.ECond c t f) st) :=
        BSt_allocCard lo _ st hb he
      have het : ∀ i ∈ varIds t, i < (allocCard (Exp.ECond c t f) st).counter :=
        fun i hi => lt_of_lt_of_le
          (he i (by simp only [varIds, List.mem_append]; exact Or.inl (Or.inr hi)))
          (by rw [allocCard_counter]; omega)
      obtain ⟨hbt, hrt⟩ := iht halloc het
      have hef : ∀ i ∈ varIds f,
          i < (cardinality t (allocCard (Exp.ECond c t f) st)).2.counter :=
        fun i hi => lt_of_lt_of_le
          (lt_of_lt_of_le
            (he i (by simp only [varIds, List.mem_append]; exact Or.inr hi))
            (by rw [allocCard_counter]; omega))
          (cardinality_counter_mono t _)
      obtain ⟨hbf, hrf⟩ := ihf hbt hef
      have hc : st.counter <
          (cardinality f (cardinality t (allocCard (Exp.ECond c t f) st)).2).2.counter :=
        lt_of_lt_of_le
          (by rw [allocCard_counter]; omega :
            st.counter < (allocCard (Exp.ECond c t f) st).counter)
          (le_trans (cardinality_counter_mono t _) (cardinality_counter_mono f _))
      have hEq : cardinality (Exp.ECond c t f) st =
          (Exp.EVar st.counter Ty.TInt,
            CMState.mk
              (cardinality f (cardinality t (allocCard (Exp.ECond c t f) st)).2).2.cardinalities
              ((cardinality f (cardinality t (allocCard (Exp.ECond c t f) st)).2).2.assumptions ++
                [EAny [EEq (Exp.EVar st.counter Ty.TInt)
                    (cardinality t (allocCard (Exp.ECond c t f) st)).1,
                  EEq (Exp.EVar st.counter Ty.TInt)
                    (cardinality f (cardinality t (allocCard (Exp.ECond c t f) st)).2).1]])
              (cardinality f (cardinality t (allocCard (Exp.ECond c t f) st)).2).2.secondaries
              (cardinality f (cardinality t (allocCard (Exp.ECond c t f) st)).2).2.counter) := by
        simp [cardinality, hlook]
      rw [hEq]
      obtain ⟨hi1, hi2, hi3, hi4⟩ := hbf
      refine ⟨⟨hi1, hi2, ?_, hi4⟩, ?_⟩
      · intro b hbm i hi
        simp only [List.mem_append, List.mem_singleton] at hbm
        rcases hbm with hbm | hbm
        · exact hi3 b hbm i hi
        · subst hbm
          rcases varIds_EAny _ i hi with ⟨x, hx, hix⟩
          simp only [List.mem_cons, List.not_mem_nil, or_false] at hx
          rcases hx with rfl | rfl
          · simp only [EEq, varIds, List.mem_append, List.mem_singleton] at hix
            rcases hix with hix | hix
            · subst hix; exact hc
            · exact lt_of_lt_of_le (hrt i hix) (cardinality_counter_mono f _)
          · simp only [EEq, varIds, List.mem_append, List.mem_singleton] at hix
            rcases hix with hix | hix
            · subst hix; exact hc
            · exact hrf i hix
      · intro i hi
        simp only [varIds, List.mem_singleton] at hi
        subst hi
        exact hc
  | case16 n st =>
      intro hb he
      exact memoPlain_bound lo _ st hb he
  | case17 b st =>
      intro hb he
      exact memoPlain_bound lo _ st hb he
  | case18 id ty st =>
      intro hb he
      exact memoPlain_bound lo _ st hb he
  | case19 x t b st =>
      intro hb he
      exact memoPlain_bound lo _ st hb he
  | case20 a b st =>
      intro hb he
      exact memoPlain_bound lo _ st hb he
  | case21 a b st =>
      intro hb he
      exact memoPlain_bound lo _ st hb he
  | case22 a b st =>
      intro hb he
      exact memoPlain_bound lo _ st hb he
  | case23 a b st =>
      intro hb he
      exact memoPlain_bound lo _ st hb he
  | case24 a b st =>
      intro hb he
      exact memoPlain_bound lo _ st hb he
  | case25 a st =>
      intro hb he
      exact memoPlain_bound lo _ st hb he
  | case26 a st =>
      intro hb he
      exact memoPlain_bound lo _ st hb he
theorem BSt_relax (lo : Nat) (st : CMState) (s : Rat) (c : Nat) (h : BSt lo st)
    (hc : st.counter ≤ c) :
    BSt lo (CMState.mk st.cardinalities st.assumptions s c) := by
  obtain ⟨h1, h2, h3, h4⟩ := h
  exact ⟨le_trans h1 hc,
    fun p hp => ⟨⟨(h2 p hp).1.1, lt_of_lt_of_le (h2 p hp).1.2 hc⟩,
      fun i hi => lt_of_lt_of_le ((h2 p hp).2 i hi) hc⟩,
    fun a ha i hi => lt_of_lt_of_le (h3 a ha i hi) hc, h4⟩

theorem sizeofE_bound (lo : Nat) (e : Exp) (st : CMState) (hb : BSt lo st)
    (he : ∀ i ∈ varIds e, i < st.counter) :
    BSt lo (sizeofE e st).2 ∧
      ∀ i ∈ varIds (sizeofE e st).1, i < (sizeofE e st).2.counter := by
  unfold sizeofE
  split
  · exact cardinality_bound lo e st hb he
  · exact ⟨hb, by simp [ONE, varIds]⟩

theorem visitF_bound (lo : Nat) : ∀ (fuel : Nat) (e : Exp) (st : CMState),
    BSt lo st → (∀ i ∈ varIds e, i < st.counter) →
    BSt lo (visitF fuel e st).2 ∧
      ∀ i ∈ varIds (visitF fuel e st).1, i < (visitF fuel e st).2.counter := by
  intro fuel e st
  induction fuel, e, st using visitF.induct with
  | case1 t n st =>
      intro hb he
      simp only [visitF]
      exact ⟨hb, by simp [ONE, varIds]⟩
  | case2 t b st =>
      intro hb he
      simp only [visitF]
      exact ⟨hb, by simp [ONE, varIds]⟩
  | case3 t id ty st =>
      intro hb he
      simp only [visitF]
      exact ⟨hb, by simp [ONE, varIds]⟩
  | case4 t ty st =>
      intro hb he
      simp only [visitF]
      exact ⟨hb, by simp [ONE, varIds]⟩
  | case5 x st h1 h2 h3 h4 =>
      intro hb he
      cases x <;> refine ⟨hb, ?_⟩ <;> simp [visitF, ZERO, ONE, varIds]
  | case6 fuel a st ih =>
      intro hb he
      obtain ⟨hb1, hr1⟩ := ih hb he
      have hEq : visitF fuel.succ a.ESingleton st =
          (ESum [ONE, (visitF fuel a st).1], (visitF fuel a st).2) := by
        simp [visitF]
      rw [hEq]
      refine ⟨hb1, ?_⟩
      intro i hi
      dsimp only at hi
      rcases varIds_ESum _ i hi with ⟨x, hx, hix⟩
      simp only [List.mem_cons, List.not_mem_nil, or_false] at hx
      rcases hx with rfl | rfl
      · simp [ONE, varIds] at hix
      · exact hr1 i hix
  | case7 fuel c t f st ihc iht ihf =>
      intro hb he
      have hec : ∀ i ∈ varIds c, i < st.counter := fun i hi =>
        he i (by simp only [varIds, List.mem_append]; exact Or.inl (Or.inl hi))
      obtain ⟨hb1, hr1⟩ := ihc hb hec
      have het : ∀ i ∈ varIds t, i < (visitF fuel c st).2.counter := fun i hi =>
        lt_of_lt_of_le
          (he i (by simp only [varIds, List.mem_append]; exact Or.inl (Or.inr hi)))
          (visitF_counter_mono fuel c st)
      obtain ⟨hb2, hr2⟩ := iht hb1 het
      have hef : ∀ i ∈ varIds f, i < (visitF fuel t (visitF fuel c st).2).2.counter :=
        fun i hi =>
          lt_of_lt_of_le
            (he i (by simp only [varIds, List.mem_append]; exact Or.inr hi))
            (le_trans (visitF_counter_mono fuel c st) (visitF_counter_mono fuel t _))
      obtain ⟨hb3, hr3⟩ := ihf hb2 hef
      have hEq : visitF fuel.succ (c.ECond t f) st =
          (ESum [ONE, (visitF fuel c st).1, (visitF fuel t (visitF fuel c st).2).1,
            (visitF fuel f (visitF fuel t (visitF fuel c st).2).2).1],
           (visitF fuel f (visitF fuel t (visitF fuel c st).2).2).2) := by
        simp [visitF]
      rw [hEq]
      refine ⟨hb3, ?_⟩
      intro i hi
      dsimp only at hi
      rcases varIds_ESum _ i hi with ⟨x, hx, hix⟩
      simp only [List.mem_cons, List.not_mem_nil, or_false] at hx
      rcases hx with rfl | rfl | rfl | rfl
      · simp [ONE, varIds] at hix
      · exact lt_of_lt_of_le (hr1 i hix)
          (le_trans (visitF_counter_mono fuel t _) (visitF_counter_mono fuel f _))
      · exact lt_of_lt_of_le (hr2 i hix) (visitF_counter_mono fuel f _)
      · exact hr3 i hix
  | case8 n a st =>
      intro hb he
      obtain ⟨hb1, hr1⟩ := sizeofE_bound lo a
        (CMState.mk st.cardinalities st.assumptions
          (st.secondaries + statecost a) st.counter) hb he
      have hEq : visitF n.succ a.EStateVar st =
          (ESum [ONE, (sizeofE a (CMState.mk st.cardinalities st.assumptions
              (st.secondaries + statecost a) st.counter)).1],
           (sizeofE a (CMState.mk st.cardinalities st.assumptions
              (st.secondaries + statecost a) st.counter)).2) := by
        simp [visitF]
      rw [hEq]
      refine ⟨hb1, ?_⟩
      intro i hi
      dsimp only at hi
      rcases varIds_ESum _ i hi with ⟨x, hx, hix⟩
      simp only [List.mem_cons, List.not_mem_nil, or_false] at hx
      rcases hx with rfl | rfl
      · simp [ONE, varIds] at hix
      · exact hr1 i hix
  | case9 fuel op a st hop ih =>
      intro hb he
      obtain ⟨hb1, hr1⟩ := ih hb he
      have hea : ∀ i ∈ varIds a, i < (visitF fuel a st).2.counter :=
        fun i hi => lt_of_lt_of_le (he i hi) (visitF_counter_mono fuel a st)
      obtain ⟨hb2, hr2⟩ := cardinality_bound lo a _ hb1 hea
      have hEq : visitF fuel.succ (Exp.EUnaryOp op a) st =
          (ESum [ONE, (visitF fuel a st).1, (cardinality a (visitF fuel a st).2).1],
            (cardinality a (visitF fuel a st).2).2) := by
        simp only [visitF, hop, if_true]
      rw [hEq]
      refine ⟨hb2, ?_⟩
      intro i hi
      dsimp only at hi
      rcases varIds_ESum _ i hi with ⟨x, hx, hix⟩
      simp only [List.mem_cons, List.not_mem_nil, or_false] at hx
      rcases hx with rfl | rfl | rfl
      · simp [ONE, varIds] at hix
      · exact lt_of_lt_of_le (hr1 i hix) (cardinality_counter_mono a _)
      · exact hr2 i hix
  | case10 fuel op a st hop ih =>
      intro hb he
      obtain ⟨hb1, hr1⟩ := ih hb he
      have hEq : visitF fuel.succ (Exp.EUnaryOp op a) st =
          (ESum [ONE, (visitF fuel a st).1], (visitF fuel a st).2) := by
        simp only [visitF, hop, Bool.false_eq_true, if_false]
      rw [hEq]
      refine ⟨hb1, ?_⟩
      intro i hi
      dsimp only at hi
      rcases varIds_ESum _ i hi with ⟨x, hx, hix⟩
      simp only [List.mem_cons, List.not_mem_nil, or_false] at hx
      rcases hx with rfl | rfl
      · simp [ONE, varIds] at hix
      · exact hr1 i hix
  | case11 fuel e1 e2 st ih1 ih2 =>
      intro hb he
      have he1 : ∀ i ∈ varIds e1, i < st.counter := fun i hi =>
        he i (by simp only [varIds, List.mem_append]; exact Or.inl hi)
      obtain ⟨hb1, hr1⟩ := ih1 hb he1
      have he2 : ∀ i ∈ varIds e2, i < (visitF fuel e1 st).2.counter := fun i hi =>
        lt_of_lt_of_le
          (he i (by simp only [varIds, List.mem_append]; exact Or.inr hi))
          (visitF_counter_mono fuel e1 st)
      obtain ⟨hb2, hr2⟩ := ih2 hb1 he2
      have he2' : ∀ i ∈ varIds e2, i < (visitF fuel e2 (visitF fuel e1 st).2).2.counter :=
        fun i hi => lt_of_lt_of_le (he2 i hi) (visitF_counter_mono fuel e2 _)
      obtain ⟨hb3, hr3⟩ := cardinality_bound lo e2 _ hb2 he2'
      have hEq : visitF fuel.succ (e1.EBinOp "in" e2) st =
          (ESum [ONE, (visitF fuel e1 st).1, (visitF fuel e2 (visitF fuel e1 st).2).1,
            (cardinality e2 (visitF fuel e2 (visitF fuel e1 st).2).2).1],
           (cardinality e2 (visitF fuel e2 (visitF fuel e1 st).2).2).2) := by
        simp [visitF]
      rw [hEq]
      refine ⟨hb3, ?_⟩
      intro i hi
      dsimp only at hi
      rcases varIds_ESum _ i hi with ⟨x, hx, hix⟩
      simp only [List.mem_cons, List.not_mem_nil, or_false] at hx
      rcases hx with rfl | rfl | rfl | rfl
      · simp [ONE, varIds] at hix
      · exact lt_of_lt_of_le (hr1 i hix)
          (le_trans (visitF_counter_mono fuel e2 _) (cardinality_counter_mono e2 _))
      · exact lt_of_lt_of_le (hr2 i hix) (cardinality_counter_mono e2 _)
      · exact hr3 i hix
  | case12 fuel e1 op e2 st hop hcoll ih1 ih2 =>
      intro hb he
      have he1 : ∀ i ∈ varIds e1, i < st.counter := fun i hi =>
        he i (by simp only [varIds, List.mem_append]; exact Or.inl hi)
      obtain ⟨hb1, hr1⟩ := ih1 hb he1
      have he2 : ∀ i ∈ varIds e2, i < (visitF fuel e1 st).2.counter := fun i hi =>
        lt_of_lt_of_le
          (he i (by simp only [varIds, List.mem_append]; exact Or.inr hi))
          (visitF_counter_mono fuel e1 st)
      obtain ⟨hb2, hr2⟩ := ih2 hb1 he2
      have he1' : ∀ i ∈ varIds e1, i < (visitF fuel e2 (visitF fuel e1 st).2).2.counter :=
        fun i hi => lt_of_lt_of_le (lt_of_lt_of_le (he1 i hi)
          (visitF_counter_mono fuel e1 st)) (visitF_counter_mono fuel e2 _)
      obtain ⟨hb3, hr3⟩ := cardinality_bound lo e1 _ hb2 he1'
      have he2' : ∀ i ∈ varIds e2,
          i < (cardinality e1 (visitF fuel e2 (visitF fuel e1 st).2).2).2.counter :=
        fun i hi => lt_of_lt_of_le
          (lt_of_lt_of_le (he2 i hi) (visitF_counter_mono fuel e2 _))
          (cardinality_counter_mono e1 _)
      obtain ⟨hb4, hr4⟩ := cardinality_bound lo e2 _ hb3 he2'
      have hEq : visitF fuel.succ (e1.EBinOp op e2) st =
          (ESum [ONE, (visitF fuel e1 st).1, (visitF fuel e2 (visitF fuel e1 st).2).1,
            EXTREME_COST,
            (cardinality e1 (visitF fuel e2 (visitF fuel e1 st).2).2).1,
            (cardinality e2 (cardinality e1 (visitF fuel e2 (visitF fuel e1 st).2).2).2).1],
           (cardinality e2 (cardinality e1 (visitF fuel e2 (visitF fuel e1 st).2).2).2).2) := by
        simp only [visitF, if_neg hop, hcoll, if_true]
      rw [hEq]
      refine ⟨hb4, ?_⟩
      intro i hi
      dsimp only at hi
      rcases varIds_ESum _ i hi with ⟨x, hx, hix⟩
      simp only [List.mem_cons, List.not_mem_nil, or_false] at hx
      rcases hx with rfl | rfl | rfl | rfl | rfl | rfl
      · simp [ONE, varIds] at hix
      · exact lt_of_lt_of_le (hr1 i hix)
          (le_trans (visitF_counter_mono fuel e2 _)
            (le_trans (cardinality_counter_mono e1 _) (cardinality_counter_mono e2 _)))
      · exact lt_of_lt_of_le (hr2 i hix)
          (le_trans (cardinality_counter_mono e1 _) (cardinality_counter_mono e2 _))
      · simp [EXTREME_COST, varIds] at hix
      · exact lt_of_lt_of_le (hr3 i hix) (cardinality_counter_mono e2 _)
      · exact hr4 i hix
  | case13 fuel e1 op e2 st hop hcoll1 hcoll2 ih1 ih2 =>
      intro hb he
      have he1 : ∀ i ∈ varIds e1, i < st.counter := fun i hi =>
        he i (by simp only [varIds, List.mem_append]; exact Or.inl hi)
      obtain ⟨hb1, hr1⟩ := ih1 hb he1
      have he2 : ∀ i ∈ varIds e2, i < (visitF fuel e1 st).2.counter := fun i hi =>
        lt_of_lt_of_le
          (he i (by simp only [varIds, List.mem_append]; exact Or.inr hi))
          (visitF_counter_mono fuel e1 st)
      obtain ⟨hb2, hr2⟩ := ih2 hb1 he2
      have he1' : ∀ i ∈ varIds e1, i < (visitF fuel e2 (visitF fuel e1 st).2).2.counter :=
        fun i hi => lt_of_lt_of_le (lt_of_lt_of_le (he1 i hi)
          (visitF_counter_mono fuel e1 st)) (visitF_counter_mono fuel e2 _)
      obtain ⟨hb3, hr3⟩ := cardinality_bound lo e1 _ hb2 he1'
      have he2' : ∀ i ∈ varIds e2,
          i < (cardinality e1 (visitF fuel e2 (visitF fuel e1 st).2).2).2.counter :=
        fun i hi => lt_of_lt_of_le
          (lt_of_lt_of_le (he2 i hi) (visitF_counter_mono fuel e2 _))
          (cardinality_counter_mono e1 _)
      obtain ⟨hb4, hr4⟩ := cardinality_bound lo e2 _ hb3 he2'
      have hEq : visitF fuel.succ (e1.EBinOp op e2) st =
          (ESum [ONE, (visitF fuel e1 st).1, (visitF fuel e2 (visitF fuel e1 st).2).1,
            EXTREME_COST,
            (cardinality e1 (visitF fuel e2 (visitF fuel e1 st).2).2).1,
            (cardinality e2 (cardinality e1 (visitF fuel e2 (visitF fuel e1 st).2).2).2).1],
           (cardinality e2 (cardinality e1 (visitF fuel e2 (visitF fuel e1 st).2).2).2).2) := by
        simp only [visitF, if_neg hop, hcoll1, hcoll2, if_true,
          Bool.false_eq_true, if_false]
      rw [hEq]
      refine ⟨hb4, ?_⟩
      intro i hi
      dsimp only at hi
      rcases varIds_ESum _ i hi with ⟨x, hx, hix⟩
      simp only [List.mem_cons, List.not_mem_nil, or_false] at hx
      rcases hx with rfl | rfl | rfl | rfl | rfl | rfl
      · simp [ONE, varIds] at hix
      · exact lt_of_lt_of_le (hr1 i hix)
          (le_trans (visitF_counter_mono fuel e2 _)
            (le_trans (cardinality_counter_mono e1 _) (cardinality_counter_mono e2 _)))
      · exact lt_of_lt_of_le (hr2 i hix)
          (le_trans (cardinality_counter_mono e1 _) (cardinality_counter_mono e2 _))
      · simp [EXTREME_COST, varIds] at hix
      · exact lt_of_lt_of_le (hr3 i hix) (cardinality_counter_mono e2 _)
      · exact hr4 i hix
  | case14 fuel e1 op e2 st hop hcoll1 hcoll2 ih1 ih2 =>
      intro hb he
      have he1 : ∀ i ∈ varIds e1, i < st.counter := fun i hi =>
        he i (by simp only [varIds, List.mem_append]; exact Or.inl hi)
      obtain ⟨hb1, hr1⟩ := ih1 hb he1
      have he2 : ∀ i ∈ varIds e2, i < (visitF fuel e1 st).2.counter := fun i hi =>
        lt_of_lt_of_le
          (he i (by simp only [varIds, List.mem_append]; exact Or.inr hi))
          (visitF_counter_mono fuel e1 st)
      obtain ⟨hb2, hr2⟩ := ih2 hb1 he2
      have hEq : visitF fuel.succ (e1.EBinOp op e2) st =
          (ESum [ONE, (visitF fuel e1 st).1, (visitF fuel e2 (visitF fuel e1 st).2).1],
            (visitF fuel e2 (visitF fuel e1 st).2).2) := by
        simp only [visitF, if_neg hop, hcoll1, hcoll2, Bool.false_eq_true, if_false]
      rw [hEq]
      refine ⟨hb2, ?_⟩
      intro i hi
      dsimp only at hi
      rcases varIds_ESum _ i hi with ⟨x, hx, hix⟩
      simp only [List.mem_cons, List.not_mem_nil, or_false] at hx
      rcases hx with rfl | rfl | rfl
      · simp [ONE, varIds] at hix
      · exact lt_of_lt_of_le (hr1 i hix) (visitF_counter_mono fuel e2 _)
      · exact hr2 i hix
  | case15 fuel x t b st ih =>
      intro hb he
      have hb' : BSt lo (CMState.mk st.cardinalities st.assumptions st.secondaries
          (st.counter + 1)) :=
        BSt_relax lo st _ _ hb (Nat.le_succ _)
      have he' : ∀ i ∈ varIds (substVar x (Exp.EVar st.counter t) b), i < st.counter + 1 := by
        intro i hi
        rcases varIds_substVar _ _ _ i hi with h | h
        · simp only [varIds, List.mem_singleton] at h
          omega
        · have := he i (by simp only [varIds, List.mem_cons]; exact Or.inr h)
          omega
      have hEq : visitF fuel.succ (Exp.ELambda x t b) st =
          visitF fuel (substVar x (Exp.EVar st.counter t) b)
            (CMState.mk st.cardinalities st.assumptions st.secondaries (st.counter + 1)) := by
        simp [visitF]
      rw [hEq]
      exact ih hb' he'
  | case16 fuel m k st ihm ihk =>
      intro hb he
      have hem : ∀ i ∈ varIds m, i < st.counter := fun i hi =>
        he i (by simp only [varIds, List.mem_append]; exact Or.inl hi)
      obtain ⟨hb1, hr1⟩ := ihm hb hem
      have hek : ∀ i ∈ varIds k, i < (visitF fuel m st).2.counter := fun i hi =>
        lt_of_lt_of_le
          (he i (by simp only [varIds, List.mem_append]; exact Or.inr hi))
          (visitF_counter_mono fuel m st)
      obtain ⟨hb2, hr2⟩ := ihk hb1 hek
      have hEq : visitF fuel.succ (m.EMapGet k) st =
          (ESum [MILD_PENALTY, (visitF fuel m st).1, (visitF fuel k (visitF fuel m st).2).1],
            (visitF fuel k (visitF fuel m st).2).2) := by
        simp [visitF]
      rw [hEq]
      refine ⟨hb2, ?_⟩
      intro i hi
      dsimp only at hi
      rcases varIds_ESum _ i hi with ⟨x, hx, hix⟩
      simp only [List.mem_cons, List.not_mem_nil, or_false] at hx
      rcases hx with rfl | rfl | rfl
      · simp [MILD_PENALTY, varIds] at hix
      · exact lt_of_lt_of_le (hr1 i hix) (visitF_counter_mono fuel k _)
      · exact hr2 i hix
  | case17 fuel a v st iha ihv =>
      intro hb he
      have hea : ∀ i ∈ varIds a, i < st.counter := fun i hi =>
        he i (by simp only [varIds, List.mem_append]; exact Or.inl hi)
      obtain ⟨hb1, hr1⟩ := iha hb hea
      have hea' : ∀ i ∈ varIds a, i < (visitF fuel a st).2.counter :=
        fun i hi => lt_of_lt_of_le (hea i hi) (visitF_counter_mono fuel a st)
      obtain ⟨hb2, hr2⟩ := cardinality_bound lo a _ hb1 hea'
      have hev : ∀ i ∈ varIds v, i < (cardinality a (visitF fuel a st).2).2.counter :=
        fun i hi => lt_of_lt_of_le
          (lt_of_lt_of_le
            (he i (by simp only [varIds, List.mem_append]; exact Or.inr hi))
            (visitF_counter_mono fuel a st))
          (cardinality_counter_mono a _)
      obtain ⟨hb3, hr3⟩ := ihv hb2 hev
      have hEq : visitF fuel.succ (a.EMakeMap2 v) st =
          (ESum [EXTREME_COST, (visitF fuel a st).1,
            Exp.EBinOp (cardinality a (visitF fuel a st).2).1 "*"
              (visitF fuel v (cardinality a (visitF fuel a st).2).2).1],
           (visitF fuel v (cardinality a (visitF fuel a st).2).2).2) := by
        simp [visitF]
      rw [hEq]
      refine ⟨hb3, ?_⟩
      intro i hi
      dsimp only at hi
      rcases varIds_ESum _ i hi with ⟨x, hx, hix⟩
      simp only [List.mem_cons, List.not_mem_nil, or_false] at hx
      rcases hx with rfl | rfl | rfl
      · simp [EXTREME_COST, varIds] at hix
      · exact lt_of_lt_of_le (hr1 i hix)
          (le_trans (cardinality_counter_mono a _) (visitF_counter_mono fuel v _))
      · simp only [varIds, List.mem_append] at hix
        rcases hix with hix | hix
        · exact lt_of_lt_of_le (hr2 i hix) (visitF_counter_mono fuel v _)
        · exact hr3 i hix
  | case18 fuel a p st iha ihp =>
      intro hb he
      have hea : ∀ i ∈ varIds a, i < st.counter := fun i hi =>
        he i (by simp only [varIds, List.mem_append]; exact Or.inl hi)
      obtain ⟨hb1, hr1⟩ := iha hb hea
      have hea' : ∀ i ∈ varIds a, i < (visitF fuel a st).2.counter :=
        fun i hi => lt_of_lt_of_le (hea i hi) (visitF_counter_mono fuel a st)
      obtain ⟨hb2, hr2⟩ := cardinality_bound lo a _ hb1 hea'
      have hep : ∀ i ∈ varIds p, i < (cardinality a (visitF fuel a st).2).2.counter :=
        fun i hi => lt_of_lt_of_le
          (lt_of_lt_of_le
            (he i (by simp only [varIds, List.mem_append]; exact Or.inr hi))
            (visitF_counter_mono fuel a st))
          (cardinality_counter_mono a _)
      obtain ⟨hb3, hr3⟩ := ihp hb2 hep
      have hEq : visitF fuel.succ (a.EFilter p) st =
          (ESum [TWO, (visitF fuel a st).1,
            Exp.EBinOp (cardinality a (visitF fuel a st).2).1 "*"
              (visitF fuel p (cardinality a (visitF fuel a st).2).2).1],
           (visitF fuel p (cardinality a (visitF fuel a st).2).2).2) := by
        simp [visitF]
      rw [hEq]
      refine ⟨hb3, ?_⟩
      intro i hi
      dsimp only at hi
      rcases varIds_ESum _ i hi with ⟨x, hx, hix⟩
      simp only [List.mem_cons, List.not_mem_nil, or_false] at hx
      rcases hx with rfl | rfl | rfl
      · simp [TWO, varIds] at hix
      · exact lt_of_lt_of_le (hr1 i hix)
          (le_trans (cardinality_counter_mono a _) (visitF_counter_mono fuel p _))
      · simp only [varIds, List.mem_append] at hix
        rcases hix with hix | hix
        · exact lt_of_lt_of_le (hr2 i hix) (visitF_counter_mono fuel p _)
        · exact hr3 i hix
  | case19 fuel a f st iha ihf =>
      intro hb he
      have hea : ∀ i ∈ varIds a, i < st.counter := fun i hi =>
        he i (by simp only [varIds, List.mem_append]; exact Or.inl hi)
      obtain ⟨hb1, hr1⟩ := iha hb hea
      have hea' : ∀ i ∈ varIds a, i < (visitF fuel a st).2.counter :=
        fun i hi => lt_of_lt_of_le (hea i hi) (visitF_counter_mono fuel a st)
      obtain ⟨hb2, hr2⟩ := cardinality_bound lo a _ hb1 hea'
      have hef : ∀ i ∈ varIds f, i < (cardinality a (visitF fuel a st).2).2.counter :=
        fun i hi => lt_of_lt_of_le
          (lt_of_lt_of_le
            (he i (by simp only [varIds, List.mem_append]; exact Or.inr hi))
            (visitF_counter_mono fuel a st))
          (cardinality_counter_mono a _)
      obtain ⟨hb3, hr3⟩ := ihf hb2 hef
      have hEq : visitF fuel.succ (a.EMap f) st =
          (ESum [TWO, (visitF fuel a st).1,
            Exp.EBinOp (cardinality a (visitF fuel a st).2).1 "*"
              (visitF fuel f (cardinality a (visitF fuel a st).2).2).1],
           (visitF fuel f (cardinality a (visitF fuel a st).2).2).2) := by
        simp [visitF]
      rw [hEq]
      refine ⟨hb3, ?_⟩
      intro i hi
      dsimp only at hi
      rcases varIds_ESum _ i hi with ⟨x, hx, hix⟩
      simp only [List.mem_cons, List.not_mem_nil, or_false] at hx
      rcases hx with rfl | rfl | rfl
      · simp [TWO, varIds] at hix
      · exact lt_of_lt_of_le (hr1 i hix)
          (le_trans (cardinality_counter_mono a _) (visitF_counter_mono fuel f _))
      · simp only [varIds, List.mem_append] at hix
        rcases hix with hix | hix
        · exact lt_of_lt_of_le (hr2 i hix) (visitF_counter_mono fuel f _)
        · exact hr3 i hix
  | case20 fuel a f st iha ihf =>
      intro hb he
      have hea : ∀ i ∈ varIds a, i < st.counter := fun i hi =>
        he i (by simp only [varIds, List.mem_append]; exact Or.inl hi)
      obtain ⟨hb1, hr1⟩ := iha hb hea
      have hea' : ∀ i ∈ varIds a, i < (visitF fuel a st).2.counter :=
        fun i hi => lt_of_lt_of_le (hea i hi) (visitF_counter_mono fuel a st)
      obtain ⟨hb2, hr2⟩ := cardinality_bound lo a _ hb1 hea'
      have hef : ∀ i ∈ varIds f, i < (cardinality a (visitF fuel a st).2).2.counter :=
        fun i hi => lt_of_lt_of_le
          (lt_of_lt_of_le
            (he i (by simp only [varIds, List.mem_append]; exact Or.inr hi))
            (visitF_counter_mono fuel a st))
          (cardinality_counter_mono a _)
      obtain ⟨hb3, hr3⟩ := ihf hb2 hef
      have hEq : visitF fuel.succ (a.EFlatMap f) st =
          (ESum [TWO, (visitF fuel a st).1,
            Exp.EBinOp (cardinality a (visitF fuel a st).2).1 "*"
              (visitF fuel f (cardinality a (visitF fuel a st).2).2).1],
           (visitF fuel f (cardinality a (visitF fuel a st).2).2).2) := by
        simp [visitF]
      rw [hEq]
      refine ⟨hb3, ?_⟩
      intro i hi
      dsimp only at hi
      rcases varIds_ESum _ i hi with ⟨x, hx, hix⟩
      simp only [List.mem_cons, List.not_mem_nil, or_false] at hx
      rcases hx with rfl | rfl | rfl
      · simp [TWO, varIds] at hix
      · exact lt_of_lt_of_le (hr1 i hix)
          (le_trans (cardinality_counter_mono a _) (visitF_counter_mono fuel f _))
      · simp only [varIds, List.mem_append] at hix
        rcases hix with hix | hix
        · exact lt_of_lt_of_le (hr2 i hix) (visitF_counter_mono fuel f _)
        · exact hr3 i hix
  | case21 fuel a f st iha ihf =>
      intro hb he
      have hea : ∀ i ∈ varIds a, i < st.counter := fun i hi =>
        he i (by simp only [varIds, List.mem_append]; exact Or.inl hi)
      obtain ⟨hb1, hr1⟩ := iha hb hea
      have hea' : ∀ i ∈ varIds a, i < (visitF fuel a st).2.counter :=
        fun i hi => lt_of_lt_of_le (hea i hi) (visitF_counter_mono fuel a st)
      obtain ⟨hb2, hr2⟩ := cardinality_bound lo a _ hb1 hea'
      have hef : ∀ i ∈ varIds f, i < (cardinality a (visitF fuel a st).2).2.counter :=
        fun i hi => lt_of_lt_of_le
          (lt_of_lt_of_le
            (he i (by simp only [varIds, List.mem_append]; exact Or.inr hi))
            (visitF_counter_mono fuel a st))
          (cardinality_counter_mono a _)
      obtain ⟨hb3, hr3⟩ := ihf hb2 hef
      have hEq : visitF fuel.succ (a.EArgMin f) st =
          (ESum [TWO, (visitF fuel a st).1,
            Exp.EBinOp (cardinality a (visitF fuel a st).2).1 "*"
              (visitF fuel f (cardinality a (visitF fuel a st).2).2).1],
           (visitF fuel f (cardinality a (visitF fuel a st).2).2).2) := by
        simp [visitF]
      rw [hEq]
      refine ⟨hb3, ?_⟩
      intro i hi
      dsimp only at hi
      rcases varIds_ESum _ i hi with ⟨x, hx, hix⟩
      simp only [List.mem_cons, List.not_mem_nil, or_false] at hx
      rcases hx with rfl | rfl | rfl
      · simp [TWO, varIds] at hix
      · exact lt_of_lt_of_le (hr1 i hix)
          (le_trans (cardinality_counter_mono a _) (visitF_counter_mono fuel f _))
      · simp only [varIds, List.mem_append] at hix
        rcases hix with hix | hix
        · exact lt_of_lt_of_le (hr2 i hix) (visitF_counter_mono fuel f _)
        · exact hr3 i hix
  | case22 fuel a f st iha ihf =>
      intro hb he
      have hea : ∀ i ∈ varIds a, i < st.counter := fun i hi =>
        he i (by simp only [varIds, List.mem_append]; exact Or.inl hi)
      obtain ⟨hb1, hr1⟩ := iha hb hea
      have hea' : ∀ i ∈ varIds a, i < (visitF fuel a st).2.counter :=
        fun i hi => lt_of_lt_of_le (hea i hi) (visitF_counter_mono fuel a st)
      obtain ⟨hb2, hr2⟩ := cardinality_bound lo a _ hb1 hea'
      have hef : ∀ i ∈ varIds f, i < (cardinality a (visitF fuel a st).2).2.counter :=
        fun i hi => lt_of_lt_of_le
          (lt_of_lt_of_le
            (he i (by simp only [varIds, List.mem_append]; exact Or.inr hi))
            (visitF_counter_mono fuel a st))
          (cardinality_counter_mono a _)
      obtain ⟨hb3, hr3⟩ := ihf hb2 hef
      have hEq : visitF fuel.succ (a.EArgMax f) st =
          (ESum [TWO, (visitF fuel a st).1,
            Exp.EBinOp (cardinality a (visitF fuel a st).2).1 "*"
              (visitF fuel f (cardinality a (visitF fuel a st).2).2).1],
           (visitF fuel f (cardinality a (visitF fuel a st).2).2).2) := by
        simp [visitF]
      rw [hEq]
      refine ⟨hb3, ?_⟩
      intro i hi
      dsimp only at hi
      rcases varIds_ESum _ i hi with ⟨x, hx, hix⟩
      simp only [List.mem_cons, List.not_mem_nil, or_false] at hx
      rcases hx with rfl | rfl | rfl
      · simp [TWO, varIds] at hix
      · exact lt_of_lt_of_le (hr1 i hix)
          (le_trans (cardinality_counter_mono a _) (visitF_counter_mono fuel f _))
      · simp only [varIds, List.mem_append] at hix
        rcases hix with hix | hix
        · exact lt_of_lt_of_le (hr2 i hix) (visitF_counter_mono fuel f _)
        · exact hr3 i hix
  | case23 fuel a st ih =>
      intro hb he
      obtain ⟨hb1, hr1⟩ := ih hb he
      have hea : ∀ i ∈ varIds a, i < (visitF fuel a st).2.counter :=
        fun i hi => lt_of_lt_of_le (he i hi) (visitF_counter_mono fuel a st)
      obtain ⟨hb2, hr2⟩ := cardinality_bound lo a _ hb1 hea
      have hEq : visitF fuel.succ a.EDropFront st =
          (ESum [MILD_PENALTY, (visitF fuel a st).1,
            (cardinality a (visitF fuel a st).2).1],
           (cardinality a (visitF fuel a st).2).2) := by
        simp [visitF]
      rw [hEq]
      refine ⟨hb2, ?_⟩
      intro i hi
      dsimp only at hi
      rcases varIds_ESum _ i hi with ⟨x, hx, hix⟩
      simp only [List.mem_cons, List.not_mem_nil, or_false] at hx
      rcases hx with rfl | rfl | rfl
      · simp [MILD_PENALTY, varIds] at hix
      · exact lt_of_lt_of_le (hr1 i hix) (cardinality_counter_mono a _)
      · exact hr2 i hix
  | case24 fuel a st ih =>
      intro hb he
      obtain ⟨hb1, hr1⟩ := ih hb he
      have hea : ∀ i ∈ varIds a, i < (visitF fuel a st).2.counter :=
        fun i hi => lt_of_lt_of_le (he i hi) (visitF_counter_mono fuel a st)
      obtain ⟨hb2, hr2⟩ := cardinality_bound lo a _ hb1 hea
      have hEq : visitF fuel.succ a.EDropBack st =
          (ESum [MILD_PENALTY, (visitF fuel a st).1,
            (cardinality a (visitF fuel a st).2).1],
           (cardinality a (visitF fuel a st).2).2) := by
        simp [visitF]
      rw [hEq]
      refine ⟨hb2, ?_⟩
      intro i hi
      dsimp only at hi
      rcases varIds_ESum _ i hi with ⟨x, hx, hix⟩
      simp only [List.mem_cons, List.not_mem_nil, or_false] at hx
      rcases hx with rfl | rfl | rfl
      · simp [MILD_PENALTY, varIds] at hix
      · exact lt_of_lt_of_le (hr1 i hix) (cardinality_counter_mono a _)
      · exact hr2 i hix

theorem largePass_bound (lo : Nat) : ∀ (fvs : List (Nat × Ty)) (st : CMState),
    BSt lo st → (∀ p ∈ fvs, p.1 < st.counter) →
    BSt lo (largePass fvs st) := by
  intro fvs st
  induction fvs, st using largePass.induct with
  | case1 st =>
      intro hb _
      simpa [largePass] using hb
  | case2 id ty rest st hcoll ih =>
      intro hb hf
      have he : ∀ i ∈ varIds (Exp.EVar id ty), i < st.counter := by
        intro i hi
        simp only [varIds, List.mem_singleton] at hi
        rw [hi]
        exact hf (id, ty) (List.mem_cons_self _ _)
      obtain ⟨hb2, hr2⟩ := cardinality_bound lo (Exp.EVar id ty) st hb he
      have hEq : largePass ((id, ty) :: rest) st =
          largePass rest
            (CMState.mk (cardinality (Exp.EVar id ty) st).2.cardinalities
              ((cardinality (Exp.EVar id ty) st).2.assumptions ++
                [gtF (cardinality (Exp.EVar id ty) st).1 (Exp.ENum 1000)])
              (cardinality (Exp.EVar id ty) st).2.secondaries
              (cardinality (Exp.EVar id ty) st).2.counter) := by
        simp [largePass, hcoll]
      rw [hEq]
      apply ih
      · obtain ⟨hi1, hi2, hi3, hi4⟩ := hb2
        refine ⟨hi1, hi2, ?_, hi4⟩
        intro a ha i hi
        simp only [List.mem_append, List.mem_singleton] at ha
        rcases ha with ha | ha
        · exact hi3 a ha i hi
        · subst ha
          simp only [gtF, varIds, List.mem_append, List.not_mem_nil, or_false] at hi
          exact hr2 i hi
      · intro p hp
        exact lt_of_lt_of_le (hf p (List.mem_cons_of_mem _ hp))
          (cardinality_counter_mono (Exp.EVar id ty) st)
  | case3 id ty rest st hcoll ih =>
      intro hb hf
      have hEq : largePass ((id, ty) :: rest) st = largePass rest st := by
        simp [largePass, hcoll]
      rw [hEq]
      exact ih hb (fun p hp => hf p (List.mem_cons_of_mem _ hp))

theorem dedupSeen_subset : ∀ (seen l : List (Nat × Ty)) (p : Nat × Ty),
    p ∈ dedupSeen seen l → p ∈ l := by
  intro seen l
  induction l generalizing seen with
  | nil =>
      intro p hp
      simp [dedupSeen] at hp
  | cons x xs ih =>
      intro p hp
      simp only [dedupSeen] at hp
      split at hp
      · exact List.mem_cons_of_mem _ (ih _ p hp)
      · rcases List.mem_cons.mp hp with h | h
        · subst h
          exact List.mem_cons_self _ _
        · exact List.mem_cons_of_mem _ (ih _ p h)

theorem freeVarsL_sub_varIds : ∀ (e : Exp) (p : Nat × Ty),
    p ∈ freeVarsL e → p.1 ∈ varIds e := by
  intro e
  induction e with
  | ENum n => intro p hp; simp [freeVarsL] at hp
  | EBool b => intro p hp; simp [freeVarsL] at hp
  | EEmptyList t => intro p hp; simp [freeVarsL] at hp
  | EVar id ty =>
      intro p hp
      simp only [freeVarsL, List.mem_singleton] at hp
      subst hp
      simp [varIds]
  | ELambda x t b ih =>
      intro p hp
      simp only [freeVarsL] at hp
      have := ih p (List.mem_of_mem_filter hp)
      simp only [varIds, List.mem_cons]
      exact Or.inr this
  | EUnaryOp op a ih =>
      intro p hp
      exact ih p hp
  | ESingleton a ih =>
      intro p hp
      exact ih p hp
  | EStateVar a ih =>
      intro p hp
      exact ih p hp
  | EDropFront a ih =>
      intro p hp
      exact ih p hp
  | EDropBack a ih =>
      intro p hp
      exact ih p hp
  | ECond a b c iha ihb ihc =>
      intro p hp
      simp only [freeVarsL, List.mem_append] at hp
      simp only [varIds, List.mem_append]
      rcases hp with (h | h) | h
      · exact Or.inl (Or.inl (iha p h))
      · exact Or.inl (Or.inr (ihb p h))
      · exact Or.inr (ihc p h)
  | EBinOp a op b iha ihb =>
      intro p hp
      simp only [freeVarsL, List.mem_append] at hp
      simp only [varIds, List.mem_append]
      rcases hp with h | h
      · exact Or.inl (iha p h)
      · exact Or.inr (ihb p h)
  | EMap a b iha ihb =>
      intro p hp
      simp only [freeVarsL, List.mem_append] at hp
      simp only [varIds, List.mem_append]
      rcases hp with h | h
      · exact Or.inl (iha p h)
      · exact Or.inr (ihb p h)
  | EFilter a b iha ihb =>
      intro p hp
      simp only [freeVarsL, List.mem_append] at hp
      simp only [varIds, List.mem_append]
      rcases hp with h | h
      · exact Or.inl (iha p h)
      · exact Or.inr (ihb p h)
  | EFlatMap a b iha ihb =>
      intro p hp
      simp only [freeVarsL, List.mem_append] at hp
      simp only [varIds, List.mem_append]
      rcases hp with h | h
      · exact Or.inl (iha p h)
      · exact Or.inr (ihb p h)
  | EArgMin a b iha ihb =>
      intro p hp
      simp only [freeVarsL, List.mem_append] at hp
      simp only [varIds, List.mem_append]
      rcases hp with h | h
      · exact Or.inl (iha p h)
      · exact Or.inr (ihb p h)
  | EArgMax a b iha ihb =>
      intro p hp
      simp only [freeVarsL, List.mem_append] at hp
      simp only [varIds, List.mem_append]
      rcases hp with h | h
      · exact Or.inl (iha p h)
      · exact Or.inr (ihb p h)
  | EMakeMap2 a b iha ihb =>
      intro p hp
      simp only [freeVarsL, List.mem_append] at hp
      simp only [varIds, List.mem_append]
      rcases hp with h | h
      · exact Or.inl (iha p h)
      · exact Or.inr (ihb p h)
  | EMapGet a b iha ihb =>
      intro p hp
      simp only [freeVarsL, List.mem_append] at hp
      simp only [varIds, List.mem_append]
      rcases hp with h | h
      · exact Or.inl (iha p h)
      · exact Or.inr (ihb p h)

theorem freeVars_bound (e : Exp) (n : Nat) (he : ∀ i ∈ varIds e, i < n) :
    ∀ p ∈ freeVars e, p.1 < n := by
  intro p hp
  exact he p.1 (freeVarsL_sub_varIds e p (dedupSeen_subset [] _ p hp))
theorem shiftN_counter (N d : Nat) (c : Nat) (h : N ≤ c) : shiftN N d c = c + d := by
  unfold shiftN
  rw [if_pos h]

theorem shSt_counter (N d : Nat) (st : CMState) :
    (shSt N d st).counter = st.counter + d := rfl

theorem allocCard_shSt (N d : Nat) (e : Exp) (st : CMState) (h : N ≤ st.counter) :
    shSt N d (allocCard e st) = allocCard (renameE (shiftN N d) e) (shSt N d st) := by
  unfold shSt allocCard
  simp only [List.map_append, List.map_cons, List.map_nil]
  rw [shiftN_counter N d st.counter h]
  congr 1
  omega

theorem memoPlain_shSt (N d : Nat) (e : Exp) (st : CMState) (h : N ≤ st.counter) :
    memoPlain (renameE (shiftN N d) e) (shSt N d st) =
      (renameE (shiftN N d) (memoPlain e st).1, shSt N d (memoPlain e st).2) := by
  unfold memoPlain
  have hl := lookupCard_rename (shiftN N d) (shiftN_injective N d) (shiftN N d)
    st.cardinalities e
  rcases ho : lookupCard st.cardinalities e with _ | v
  · rw [ho] at hl
    have hl2 : lookupCard (shSt N d st).cardinalities (renameE (shiftN N d) e) = none := by
      simpa [shSt] using hl
    rw [hl2]
    simp [renameE, ← allocCard_shSt N d e st h, shSt_counter,
      shiftN_counter N d st.counter h]
  · rw [ho] at hl
    have hl2 : lookupCard (shSt N d st).cardinalities (renameE (shiftN N d) e) =
        some (shiftN N d v) := by
      simpa [shSt] using hl
    rw [hl2]
    simp [renameE]

theorem EAny_pair (x y : Exp) : EAny [x, y] = Exp.EBinOp x "or" y := by
  show buildBalancedTree "or" (Exp.EBool false) [x, y] = Exp.EBinOp x "or" y
  unfold buildBalancedTree
  show bbtF "or" (Exp.EBool false) (1 + 1) [x, y] = Exp.EBinOp x "or" y
  simp [bbtF]

theorem cardinality_shSt (N d : Nat) :
    ∀ (e : Exp) (st : CMState), N ≤ st.counter →
      cardinality (renameE (shiftN N d) e) (shSt N d st) =
        (renameE (shiftN N d) (cardinality e st).1, shSt N d (cardinality e st).2) := by
  intro e st
  induction e, st using cardinality.induct with
  | case1 t st =>
      intro h
      simp [renameE, cardinality, ZERO]
  | case2 e st =>
      intro h
      simp [renameE, cardinality, ONE]
  | case3 a f st ih =>
      intro h
      have hL : cardinality (renameE (shiftN N d) (Exp.EMap a f)) (shSt N d st) =
          cardinality (renameE (shiftN N d) a) (shSt N d st) := by
        simp [renameE, cardinality]
      have hR : cardinality (Exp.EMap a f) st = cardinality a st := by
        simp [cardinality]
      rw [hL, hR, ih h]
  | case4 a st ih =>
      intro h
      have hL : cardinality (renameE (shiftN N d) (Exp.EStateVar a)) (shSt N d st) =
          cardinality (renameE (shiftN N d) a) (shSt N d st) := by
        simp [renameE, cardinality]
      have hR : cardinality (Exp.EStateVar a) st = cardinality a st := by
        simp [cardinality]
      rw [hL, hR, ih h]
  | case5 e1 e2 st ih1 ih2 =>
      intro h
      have h2 : N ≤ (cardinality e1 st).2.counter :=
        le_trans h (cardinality_counter_mono e1 st)
      have hL : cardinality (renameE (shiftN N d) (Exp.EBinOp e1 "+" e2)) (shSt N d st) =
          (ESum [(cardinality (renameE (shiftN N d) e1) (shSt N d st)).1,
                 (cardinality (renameE (shiftN N d) e2)
                   (cardinality (renameE (shiftN N d) e1) (shSt N d st)).2).1],
           (cardinality (renameE (shiftN N d) e2)
             (cardinality (renameE (shiftN N d) e1) (shSt N d st)).2).2) := by
        simp [renameE, cardinality]
      have hR : cardinality (Exp.EBinOp e1 "+" e2) st =
          (ESum [(cardinality e1 st).1, (cardinality e2 (cardinality e1 st).2).1],
            (cardinality e2 (cardinality e1 st).2).2) := by
        simp [cardinality]
      rw [hL, ih1 h]
      dsimp only
      rw [ih2 h2]
      rw [hR]
      dsimp only
      rw [ESum_renameE]
      simp
  | case6 e1 op e2 st hop v hlook =>
      intro h
      have hl := lookupCard_rename (shiftN N d) (shiftN_injective N d) (shiftN N d)
        st.cardinalities (Exp.EBinOp e1 op e2)
      rw [hlook] at hl
      have hl2 : lookupCard (shSt N d st).cardinalities
          (Exp.EBinOp (renameE (shiftN N d) e1) op (renameE (shiftN N d) e2)) =
          some (shiftN N d v) := by
        simpa [shSt, renameE] using hl
      have hL : cardinality (Exp.EBinOp (renameE (shiftN N d) e1) op
            (renameE (shiftN N d) e2)) (shSt N d st) =
          (Exp.EVar (shiftN N d v) Ty.TInt, shSt N d st) := by
        simp [cardinality, hop, hl2]
      have hR : cardinality (Exp.EBinOp e1 op e2) st = (Exp.EVar v Ty.TInt, st) := by
        simp [cardinality, hop, hlook]
      simp only [renameE]
      rw [hL, hR]
      simp [renameE]
  | case7 e1 e2 st htriv hlook ih =>
      intro h
      have hApos : N ≤ (allocCard (Exp.EBinOp e1 "-" e2) st).counter := by
        rw [allocCard_counter]; omega
      have hl := lookupCard_rename (shiftN N d) (shiftN_injective N d) (shiftN N d)
        st.cardinalities (Exp.EBinOp e1 "-" e2)
      rw [hlook] at hl
      have hl2 : lookupCard (shSt N d st).cardinalities
          (Exp.EBinOp (renameE (shiftN N d) e1) "-" (renameE (shiftN N d) e2)) = none := by
        simpa [shSt, renameE] using hl
      have hAlloc : allocCard (Exp.EBinOp (renameE (shiftN N d) e1) "-"
            (renameE (shiftN N d) e2)) (shSt N d st) =
          shSt N d (allocCard (Exp.EBinOp e1 "-" e2) st) := by
        exact (allocCard_shSt N d (Exp.EBinOp e1 "-" e2) st h).symm
      have hrec := ih hApos
      have hL : cardinality (Exp.EBinOp (renameE (shiftN N d) e1) "-"
            (renameE (shiftN N d) e2)) (shSt N d st) =
          (Exp.EVar (shSt N d st).counter Ty.TInt,
            CMState.mk
              (cardinality (renameE (shiftN N d) e1)
                (shSt N d (allocCard (Exp.EBinOp e1 "-" e2) st))).2.cardinalities
              ((cardinality (renameE (shiftN N d) e1)
                (shSt N d (allocCard (Exp.EBinOp e1 "-" e2) st))).2.assumptions ++
                [leF (Exp.EVar (shSt N d st).counter Ty.TInt)
                  (cardinality (renameE (shiftN N d) e1)
                    (shSt N d (allocCard (Exp.EBinOp e1 "-" e2) st))).1])
              (cardinality (renameE (shiftN N d) e1)
                (shSt N d (allocCard (Exp.EBinOp e1 "-" e2) st))).2.secondaries
              (cardinality (renameE (shiftN N d) e1)
                (shSt N d (allocCard (Exp.EBinOp e1 "-" e2) st))).2.counter) := by
        rw [← hAlloc]
        simp [cardinality, hl2]
      have hR : cardinality (Exp.EBinOp e1 "-" e2) st =
          (Exp.EVar st.counter Ty.TInt,
            CMState.mk
              (cardinality e1 (allocCard (Exp.EBinOp e1 "-" e2) st)).2.cardinalities
              ((cardinality e1 (allocCard (Exp.EBinOp e1 "-" e2) st)).2.assumptions ++
                [leF (Exp.EVar st.counter Ty.TInt)
                  (cardinality e1 (allocCard (Exp.EBinOp e1 "-" e2) st)).1])
              (cardinality e1 (allocCard (Exp.EBinOp e1 "-" e2) st)).2.secondaries
              (cardinality e1 (allocCard (Exp.EBinOp e1 "-" e2) st)).2.counter) := by
        simp [cardinality, hlook]
      simp only [renameE]
      rw [hL, hrec, hR]
      dsimp only
      simp [shSt, leF, renameE, shiftN_counter N d st.counter h, List.map_append]
  | case8 e1 op e2 st hop hlook hne =>
      intro h
      have hl := lookupCard_rename (shiftN N d) (shiftN_injective N d) (shiftN N d)
        st.cardinalities (Exp.EBinOp e1 op e2)
      rw [hlook] at hl
      have hl2 : lookupCard (shSt N d st).cardinalities
          (Exp.EBinOp (renameE (shiftN N d) e1) op (renameE (shiftN N d) e2)) = none := by
        simpa [shSt, renameE] using hl
      have hAlloc : allocCard (Exp.EBinOp (renameE (shiftN N d) e1) op
            (renameE (shiftN N d) e2)) (shSt N d st) =
          shSt N d (allocCard (Exp.EBinOp e1 op e2) st) := by
        exact (allocCard_shSt N d (Exp.EBinOp e1 op e2) st h).symm
      have hL : cardinality (Exp.EBinOp (renameE (shiftN N d) e1) op
            (renameE (shiftN N d) e2)) (shSt N d st) =
          (Exp.EVar (shSt N d st).counter Ty.TInt,
            allocCard (Exp.EBinOp (renameE (shiftN N d) e1) op
              (renameE (shiftN N d) e2)) (shSt N d st)) := by
        simp [cardinality, hop, hl2, hne]
      have hR : cardinality (Exp.EBinOp e1 op e2) st =
          (Exp.EVar st.counter Ty.TInt, allocCard (Exp.EBinOp e1 op e2) st) := by
        simp [cardinality, hop, hlook, hne]
      simp only [renameE]
      rw [hL, hR, hAlloc]
      simp [renameE, shSt, shiftN_counter N d st.counter h]
  | case9 op a st v hlook =>
      intro h
      have hl := lookupCard_rename (shiftN N d) (shiftN_injective N d) (shiftN N d)
        st.cardinalities (Exp.EUnaryOp op a)
      rw [hlook] at hl
      have hl2 : lookupCard (shSt N d st).cardinalities
          (Exp.EUnaryOp op (renameE (shiftN N d) a)) = some (shiftN N d v) := by
        simpa [shSt, renameE] using hl
      have hL : cardinality (Exp.EUnaryOp op (renameE (shiftN N d) a)) (shSt N d st) =
          (Exp.EVar (shiftN N d v) Ty.TInt, shSt N d st) := by
        simp [cardinality, hl2]
      have hR : cardinality (Exp.EUnaryOp op a) st = (Exp.EVar v Ty.TInt, st) := by
        simp [cardinality, hlook]
      simp only [renameE]
      rw [hL, hR]
      simp [renameE]
  | case10 a st hlook ih =>
      intro h
      have hApos : N ≤ (allocCard (Exp.EUnaryOp "distinct" a) st).counter := by
        rw [allocCard_counter]; omega
      have hl := lookupCard_rename (shiftN N d) (shiftN_injective N d) (shiftN N d)
        st.cardinalities (Exp.EUnaryOp "distinct" a)
      rw [hlook] at hl
      have hl2 : lookupCard (shSt N d st).cardinalities
          (Exp.EUnaryOp "distinct" (renameE (shiftN N d) a)) = none := by
        simpa [shSt, renameE] using hl
      have hAlloc : allocCard (Exp.EUnaryOp "distinct" (renameE (shiftN N d) a))
            (shSt N d st) =
          shSt N d (allocCard (Exp.EUnaryOp "distinct" a) st) := by
        exact (allocCard_shSt N d (Exp.EUnaryOp "distinct" a) st h).symm
      have hrec := ih hApos
      have hL : cardinality (Exp.EUnaryOp "distinct" (renameE (shiftN N d) a))
            (shSt N d st) =
          (Exp.EVar (shSt N d st).counter Ty.TInt,
            CMState.mk
              (cardinality (renameE (shiftN N d) a)
                (shSt N d (allocCard (Exp.EUnaryOp "distinct" a) st))).2.cardinalities
              ((cardinality (renameE (shiftN N d) a)
                (shSt N d (allocCard (Exp.EUnaryOp "distinct" a) st))).2.assumptions ++
                [leF (Exp.EVar (shSt N d st).counter Ty.TInt)
                  (cardinality (renameE (shiftN N d) a)
                    (shSt N d (allocCard (Exp.EUnaryOp "distinct" a) st))).1,
                 geF (mulF (Exp.EVar (shSt N d st).counter Ty.TInt) (Exp.ENum 5))
                  (mulF (cardinality (renameE (shiftN N d) a)
                    (shSt N d (allocCard (Exp.EUnaryOp "distinct" a) st))).1
                    (Exp.ENum 4))])
              (cardinality (renameE (shiftN N d) a)
                (shSt N d (allocCard (Exp.EUnaryOp "distinct" a) st))).2.secondaries
              (cardinality (renameE (shiftN N d) a)
                (shSt N d (allocCard (Exp.EUnaryOp "distinct" a) st))).2.counter) := by
        rw [← hAlloc]
        simp [cardinality, hl2]
      have hR : cardinality (Exp.EUnaryOp "distinct" a) st =
          (Exp.EVar st.counter Ty.TInt,
            CMState.mk
              (cardinality a (allocCard (Exp.EUnaryOp "distinct" a) st)).2.cardinalities
              ((cardinality a (allocCard (Exp.EUnaryOp "distinct" a) st)).2.assumptions ++
                [leF (Exp.EVar st.counter Ty.TInt)
                  (cardinality a (allocCard (Exp.EUnaryOp "distinct" a) st)).1,
                 geF (mulF (Exp.EVar st.counter Ty.TInt) (Exp.ENum 5))
                  (mulF (cardinality a (allocCard (Exp.EUnaryOp "distinct" a) st)).1
                    (Exp.ENum 4))])
              (cardinality a (allocCard (Exp.EUnaryOp "distinct" a) st)).2.secondaries
              (cardinality a (allocCard (Exp.EUnaryOp "distinct" a) st)).2.counter) := by
        simp [cardinality, hlook]
      simp only [renameE]
      rw [hL, hrec, hR]
      dsimp only
      simp [shSt, leF, geF, mulF, renameE, shiftN_counter N d st.counter h, List.map_append]
  | case11 op a st hlook hop =>
      intro h
      have hl := lookupCard_rename (shiftN N d) (shiftN_injective N d) (shiftN N d)
        st.cardinalities (Exp.EUnaryOp op a)
      rw [hlook] at hl
      have hl2 : lookupCard (shSt N d st).cardinalities
          (Exp.EUnaryOp op (renameE (shiftN N d) a)) = none := by
        simpa [shSt, renameE] using hl
      have hAlloc : allocCard (Exp.EUnaryOp op (renameE (shiftN N d) a)) (shSt N d st) =
          shSt N d (allocCard (Exp.EUnaryOp op a) st) := by
        exact (allocCard_shSt N d (Exp.EUnaryOp op a) st h).symm
      have hL : cardinality (Exp.EUnaryOp op (renameE (shiftN N d) a)) (shSt N d st) =
          (Exp.EVar (shSt N d st).counter Ty.TInt,
            allocCard (Exp.EUnaryOp op (renameE (shiftN N d) a)) (shSt N d st)) := by
        simp [cardinality, hl2, hop]
      have hR : cardinality (Exp.EUnaryOp op a) st =
          (Exp.EVar st.counter Ty.TInt, allocCard (Exp.EUnaryOp op a) st) := by
        simp [cardinality, hlook, hop]
      simp only [renameE]
      rw [hL, hR, hAlloc]
      simp [renameE, shSt, shiftN_counter N d st.counter h]
  | case12 a p st v hlook =>
      intro h
      have hl := lookupCard_rename (shiftN N d) (shiftN_injective N d) (shiftN N d)
        st.cardinalities (Exp.EFilter a p)
      rw [hlook] at hl
      have hl2 : lookupCard (shSt N d st).cardinalities
          (Exp.EFilter (renameE (shiftN N d) a) (renameE (shiftN N d) p)) =
          some (shiftN N d v) := by
        simpa [shSt, renameE] using hl
      have hL : cardinality (Exp.EFilter (renameE (shiftN N d) a)
            (renameE (shiftN N d) p)) (shSt N d st) =
          (Exp.EVar (shiftN N d v) Ty.TInt, shSt N d st) := by
        simp [cardinality, hl2]
      have hR : cardinality (Exp.EFilter a p) st = (Exp.EVar v Ty.TInt, st) := by
        simp [cardinality, hlook]
      simp only [renameE]
      rw [hL, hR]
      simp [renameE]
  | case13 a p st hlook ih =>
      intro h
      have hApos : N ≤ (allocCard (Exp.EFilter a p) st).counter := by
        rw [allocCard_counter]; omega
      have hl := lookupCard_rename (shiftN N d) (shiftN_injective N d) (shiftN N d)
        st.cardinalities (Exp.EFilter a p)
      rw [hlook] at hl
      have hl2 : lookupCard (shSt N d st).cardinalities
          (Exp.EFilter (renameE (shiftN N d) a) (renameE (shiftN N d) p)) = none := by
        simpa [shSt, renameE] using hl
      have hAlloc : allocCard (Exp.EFilter (renameE (shiftN N d) a)
            (renameE (shiftN N d) p)) (shSt N d st) =
          shSt N d (allocCard (Exp.EFilter a p) st) := by
        exact (allocCard_shSt N d (Exp.EFilter a p) st h).symm
      have hrec := ih hApos
      have hL : cardinality (Exp.EFilter (renameE (shiftN N d) a)
            (renameE (shiftN N d) p)) (shSt N d st) =
          (Exp.EVar (shSt N d st).counter Ty.TInt,
            CMState.mk
              (cardinality (renameE (shiftN N d) a)
                (shSt N d (allocCard (Exp.EFilter a p) st))).2.cardinalities
              ((cardinality (renameE (shiftN N d) a)
                (shSt N d (allocCard (Exp.EFilter a p) st))).2.assumptions ++
                [leF (Exp.EVar (shSt N d st).counter Ty.TInt)
                  (cardinality (renameE (shiftN N d) a)
                    (shSt N d (allocCard (Exp.EFilter a p) st))).1,
                 geF (mulF (Exp.EVar (shSt N d st).counter Ty.TInt) (Exp.ENum 5))
                  (mulF (cardinality (renameE (shiftN N d) a)
                    (shSt N d (allocCard (Exp.EFilter a p) st))).1 (Exp.ENum 4))])
              (cardinality (renameE (shiftN N d) a)
                (shSt N d (allocCard (Exp.EFilter a p) st))).2.secondaries
              (cardinality (renameE (shiftN N d) a)
                (shSt N d (allocCard (Exp.EFilter a p) st))).2.counter) := by
        rw [← hAlloc]
        simp [cardinality, hl2]
      have hR : cardinality (Exp.EFilter a p) st =
          (Exp.EVar st.counter Ty.TInt,
            CMState.mk
              (cardinality a (allocCard (Exp.EFilter a p) st)).2.cardinalities
              ((cardinality a (allocCard (Exp.EFilter a p) st)).2.assumptions ++
                [leF (Exp.EVar st.counter Ty.TInt)
                  (cardinality a (allocCard (Exp.EFilter a p) st)).1,
                 geF (mulF (Exp.EVar st.counter Ty.TInt) (Exp.ENum 5))
                  (mulF (cardinality a (allocCard (Exp.EFilter a p) st)).1 (Exp.ENum 4))])
              (cardinality a (allocCard (Exp.EFilter a p) st)).2.secondaries
              (cardinality a (allocCard (Exp.EFilter a p) st)).2.counter) := by
        simp [cardinality, hlook]
      simp only [renameE]
      rw [hL, hrec, hR]
      dsimp only
      simp [shSt, leF, geF, mulF, renameE, shiftN_counter N d st.counter h, List.map_append]
  | case14 c t f st v hlook =>
      intro h
      have hl := lookupCard_rename (shiftN N d) (shiftN_injective N d) (shiftN N d)
        st.cardinalities (Exp.ECond c t f)
      rw [hlook] at hl
      have hl2 : lookupCard (shSt N d st).cardinalities
          (Exp.ECond (renameE (shiftN N d) c) (renameE (shiftN N d) t)
            (renameE (shiftN N d) f)) = some (shiftN N d v) := by
        simpa [shSt, renameE] using hl
      have hL : cardinality (Exp.ECond (renameE (shiftN N d) c) (renameE (shiftN N d) t)
            (renameE (shiftN N d) f)) (shSt N d st) =
          (Exp.EVar (shiftN N d v) Ty.TInt, shSt N d st) := by
        simp [cardinality, hl2]
      have hR : cardinality (Exp.ECond c t f) st = (Exp.EVar v Ty.TInt, st) := by
        simp [cardinality, hlook]
      simp only [renameE]
      rw [hL, hR]
      simp [renameE]
  | case15 c t f st hlook iht ihf =>
      intro h
      have hApos : N ≤ (allocCard (Exp.ECond c t f) st).counter := by
        rw [allocCard_counter]; omega
      have hApos2 : N ≤ (cardinality t (allocCard (Exp.ECond c t f) st)).2.counter :=
        le_trans hApos (cardinality_counter_mono t _)
      have hl := lookupCard_rename (shiftN N d) (shiftN_injective N d) (shiftN N d)
        st.cardinalities (Exp.ECond c t f)
      rw [hlook] at hl
      have hl2 : lookupCard (shSt N d st).cardinalities
          (Exp.ECond (renameE (shiftN N d) c) (renameE (shiftN N d) t)
            (renameE (shiftN N d) f)) = none := by
        simpa [shSt, renameE] using hl
      have hAlloc : allocCard (Exp.ECond (renameE (shiftN N d) c) (renameE (shiftN N d) t)
            (renameE (shiftN N d) f)) (shSt N d st) =
          shSt N d (allocCard (Exp.ECond c t f) st) := by
        exact (allocCard_shSt N d (Exp.ECond c t f) st h).symm
      have hrect := iht hApos
      have hrecf := ihf hApos2
      have hL : cardinality (Exp.ECond (renameE (shiftN N d) c) (renameE (shiftN N d) t)
            (renameE (shiftN N d) f)) (shSt N d st) =
          (Exp.EVar (shSt N d st).counter Ty.TInt,
            CMState.mk
              (cardinality (renameE (shiftN N d) f)
                (cardinality (renameE (shiftN N d) t)
                  (shSt N d (allocCard (Exp.ECond c t f) st))).2).2.cardinalities
              ((cardinality (renameE (shiftN N d) f)
                (cardinality (renameE (shiftN N d) t)
                  (shSt N d (allocCard (Exp.ECond c t f) st))).2).2.assumptions ++
                [EAny [EEq (Exp.EVar (shSt N d st).counter Ty.TInt)
                    (cardinality (renameE (shiftN N d) t)
                      (shSt N d (allocCard (Exp.ECond c t f) st))).1,
                  EEq (Exp.EVar (shSt N d st).counter Ty.TInt)
                    (cardinality (renameE (shiftN N d) f)
                      (cardinality (renameE (shiftN N d) t)
                        (shSt N d (allocCard (Exp.ECond c t f) st))).2).1]])
              (cardinality (renameE (shiftN N d) f)
                (cardinality (renameE (shiftN N d) t)
                  (shSt N d (allocCard (Exp.ECond c t f) st))).2).2.secondaries
              (cardinality (renameE (shiftN N d) f)
                (cardinality (renameE (shiftN N d) t)
                  (shSt N d (allocCard (Exp.ECond c t f) st))).2).2.counter) := by
        rw [← hAlloc]
        simp [cardinality, hl2]
      have hR : cardinality (Exp.ECond c t f) st =
          (Exp.EVar st.counter Ty.TInt,
            CMState.mk
              (cardinality f (cardinality t (allocCard (Exp.ECond c t f) st)).2).2.cardinalities
              ((cardinality f (cardinality t (allocCard (Exp.ECond c t f) st)).2).2.assumptions ++
                [EAny [EEq (Exp.EVar st.counter Ty.TInt)
                    (cardinality t (allocCard (Exp.ECond c t f) st)).1,
                  EEq (Exp.EVar st.counter Ty.TInt)
                    (cardinality f (cardinality t (allocCard (Exp.ECond c t f) st)).2).1]])
              (cardinality f (cardinality t (allocCard (Exp.ECond c t f) st)).2).2.secondaries
              (cardinality f (cardinality t (allocCard (Exp.ECond c t f) st)).2).2.counter) := by
        simp [cardinality, hlook]
      simp only [renameE]
      rw [hL, hrect]
      dsimp only
      rw [hrecf, hR]
      dsimp only
      have hEAny : renameE (shiftN N d) (EAny [EEq (Exp.EVar st.counter Ty.TInt)
            (cardinality t (allocCard (Exp.ECond c t f) st)).1,
          EEq (Exp.EVar st.counter Ty.TInt)
            (cardinality f (cardinality t (allocCard (Exp.ECond c t f) st)).2).1]) =
          EAny [EEq (Exp.EVar (st.counter + d) Ty.TInt)
            (renameE (shiftN N d) (cardinality t (allocCard (Exp.ECond c t f) st)).1),
          EEq (Exp.EVar (st.counter + d) Ty.TInt)
            (renameE (shiftN N d)
              (cardinality f (cardinality t (allocCard (Exp.ECond c t f) st)).2).1)] := by
        rw [EAny_renameE]
        simp [EEq, renameE, shiftN_counter N d st.counter h]
      simp [shSt, renameE, shiftN_counter N d st.counter h, List.map_append, hEAny]
      exact EAny_pair _ _
  | case16 n st =>
      intro h
      exact memoPlain_shSt N d (Exp.ENum n) st h
  | case17 b st =>
      intro h
      exact memoPlain_shSt N d (Exp.EBool b) st h
  | case18 id ty st =>
      intro h
      exact memoPlain_shSt N d (Exp.EVar id ty) st h
  | case19 x t b st =>
      intro h
      exact memoPlain_shSt N d (Exp.ELambda x t b) st h
  | case20 a b st =>
      intro h
      exact memoPlain_shSt N d (Exp.EFlatMap a b) st h
  | case21 a b st =>
      intro h
      exact memoPlain_shSt N d (Exp.EArgMin a b) st h
  | case22 a b st =>
      intro h
      exact memoPlain_shSt N d (Exp.EArgMax a b) st h
  | case23 a b st =>
      intro h
      exact memoPlain_shSt N d (Exp.EMakeMap2 a b) st h
  | case24 a b st =>
      intro h
      exact memoPlain_shSt N d (Exp.EMapGet a b) st h
  | case25 a st =>
      intro h
      exact memoPlain_shSt N d (Exp.EDropFront a) st h
  | case26 a st =>
      intro h
      exact memoPlain_shSt N d (Exp.EDropBack a) st h
theorem statecost_renameE (ρ : Nat → Nat) (a : Exp) :
    statecost (renameE ρ a) = statecost a := by
  unfold statecost
  rw [sizeE_renameE]

theorem sizeofE_shSt (N d : Nat) (e : Exp) (st : CMState) (h : N ≤ st.counter) :
    sizeofE (renameE (shiftN N d) e) (shSt N d st) =
      (renameE (shiftN N d) (sizeofE e st).1, shSt N d (sizeofE e st).2) := by
  unfold sizeofE
  rw [typeOf_renameE]
  split
  · exact cardinality_shSt N d e st h
  · simp [renameE, ONE]

theorem visitF_shSt (N d : Nat) : ∀ (fuel : Nat) (e : Exp) (st : CMState),
    N ≤ st.counter →
    visitF fuel (renameE (shiftN N d) e) (shSt N d st) =
      (renameE (shiftN N d) (visitF fuel e st).1, shSt N d (visitF fuel e st).2) := by
  intro fuel e st
  induction fuel, e, st using visitF.induct with
  | case1 t n st =>
      intro h
      simp [renameE, visitF, ONE]
  | case2 t b st =>
      intro h
      simp [renameE, visitF, ONE]
  | case3 t id ty st =>
      intro h
      simp [renameE, visitF, ONE]
  | case4 t ty st =>
      intro h
      simp [renameE, visitF, ONE]
  | case5 x st h1 h2 h3 h4 =>
      intro h
      cases x <;> simp [renameE, visitF, ZERO, ONE]
  | case6 fuel a st ih =>
      intro h
      simp only [renameE]
      have hL : visitF fuel.succ (Exp.ESingleton (renameE (shiftN N d) a)) (shSt N d st) =
          (ESum [ONE, (visitF fuel (renameE (shiftN N d) a) (shSt N d st)).1],
           (visitF fuel (renameE (shiftN N d) a) (shSt N d st)).2) := by
        simp [visitF]
      have hR : visitF fuel.succ a.ESingleton st =
          (ESum [ONE, (visitF fuel a st).1], (visitF fuel a st).2) := by
        simp [visitF]
      rw [hL, ih h, hR]
      dsimp only
      rw [ESum_renameE]
      simp [renameE, ONE]
  | case7 fuel c t f st ihc iht ihf =>
      intro h
      have h1 : N ≤ (visitF fuel c st).2.counter :=
        le_trans h (visitF_counter_mono fuel c st)
      have h2 : N ≤ (visitF fuel t (visitF fuel c st).2).2.counter :=
        le_trans h1 (visitF_counter_mono fuel t _)
      simp only [renameE]
      have hL : visitF fuel.succ (Exp.ECond (renameE (shiftN N d) c)
            (renameE (shiftN N d) t) (renameE (shiftN N d) f)) (shSt N d st) =
          (ESum [ONE, (visitF fuel (renameE (shiftN N d) c) (shSt N d st)).1,
            (visitF fuel (renameE (shiftN N d) t)
              (visitF fuel (renameE (shiftN N d) c) (shSt N d st)).2).1,
            (visitF fuel (renameE (shiftN N d) f)
              (visitF fuel (renameE (shiftN N d) t)
                (visitF fuel (renameE (shiftN N d) c) (shSt N d st)).2).2).1],
           (visitF fuel (renameE (shiftN N d) f)
             (visitF fuel (renameE (shiftN N d) t)
               (visitF fuel (renameE (shiftN N d) c) (shSt N d st)).2).2).2) := by
        simp [visitF]
      have hR : visitF fuel.succ (Exp.ECond c t f) st =
          (ESum [ONE, (visitF fuel c st).1, (visitF fuel t (visitF fuel c st).2).1,
            (visitF fuel f (visitF fuel t (visitF fuel c st).2).2).1],
           (visitF fuel f (visitF fuel t (visitF fuel c st).2).2).2) := by
        simp [visitF]
      rw [hL, ihc h]
      dsimp only
      rw [iht h1]
      dsimp only
      rw [ihf h2]
      rw [hR]
      dsimp only
      rw [ESum_renameE]
      simp [renameE, ONE]
  | case8 n a st =>
      intro h
      simp only [renameE]
      have hstate : CMState.mk (shSt N d st).cardinalities (shSt N d st).assumptions
          ((shSt N d st).secondaries + statecost (renameE (shiftN N d) a))
          (shSt N d st).counter =
          shSt N d (CMState.mk st.cardinalities st.assumptions
            (st.secondaries + statecost a) st.counter) := by
        simp [shSt, statecost_renameE]
      have hL : visitF n.succ (Exp.EStateVar (renameE (shiftN N d) a)) (shSt N d st) =
          (ESum [ONE, (sizeofE (renameE (shiftN N d) a)
              (shSt N d (CMState.mk st.cardinalities st.assumptions
                (st.secondaries + statecost a) st.counter))).1],
           (sizeofE (renameE (shiftN N d) a)
              (shSt N d (CMState.mk st.cardinalities st.assumptions
                (st.secondaries + statecost a) st.counter))).2) := by
        simp only [visitF]
        rw [hstate]
      have hR : visitF n.succ (Exp.EStateVar a) st =
          (ESum [ONE, (sizeofE a (CMState.mk st.cardinalities st.assumptions
              (st.secondaries + statecost a) st.counter)).1],
           (sizeofE a (CMState.mk st.cardinalities st.assumptions
              (st.secondaries + statecost a) st.counter)).2) := by
        simp [visitF]
      rw [hL, sizeofE_shSt N d a (CMState.mk st.cardinalities st.assumptions
        (st.secondaries + statecost a) st.counter) h, hR]
      dsimp only
      rw [ESum_renameE]
      simp [renameE, ONE]
  | case9 fuel op a st hop ih =>
      intro h
      have h1 : N ≤ (visitF fuel a st).2.counter :=
        le_trans h (visitF_counter_mono fuel a st)
      simp only [renameE]
      have hL : visitF fuel.succ (Exp.EUnaryOp op (renameE (shiftN N d) a)) (shSt N d st) =
          (ESum [ONE, (visitF fuel (renameE (shiftN N d) a) (shSt N d st)).1,
            (cardinality (renameE (shiftN N d) a)
              (visitF fuel (renameE (shiftN N d) a) (shSt N d st)).2).1],
           (cardinality (renameE (shiftN N d) a)
             (visitF fuel (renameE (shiftN N d) a) (shSt N d st)).2).2) := by
        simp only [visitF, hop, if_true]
      have hR : visitF fuel.succ (Exp.EUnaryOp op a) st =
          (ESum [ONE, (visitF fuel a st).1, (cardinality a (visitF fuel a st).2).1],
            (cardinality a (visitF fuel a st).2).2) := by
        simp only [visitF, hop, if_true]
      rw [hL, ih h]
      dsimp only
      rw [cardinality_shSt N d a _ h1]
      rw [hR]
      dsimp only
      rw [ESum_renameE]
      simp [renameE, ONE]
  | case10 fuel op a st hop ih =>
      intro h
      simp only [renameE]
      have hL : visitF fuel.succ (Exp.EUnaryOp op (renameE (shiftN N d) a)) (shSt N d st) =
          (ESum [ONE, (visitF fuel (renameE (shiftN N d) a) (shSt N d st)).1],
           (visitF fuel (renameE (shiftN N d) a) (shSt N d st)).2) := by
        simp only [visitF, hop, Bool.false_eq_true, if_false]
      have hR : visitF fuel.succ (Exp.EUnaryOp op a) st =
          (ESum [ONE, (visitF fuel a st).1], (visitF fuel a st).2) := by
        simp only [visitF, hop, Bool.false_eq_true, if_false]
      rw [hL, ih h, hR]
      dsimp only
      rw [ESum_renameE]
      simp [renameE, ONE]
  | case11 fuel e1 e2 st ih1 ih2 =>
      intro h
      have h1 : N ≤ (visitF fuel e1 st).2.counter :=
        le_trans h (visitF_counter_mono fuel e1 st)
      have h2 : N ≤ (visitF fuel e2 (visitF fuel e1 st).2).2.counter :=
        le_trans h1 (visitF_counter_mono fuel e2 _)
      simp only [renameE]
      have hL : visitF fuel.succ (Exp.EBinOp (renameE (shiftN N d) e1) "in"
            (renameE (shiftN N d) e2)) (shSt N d st) =
          (ESum [ONE, (visitF fuel (renameE (shiftN N d) e1) (shSt N d st)).1,
            (visitF fuel (renameE (shiftN N d) e2)
              (visitF fuel (renameE (shiftN N d) e1) (shSt N d st)).2).1,
            (cardinality (renameE (shiftN N d) e2)
              (visitF fuel (renameE (shiftN N d) e2)
                (visitF fuel (renameE (shiftN N d) e1) (shSt N d st)).2).2).1],
           (cardinality (renameE (shiftN N d) e2)
             (visitF fuel (renameE (shiftN N d) e2)
               (visitF fuel (renameE (shiftN N d) e1) (shSt N d st)).2).2).2) := by
        simp [visitF]
      have hR : visitF fuel.succ (Exp.EBinOp e1 "in" e2) st =
          (ESum [ONE, (visitF fuel e1 st).1, (visitF fuel e2 (visitF fuel e1 st).2).1,
            (cardinality e2 (visitF fuel e2 (visitF fuel e1 st).2).2).1],
           (cardinality e2 (visitF fuel e2 (visitF fuel e1 st).2).2).2) := by
        simp [visitF]
      rw [hL, ih1 h]
      dsimp only
      rw [ih2 h1]
      dsimp only
      rw [cardinality_shSt N d e2 _ h2]
      rw [hR]
      dsimp only
      rw [ESum_renameE]
      simp [renameE, ONE]
  | case12 fuel e1 op e2 st hop hcoll ih1 ih2 =>
      intro h
      have h1 : N ≤ (visitF fuel e1 st).2.counter :=
        le_trans h (visitF_counter_mono fuel e1 st)
      have h2 : N ≤ (visitF fuel e2 (visitF fuel e1 st).2).2.counter :=
        le_trans h1 (visitF_counter_mono fuel e2 _)
      have h3 : N ≤ (cardinality e1 (visitF fuel e2 (visitF fuel e1 st).2).2).2.counter :=
        le_trans h2 (cardinality_counter_mono e1 _)
      have hty : typeOf (renameE (shiftN N d) e1) = typeOf e1 := typeOf_renameE _ e1
      simp only [renameE]
      have hL : visitF fuel.succ (Exp.EBinOp (renameE (shiftN N d) e1) op
            (renameE (shiftN N d) e2)) (shSt N d st) =
          (ESum [ONE, (visitF fuel (renameE (shiftN N d) e1) (shSt N d st)).1,
            (visitF fuel (renameE (shiftN N d) e2)
              (visitF fuel (renameE (shiftN N d) e1) (shSt N d st)).2).1,
            EXTREME_COST,
            (cardinality (renameE (shiftN N d) e1)
              (visitF fuel (renameE (shiftN N d) e2)
                (visitF fuel (renameE (shiftN N d) e1) (shSt N d st)).2).2).1,
            (cardinality (renameE (shiftN N d) e2)
              (cardinality (renameE (shiftN N d) e1)
                (visitF fuel (renameE (shiftN N d) e2)
                  (visitF fuel (renameE (shiftN N d) e1) (shSt N d st)).2).2).2).1],
           (cardinality (renameE (shiftN N d) e2)
             (cardinality (renameE (shiftN N d) e1)
               (visitF fuel (renameE (shiftN N d) e2)
                 (visitF fuel (renameE (shiftN N d) e1) (shSt N d st)).2).2).2).2) := by
        simp only [visitF, if_neg hop, hty, hcoll, if_true]
      have hR : visitF fuel.succ (Exp.EBinOp e1 op e2) st =
          (ESum [ONE, (visitF fuel e1 st).1, (visitF fuel e2 (visitF fuel e1 st).2).1,
            EXTREME_COST,
            (cardinality e1 (visitF fuel e2 (visitF fuel e1 st).2).2).1,
            (cardinality e2 (cardinality e1 (visitF fuel e2 (visitF fuel e1 st).2).2).2).1],
           (cardinality e2 (cardinality e1 (visitF fuel e2 (visitF fuel e1 st).2).2).2).2) := by
        simp only [visitF, if_neg hop, hcoll, if_true]
      rw [hL, ih1 h]
      dsimp only
      rw [ih2 h1]
      dsimp only
      rw [cardinality_shSt N d e1 _ h2]
      dsimp only
      rw [cardinality_shSt N d e2 _ h3]
      rw [hR]
      dsimp only
      rw [ESum_renameE]
      simp [renameE, ONE, EXTREME_COST]
  | case13 fuel e1 op e2 st hop hcoll1 hcoll2 ih1 ih2 =>
      intro h
      have h1 : N ≤ (visitF fuel e1 st).2.counter :=
        le_trans h (visitF_counter_mono fuel e1 st)
      have h2 : N ≤ (visitF fuel e2 (visitF fuel e1 st).2).2.counter :=
        le_trans h1 (visitF_counter_mono fuel e2 _)
      have h3 : N ≤ (cardinality e1 (visitF fuel e2 (visitF fuel e1 st).2).2).2.counter :=
        le_trans h2 (cardinality_counter_mono e1 _)
      have hty : typeOf (renameE (shiftN N d) e1) = typeOf e1 := typeOf_renameE _ e1
      have hty2 : typeOf (Exp.EBinOp (renameE (shiftN N d) e1) op
          (renameE (shiftN N d) e2)) = typeOf (Exp.EBinOp e1 op e2) :=
        typeOf_renameE (shiftN N d) (Exp.EBinOp e1 op e2)
      simp only [renameE]
      have hL : visitF fuel.succ (Exp.EBinOp (renameE (shiftN N d) e1) op
            (renameE (shiftN N d) e2)) (shSt N d st) =
          (ESum [ONE, (visitF fuel (renameE (shiftN N d) e1) (shSt N d st)).1,
            (visitF fuel (renameE (shiftN N d) e2)
              (visitF fuel (renameE (shiftN N d) e1) (shSt N d st)).2).1,
            EXTREME_COST,
            (cardinality (renameE (shiftN N d) e1)
              (visitF fuel (renameE (shiftN N d) e2)
                (visitF fuel (renameE (shiftN N d) e1) (shSt N d st)).2).2).1,
            (cardinality (renameE (shiftN N d) e2)
              (cardinality (renameE (shiftN N d) e1)
                (visitF fuel (renameE (shiftN N d) e2)
                  (visitF fuel (renameE (shiftN N d) e1) (shSt N d st)).2).2).2).1],
           (cardinality (renameE (shiftN N d) e2)
             (cardinality (renameE (shiftN N d) e1)
               (visitF fuel (renameE (shiftN N d) e2)
                 (visitF fuel (renameE (shiftN N d) e1) (shSt N d st)).2).2).2).2) := by
        simp only [visitF, if_neg hop, hty, hty2, hcoll1, hcoll2, if_true,
          Bool.false_eq_true, if_false]
      have hR : visitF fuel.succ (Exp.EBinOp e1 op e2) st =
          (ESum [ONE, (visitF fuel e1 st).1, (visitF fuel e2 (visitF fuel e1 st).2).1,
            EXTREME_COST,
            (cardinality e1 (visitF fuel e2 (visitF fuel e1 st).2).2).1,
            (cardinality e2 (cardinality e1 (visitF fuel e2 (visitF fuel e1 st).2).2).2).1],
           (cardinality e2 (cardinality e1 (visitF fuel e2 (visitF fuel e1 st).2).2).2).2) := by
        simp only [visitF, if_neg hop, hcoll1, hcoll2, if_true,
          Bool.false_eq_true, if_false]
      rw [hL, ih1 h]
      dsimp only
      rw [ih2 h1]
      dsimp only
      rw [cardinality_shSt N d e1 _ h2]
      dsimp only
      rw [cardinality_shSt N d e2 _ h3]
      rw [hR]
      dsimp only
      rw [ESum_renameE]
      simp [renameE, ONE, EXTREME_COST]
  | case14 fuel e1 op e2 st hop hcoll1 hcoll2 ih1 ih2 =>
      intro h
      have h1 : N ≤ (visitF fuel e1 st).2.counter :=
        le_trans h (visitF_counter_mono fuel e1 st)
      have hty : typeOf (renameE (shiftN N d) e1) = typeOf e1 := typeOf_renameE _ e1
      have hty2 : typeOf (Exp.EBinOp (renameE (shiftN N d) e1) op
          (renameE (shiftN N d) e2)) = typeOf (Exp.EBinOp e1 op e2) :=
        typeOf_renameE (shiftN N d) (Exp.EBinOp e1 op e2)
      simp only [renameE]
      have hL : visitF fuel.succ (Exp.EBinOp (renameE (shiftN N d) e1) op
            (renameE (shiftN N d) e2)) (shSt N d st) =
          (ESum [ONE, (visitF fuel (renameE (shiftN N d) e1) (shSt N d st)).1,
            (visitF fuel (renameE (shiftN N d) e2)
              (visitF fuel (renameE (shiftN N d) e1) (shSt N d st)).2).1],
           (visitF fuel (renameE (shiftN N d) e2)
             (visitF fuel (renameE (shiftN N d) e1) (shSt N d st)).2).2) := by
        simp only [visitF, if_neg hop, hty, hty2, hcoll1, hcoll2,
          Bool.false_eq_true, if_false]
      have hR : visitF fuel.succ (Exp.EBinOp e1 op e2) st =
          (ESum [ONE, (visitF fuel e1 st).1, (visitF fuel e2 (visitF fuel e1 st).2).1],
            (visitF fuel e2 (visitF fuel e1 st).2).2) := by
        simp only [visitF, if_neg hop, hcoll1, hcoll2, Bool.false_eq_true, if_false]
      rw [hL, ih1 h]
      dsimp only
      rw [ih2 h1]
      rw [hR]
      dsimp only
      rw [ESum_renameE]
      simp [renameE, ONE]
  | case15 fuel x t b st ih =>
      intro h
      simp only [renameE]
      have hsub : substVar (shiftN N d x) (Exp.EVar (shSt N d st).counter t)
          (renameE (shiftN N d) b) =
          renameE (shiftN N d) (substVar x (Exp.EVar st.counter t) b) := by
        rw [substVar_rename (shiftN N d) (shiftN_injective N d)]
        simp [renameE, shiftN_counter N d st.counter h, shSt_counter]
      have hstate : CMState.mk (shSt N d st).cardinalities (shSt N d st).assumptions
          (shSt N d st).secondaries ((shSt N d st).counter + 1) =
          shSt N d (CMState.mk st.cardinalities st.assumptions st.secondaries
            (st.counter + 1)) := by
        simp [shSt]
        omega
      have hL : visitF fuel.succ (Exp.ELambda (shiftN N d x) t (renameE (shiftN N d) b))
            (shSt N d st) =
          visitF fuel (renameE (shiftN N d) (substVar x (Exp.EVar st.counter t) b))
            (shSt N d (CMState.mk st.cardinalities st.assumptions st.secondaries
              (st.counter + 1))) := by
        simp only [visitF]
        rw [hsub, hstate]
      have hR : visitF fuel.succ (Exp.ELambda x t b) st =
          visitF fuel (substVar x (Exp.EVar st.counter t) b)
            (CMState.mk st.cardinalities st.assumptions st.secondaries (st.counter + 1)) := by
        simp only [visitF]
      rw [hL, hR]
      exact ih (le_trans h (Nat.le_succ st.counter))
  | case16 fuel m k st ihm ihk =>
      intro h
      have h1 : N ≤ (visitF fuel m st).2.counter :=
        le_trans h (visitF_counter_mono fuel m st)
      simp only [renameE]
      have hL : visitF fuel.succ (Exp.EMapGet (renameE (shiftN N d) m)
            (renameE (shiftN N d) k)) (shSt N d st) =
          (ESum [MILD_PENALTY, (visitF fuel (renameE (shiftN N d) m) (shSt N d st)).1,
            (visitF fuel (renameE (shiftN N d) k)
              (visitF fuel (renameE (shiftN N d) m) (shSt N d st)).2).1],
           (visitF fuel (renameE (shiftN N d) k)
             (visitF fuel (renameE (shiftN N d) m) (shSt N d st)).2).2) := by
        simp [visitF]
      have hR : visitF fuel.succ (Exp.EMapGet m k) st =
          (ESum [MILD_PENALTY, (visitF fuel m st).1,
            (visitF fuel k (visitF fuel m st).2).1],
           (visitF fuel k (visitF fuel m st).2).2) := by
        simp [visitF]
      rw [hL, ihm h]
      dsimp only
      rw [ihk h1]
      rw [hR]
      dsimp only
      rw [ESum_renameE]
      simp [renameE, MILD_PENALTY]
  | case17 fuel a v st iha ihv =>
      intro h
      have h1 : N ≤ (visitF fuel a st).2.counter :=
        le_trans h (visitF_counter_mono fuel a st)
      have h2 : N ≤ (cardinality a (visitF fuel a st).2).2.counter :=
        le_trans h1 (cardinality_counter_mono a _)
      simp only [renameE]
      have hL : visitF fuel.succ (Exp.EMakeMap2 (renameE (shiftN N d) a)
            (renameE (shiftN N d) v)) (shSt N d st) =
          (ESum [EXTREME_COST, (visitF fuel (renameE (shiftN N d) a) (shSt N d st)).1,
            Exp.EBinOp (cardinality (renameE (shiftN N d) a)
                (visitF fuel (renameE (shiftN N d) a) (shSt N d st)).2).1 "*"
              (visitF fuel (renameE (shiftN N d) v)
                (cardinality (renameE (shiftN N d) a)
                  (visitF fuel (renameE (shiftN N d) a) (shSt N d st)).2).2).1],
           (visitF fuel (renameE (shiftN N d) v)
             (cardinality (renameE (shiftN N d) a)
               (visitF fuel (renameE (shiftN N d) a) (shSt N d st)).2).2).2) := by
        simp [visitF]
      have hR : visitF fuel.succ (Exp.EMakeMap2 a v) st =
          (ESum [EXTREME_COST, (visitF fuel a st).1,
            Exp.EBinOp (cardinality a (visitF fuel a st).2).1 "*"
              (visitF fuel v (cardinality a (visitF fuel a st).2).2).1],
           (visitF fuel v (cardinality a (visitF fuel a st).2).2).2) := by
        simp [visitF]
      rw [hL, iha h]
      dsimp only
      rw [cardinality_shSt N d a _ h1]
      dsimp only
      rw [ihv h2]
      rw [hR]
      dsimp only
      rw [ESum_renameE]
      simp [renameE, EXTREME_COST]
  | case18 fuel a p st iha ihp =>
      intro h
      have h1 : N ≤ (visitF fuel a st).2.counter :=
        le_trans h (visitF_counter_mono fuel a st)
      have h2 : N ≤ (cardinality a (visitF fuel a st).2).2.counter :=
        le_trans h1 (cardinality_counter_mono a _)
      simp only [renameE]
      have hL : visitF fuel.succ (Exp.EFilter (renameE (shiftN N d) a)
            (renameE (shiftN N d) p)) (shSt N d st) =
          (ESum [TWO, (visitF fuel (renameE (shiftN N d) a) (shSt N d st)).1,
            Exp.EBinOp (cardinality (renameE (shiftN N d) a)
                (visitF fuel (renameE (shiftN N d) a) (shSt N d st)).2).1 "*"
              (visitF fuel (renameE (shiftN N d) p)
                (cardinality (renameE (shiftN N d) a)
                  (visitF fuel (renameE (shiftN N d) a) (shSt N d st)).2).2).1],
           (visitF fuel (renameE (shiftN N d) p)
             (cardinality (renameE (shiftN N d) a)
               (visitF fuel (renameE (shiftN N d) a) (shSt N d st)).2).2).2) := by
        simp [visitF]
      have hR : visitF fuel.succ (Exp.EFilter a p) st =
          (ESum [TWO, (visitF fuel a st).1,
            Exp.EBinOp (cardinality a (visitF fuel a st).2).1 "*"
              (visitF fuel p (cardinality a (visitF fuel a st).2).2).1],
           (visitF fuel p (cardinality a (visitF fuel a st).2).2).2) := by
        simp [visitF]
      rw [hL, iha h]
      dsimp only
      rw [cardinality_shSt N d a _ h1]
      dsimp only
      rw [ihp h2]
      rw [hR]
      dsimp only
      rw [ESum_renameE]
      simp [renameE, TWO]
  | case19 fuel a f st iha ihf =>
      intro h
      have h1 : N ≤ (visitF fuel a st).2.counter :=
        le_trans h (visitF_counter_mono fuel a st)
      have h2 : N ≤ (cardinality a (visitF fuel a st).2).2.counter :=
        le_trans h1 (cardinality_counter_mono a _)
      simp only [renameE]
      have hL : visitF fuel.succ (Exp.EMap (renameE (shiftN N d) a)
            (renameE (shiftN N d) f)) (shSt N d st) =
          (ESum [TWO, (visitF fuel (renameE (shiftN N d) a) (shSt N d st)).1,
            Exp.EBinOp (cardinality (renameE (shiftN N d) a)
                (visitF fuel (renameE (shiftN N d) a) (shSt N d st)).2).1 "*"
              (visitF fuel (renameE (shiftN N d) f)
                (cardinality (renameE (shiftN N d) a)
                  (visitF fuel (renameE (shiftN N d) a) (shSt N d st)).2).2).1],
           (visitF fuel (renameE (shiftN N d) f)
             (cardinality (renameE (shiftN N d) a)
               (visitF fuel (renameE (shiftN N d) a) (shSt N d st)).2).2).2) := by
        simp [visitF]
      have hR : visitF fuel.succ (Exp.EMap a f) st =
          (ESum [TWO, (visitF fuel a st).1,
            Exp.EBinOp (cardinality a (visitF fuel a st).2).1 "*"
              (visitF fuel f (cardinality a (visitF fuel a st).2).2).1],
           (visitF fuel f (cardinality a (visitF fuel a st).2).2).2) := by
        simp [visitF]
      rw [hL, iha h]
      dsimp only
      rw [cardinality_shSt N d a _ h1]
      dsimp only
      rw [ihf h2]
      rw [hR]
      dsimp only
      rw [ESum_renameE]
      simp [renameE, TWO]
  | case20 fuel a f st iha ihf =>
      intro h
      have h1 : N ≤ (visitF fuel a st).2.counter :=
        le_trans h (visitF_counter_mono fuel a st)
      have h2 : N ≤ (cardinality a (visitF fuel a st).2).2.counter :=
        le_trans h1 (cardinality_counter_mono a _)
      simp only [renameE]
      have hL : visitF fuel.succ (Exp.EFlatMap (renameE (shiftN N d) a)
            (renameE (shiftN N d) f)) (shSt N d st) =
          (ESum [TWO, (visitF fuel (renameE (shiftN N d) a) (shSt N d st)).1,
            Exp.EBinOp (cardinality (renameE (shiftN N d) a)
                (visitF fuel (renameE (shiftN N d) a) (shSt N d st)).2).1 "*"
              (visitF fuel (renameE (shiftN N d) f)
                (cardinality (renameE (shiftN N d) a)
                  (visitF fuel (renameE (shiftN N d) a) (shSt N d st)).2).2).1],
           (visitF fuel (renameE (shiftN N d) f)
             (cardinality (renameE (shiftN N d) a)
               (visitF fuel (renameE (shiftN N d) a) (shSt N d st)).2).2).2) := by
        simp [visitF]
      have hR : visitF fuel.succ (Exp.EFlatMap a f) st =
          (ESum [TWO, (visitF fuel a st).1,
            Exp.EBinOp (cardinality a (visitF fuel a st).2).1 "*"
              (visitF fuel f (cardinality a (visitF fuel a st).2).2).1],
           (visitF fuel f (cardinality a (visitF fuel a st).2).2).2) := by
        simp [visitF]
      rw [hL, iha h]
      dsimp only
      rw [cardinality_shSt N d a _ h1]
      dsimp only
      rw [ihf h2]
      rw [hR]
      dsimp only
      rw [ESum_renameE]
      simp [renameE, TWO]
  | case21 fuel a f st iha ihf =>
      intro h
      have h1 : N ≤ (visitF fuel a st).2.counter :=
        le_trans h (visitF_counter_mono fuel a st)
      have h2 : N ≤ (cardinality a (visitF fuel a st).2).2.counter :=
        le_trans h1 (cardinality_counter_mono a _)
      simp only [renameE]
      have hL : visitF fuel.succ (Exp.EArgMin (renameE (shiftN N d) a)
            (renameE (shiftN N d) f)) (shSt N d st) =
          (ESum [TWO, (visitF fuel (renameE (shiftN N d) a) (shSt N d st)).1,
            Exp.EBinOp (cardinality (renameE (shiftN N d) a)
                (visitF fuel (renameE (shiftN N d) a) (shSt N d st)).2).1 "*"
              (visitF fuel (renameE (shiftN N d) f)
                (cardinality (renameE (shiftN N d) a)
                  (visitF fuel (renameE (shiftN N d) a) (shSt N d st)).2).2).1],
           (visitF fuel (renameE (shiftN N d) f)
             (cardinality (renameE (shiftN N d) a)
               (visitF fuel (renameE (shiftN N d) a) (shSt N d st)).2).2).2) := by
        simp [visitF]
      have hR : visitF fuel.succ (Exp.EArgMin a f) st =
          (ESum [TWO, (visitF fuel a st).1,
            Exp.EBinOp (cardinality a (visitF fuel a st).2).1 "*"
              (visitF fuel f (cardinality a (visitF fuel a st).2).2).1],
           (visitF fuel f (cardinality a (visitF fuel a st).2).2).2) := by
        simp [visitF]
      rw [hL, iha h]
      dsimp only
      rw [cardinality_shSt N d a _ h1]
      dsimp only
      rw [ihf h2]
      rw [hR]
      dsimp only
      rw [ESum_renameE]
      simp [renameE, TWO]
  | case22 fuel a f st iha ihf =>
      intro h
      have h1 : N ≤ (visitF fuel a st).2.counter :=
        le_trans h (visitF_counter_mono fuel a st)
      have h2 : N ≤ (cardinality a (visitF fuel a st).2).2.counter :=
        le_trans h1 (cardinality_counter_mono a _)
      simp only [renameE]
      have hL : visitF fuel.succ (Exp.EArgMax (renameE (shiftN N d) a)
            (renameE (shiftN N d) f)) (shSt N d st) =
          (ESum [TWO, (visitF fuel (renameE (shiftN N d) a) (shSt N d st)).1,
            Exp.EBinOp (cardinality (renameE (shiftN N d) a)
                (visitF fuel (renameE (shiftN N d) a) (shSt N d st)).2).1 "*"
              (visitF fuel (renameE (shiftN N d) f)
                (cardinality (renameE (shiftN N d) a)
                  (visitF fuel (renameE (shiftN N d) a) (shSt N d st)).2).2).1],
           (visitF fuel (renameE (shiftN N d) f)
             (cardinality (renameE (shiftN N d) a)
               (visitF fuel (renameE (shiftN N d) a) (shSt N d st)).2).2).2) := by
        simp [visitF]
      have hR : visitF fuel.succ (Exp.EArgMax a f) st =
          (ESum [TWO, (visitF fuel a st).1,
            Exp.EBinOp (cardinality a (visitF fuel a st).2).1 "*"
              (visitF fuel f (cardinality a (visitF fuel a st).2).2).1],
           (visitF fuel f (cardinality a (visitF fuel a st).2).2).2) := by
        simp [visitF]
      rw [hL, iha h]
      dsimp only
      rw [cardinality_shSt N d a _ h1]
      dsimp only
      rw [ihf h2]
      rw [hR]
      dsimp only
      rw [ESum_renameE]
      simp [renameE, TWO]
  | case23 fuel a st ih =>
      intro h
      have h1 : N ≤ (visitF fuel a st).2.counter :=
        le_trans h (visitF_counter_mono fuel a st)
      simp only [renameE]
      have hL : visitF fuel.succ (Exp.EDropFront (renameE (shiftN N d) a)) (shSt N d st) =
          (ESum [MILD_PENALTY, (visitF fuel (renameE (shiftN N d) a) (shSt N d st)).1,
            (cardinality (renameE (shiftN N d) a)
              (visitF fuel (renameE (shiftN N d) a) (shSt N d st)).2).1],
           (cardinality (renameE (shiftN N d) a)
             (visitF fuel (renameE (shiftN N d) a) (shSt N d st)).2).2) := by
        simp [visitF]
      have hR : visitF fuel.succ (Exp.EDropFront a) st =
          (ESum [MILD_PENALTY, (visitF fuel a st).1,
            (cardinality a (visitF fuel a st).2).1],
           (cardinality a (visitF fuel a st).2).2) := by
        simp [visitF]
      rw [hL, ih h]
      dsimp only
      rw [cardinality_shSt N d a _ h1]
      rw [hR]
      dsimp only
      rw [ESum_renameE]
      simp [renameE, MILD_PENALTY]
  | case24 fuel a st ih =>
      intro h
      have h1 : N ≤ (visitF fuel a st).2.counter :=
        le_trans h (visitF_counter_mono fuel a st)
      simp only [renameE]
      have hL : visitF fuel.succ (Exp.EDropBack (renameE (shiftN N d) a)) (shSt N d st) =
          (ESum [MILD_PENALTY, (visitF fuel (renameE (shiftN N d) a) (shSt N d st)).1,
            (cardinality (renameE (shiftN N d) a)
              (visitF fuel (renameE (shiftN N d) a) (shSt N d st)).2).1],
           (cardinality (renameE (shiftN N d) a)
             (visitF fuel (renameE (shiftN N d) a) (shSt N d st)).2).2) := by
        simp [visitF]
      have hR : visitF fuel.succ (Exp.EDropBack a) st =
          (ESum [MILD_PENALTY, (visitF fuel a st).1,
            (cardinality a (visitF fuel a st).2).1],
           (cardinality a (visitF fuel a st).2).2) := by
        simp [visitF]
      rw [hL, ih h]
      dsimp only
      rw [cardinality_shSt N d a _ h1]
      rw [hR]
      dsimp only
      rw [ESum_renameE]
      simp [renameE, MILD_PENALTY]
theorem largePass_shSt (N d : Nat) : ∀ (fvs : List (Nat × Ty)) (st : CMState),
    N ≤ st.counter → (∀ p ∈ fvs, p.1 < N) →
    largePass fvs (shSt N d st) = shSt N d (largePass fvs st) := by
  intro fvs st
  induction fvs, st using largePass.induct with
  | case1 st =>
      intro h hf
      simp [largePass]
  | case2 id ty rest st hcoll ih =>
      intro h hf
      have hid : id < N := hf (id, ty) (List.mem_cons_self _ _)
      have hvar : renameE (shiftN N d) (Exp.EVar id ty) = Exp.EVar id ty := by
        simp only [renameE, shiftN]
        rw [if_neg (by omega)]
      have hcard := cardinality_shSt N d (Exp.EVar id ty) st h
      rw [hvar] at hcard
      have hL : largePass ((id, ty) :: rest) (shSt N d st) =
          largePass rest (CMState.mk
            (cardinality (Exp.EVar id ty) (shSt N d st)).2.cardinalities
            ((cardinality (Exp.EVar id ty) (shSt N d st)).2.assumptions ++
              [gtF (cardinality (Exp.EVar id ty) (shSt N d st)).1 (Exp.ENum 1000)])
            (cardinality (Exp.EVar id ty) (shSt N d st)).2.secondaries
            (cardinality (Exp.EVar id ty) (shSt N d st)).2.counter) := by
        simp [largePass, hcoll]
      have hR : largePass ((id, ty) :: rest) st =
          largePass rest (CMState.mk
            (cardinality (Exp.EVar id ty) st).2.cardinalities
            ((cardinality (Exp.EVar id ty) st).2.assumptions ++
              [gtF (cardinality (Exp.EVar id ty) st).1 (Exp.ENum 1000)])
            (cardinality (Exp.EVar id ty) st).2.secondaries
            (cardinality (Exp.EVar id ty) st).2.counter) := by
        simp [largePass, hcoll]
      rw [hL, hcard, hR]
      dsimp only
      have hstate : CMState.mk (shSt N d (cardinality (Exp.EVar id ty) st).2).cardinalities
          ((shSt N d (cardinality (Exp.EVar id ty) st).2).assumptions ++
            [gtF (renameE (shiftN N d) (cardinality (Exp.EVar id ty) st).1) (Exp.ENum 1000)])
          (shSt N d (cardinality (Exp.EVar id ty) st).2).secondaries
          (shSt N d (cardinality (Exp.EVar id ty) st).2).counter =
          shSt N d (CMState.mk (cardinality (Exp.EVar id ty) st).2.cardinalities
            ((cardinality (Exp.EVar id ty) st).2.assumptions ++
              [gtF (cardinality (Exp.EVar id ty) st).1 (Exp.ENum 1000)])
            (cardinality (Exp.EVar id ty) st).2.secondaries
            (cardinality (Exp.EVar id ty) st).2.counter) := by
        simp [shSt, gtF, renameE, List.map_append]
      rw [hstate]
      exact ih (le_trans h (cardinality_counter_mono (Exp.EVar id ty) st))
        (fun p hp => hf p (List.mem_cons_of_mem _ hp))
  | case3 id ty rest st hcoll ih =>
      intro h hf
      have hL : largePass ((id, ty) :: rest) (shSt N d st) = largePass rest (shSt N d st) := by
        simp [largePass, hcoll]
      have hR : largePass ((id, ty) :: rest) st = largePass rest st := by
        simp [largePass, hcoll]
      rw [hL, hR]
      exact ih h (fun p hp => hf p (List.mem_cons_of_mem _ hp))

theorem cost_counter_lower (e : Exp) (pool n : Nat) : n ≤ (cost e pool n).2 := by
  unfold cost
  simp only [simple_cost_model, Bool.false_eq_true, if_false]
  split
  · dsimp only
    simp only [assume_large_cardinalities, if_true]
    exact le_trans (largePass_counter_mono (freeVars e) (CMState.mk [] [] 0 n))
      (visitF_counter_mono (sizeE e) e _)
  · exact le_refl n
theorem cost_runtime_eq (e : Exp) (n : Nat) :
    cost e RUNTIME_POOL n =
      ({ e := some (match (visitF (sizeE e) e (largePass (freeVars e)
              (CMState.mk [] [] 0 n))).2.cardinalities.getLast? with
            | some p => p.1
            | none => e),
         pool := some RUNTIME_POOL,
         formula := (visitF (sizeE e) e (largePass (freeVars e) (CMState.mk [] [] 0 n))).1,
         secondary := (visitF (sizeE e) e (largePass (freeVars e)
           (CMState.mk [] [] 0 n))).2.secondaries,
         assumptions := EAll (visitF (sizeE e) e (largePass (freeVars e)
           (CMState.mk [] [] 0 n))).2.assumptions,
         cardinalities := (visitF (sizeE e) e (largePass (freeVars e)
           (CMState.mk [] [] 0 n))).2.cardinalities.map (fun p => (p.2, p.1)) },
       (visitF (sizeE e) e (largePass (freeVars e) (CMState.mk [] [] 0 n))).2.counter) := by
  unfold cost
  simp [simple_cost_model, RUNTIME_POOL, assume_large_cardinalities, visitC]

theorem cost_runtime_shift (e : Exp) (n d : Nat) (he : ∀ i ∈ varIds e, i < n) :
    (cost e RUNTIME_POOL (n + d)).1.formula =
      renameE (shiftN n d) (cost e RUNTIME_POOL n).1.formula ∧
    (cost e RUNTIME_POOL (n + d)).1.assumptions =
      renameE (shiftN n d) (cost e RUNTIME_POOL n).1.assumptions ∧
    (cost e RUNTIME_POOL (n + d)).1.secondary = (cost e RUNTIME_POOL n).1.secondary ∧
    (cost e RUNTIME_POOL (n + d)).1.cardinalities =
      (cost e RUNTIME_POOL n).1.cardinalities.map
        (fun p => (shiftN n d p.1, renameE (shiftN n d) p.2)) ∧
    (cost e RUNTIME_POOL (n + d)).2 = (cost e RUNTIME_POOL n).2 + d := by
  have hren : renameE (shiftN n d) e = e :=
    renameE_fix _ e (fun i hi => by
      unfold shiftN
      rw [if_neg (by have := he i hi; omega)])
  have hst0 : CMState.mk [] [] (0 : Rat) (n + d) = shSt n d (CMState.mk [] [] 0 n) := by
    simp [shSt]
  have hlp : largePass (freeVars e) (shSt n d (CMState.mk [] [] 0 n)) =
      shSt n d (largePass (freeVars e) (CMState.mk [] [] 0 n)) :=
    largePass_shSt n d (freeVars e) (CMState.mk [] [] 0 n) (le_refl n)
      (freeVars_bound e n he)
  have hNlp : n ≤ (largePass (freeVars e) (CMState.mk [] [] 0 n)).counter :=
    largePass_counter_mono (freeVars e) (CMState.mk [] [] 0 n)
  have hv : visitF (sizeE e) e (shSt n d (largePass (freeVars e) (CMState.mk [] [] 0 n))) =
      (renameE (shiftN n d) (visitF (sizeE e) e (largePass (freeVars e)
        (CMState.mk [] [] 0 n))).1,
       shSt n d (visitF (sizeE e) e (largePass (freeVars e) (CMState.mk [] [] 0 n))).2) := by
    have hh := visitF_shSt n d (sizeE e) e (largePass (freeVars e) (CMState.mk [] [] 0 n)) hNlp
    rwa [hren] at hh
  rw [cost_runtime_eq e (n + d), cost_runtime_eq e n]
  dsimp only
  rw [hst0, hlp, hv]
  dsimp only
  refine ⟨rfl, (EAll_renameE _ _).symm, rfl, ?_, rfl⟩
  simp [shSt, List.map_map, Function.comp]
theorem cost_runtime_invariants (e : Exp) (n : Nat) (he : ∀ i ∈ varIds e, i < n) :
    (((cost e RUNTIME_POOL n).1.cardinalities).map Prod.fst).Nodup ∧
    (∀ p ∈ (cost e RUNTIME_POOL n).1.cardinalities,
      (n ≤ p.1 ∧ p.1 < (cost e RUNTIME_POOL n).2) ∧
      ∀ i ∈ varIds p.2, i < (cost e RUNTIME_POOL n).2) ∧
    (∀ i ∈ varIds (cost e RUNTIME_POOL n).1.formula, i < (cost e RUNTIME_POOL n).2) ∧
    (∀ i ∈ varIds (cost e RUNTIME_POOL n).1.assumptions, i < (cost e RUNTIME_POOL n).2) := by
  have hb0 : BSt n (CMState.mk [] [] 0 n) := by
    refine ⟨le_refl n, ?_, ?_, ?_⟩ <;> simp
  have hb1 : BSt n (largePass (freeVars e) (CMState.mk [] [] 0 n)) :=
    largePass_bound n (freeVars e) (CMState.mk [] [] 0 n) hb0 (freeVars_bound e n he)
  have hNlp : n ≤ (largePass (freeVars e) (CMState.mk [] [] 0 n)).counter :=
    largePass_counter_mono (freeVars e) (CMState.mk [] [] 0 n)
  obtain ⟨hb2, hfb⟩ := visitF_bound n (sizeE e) e
    (largePass (freeVars e) (CMState.mk [] [] 0 n)) hb1
    (fun i hi => lt_of_lt_of_le (he i hi) hNlp)
  obtain ⟨hc1, hc2, hc3, hc4⟩ := hb2
  rw [cost_runtime_eq e n]
  dsimp only
  refine ⟨?_, ?_, hfb, ?_⟩
  · have hmm : ∀ T : List (Exp × Nat),
        (T.map (fun p => (p.2, p.1))).map Prod.fst = T.map Prod.snd := by
      intro T
      rw [List.map_map]
      rfl
    rw [hmm]
    exact hc4
  · intro p hp
    rcases List.mem_map.mp hp with ⟨q, hq, hqe⟩
    subst hqe
    exact ⟨(hc2 q hq).1, fun i hi => (hc2 q hq).2 i hi⟩
  · intro i hi
    rcases varIds_EAll _ i hi with ⟨x, hx, hix⟩
    exact hc3 x hx i hix

theorem flatMap_map_congr {a b : Type} (f : a → a) (F G : a → List b)
    (l : List a) (h : ∀ x, F (f x) = G x) :
    (l.map f).flatMap F = l.flatMap G := by
  induction l with
  | nil => rfl
  | cons x xs ih => simp [List.flatMap_cons, h x, ih]

theorem map_flatMap_eq {a b c : Type} (g : b → c) (G : a → List b) (l : List a) :
    (l.flatMap G).map g = l.flatMap (fun x => (G x).map g) := by
  induction l with
  | nil => rfl
  | cons x xs ih => simp [List.flatMap_cons, ih]

theorem cardConds_map_rename (σ : Nat → Nat) (hinj : Function.Injective σ)
    (O : Exp → Bool) (hO : ∀ f, O (renameE σ f) = O f) (A : Exp)
    (m : List (Nat × Exp)) :
    cardConds O (renameE σ A) (m.map (fun p => (σ p.1, renameE σ p.2))) =
      (cardConds O A m).map (renameE σ) := by
  unfold cardConds
  rw [map_flatMap_eq]
  apply flatMap_map_congr
  intro p1
  rw [List.map_cons]
  rw [map_flatMap_eq]
  have hhead : geF (Exp.EVar (σ p1.1) Ty.TInt) ZERO =
      renameE σ (geF (Exp.EVar p1.1 Ty.TInt) ZERO) := by
    simp [geF, renameE, ZERO]
  rw [← hhead]
  congr 1
  apply flatMap_map_congr
  intro p2
  dsimp only
  by_cases h1 : p1.1 = p2.1
  · simp [h1]
  · have h1' : ¬σ p1.1 = σ p2.1 := fun hh => h1 (hinj hh)
    have hcle : cardinality_le O (renameE σ p1.2) (renameE σ p2.2) (renameE σ A) =
        cardinality_le O p1.2 p2.2 A := by
      unfold cardinality_le
      rw [typeOf_renameE, typeOf_renameE]
      split
      · rw [show EImplies (renameE σ A)
            (leF (ELen (renameE σ p1.2)) (ELen (renameE σ p2.2))) =
            renameE σ (EImplies A (leF (ELen p1.2) (ELen p2.2))) from by
          simp [EImplies, leF, ELen, renameE]]
        rw [hO]
      · rfl
    simp only [if_neg h1, if_neg h1', typeOf_renameE,
      alphaEquivalent_rename σ hinj, hcle, cardinality_le_implies_lt]
    split_ifs <;> simp [EEq, leF, ltF, renameE]

theorem mergeCards_disjoint : ∀ (b a : List (Nat × Exp)),
    (b.map Prod.fst).Nodup →
    (∀ p ∈ b, p.1 ∉ a.map Prod.fst) → mergeCards a b = a ++ b := by
  intro b
  induction b with
  | nil =>
      intro a _ _
      simp [mergeCards]
  | cons p rest ih =>
      intro a hnd hd
      obtain ⟨pk, pv⟩ := p
      simp only [List.map_cons, List.nodup_cons] at hnd
      have hstep : mergeCards a ((pk, pv) :: rest) = mergeCards (updAL a pk pv) rest := rfl
      rw [hstep, updAL_not_mem a pk pv (hd (pk, pv) (List.mem_cons_self _ _))]
      rw [ih (a ++ [(pk, pv)]) hnd.2 ?_]
      · simp
      intro q hq
      rw [List.map_append]
      simp only [List.mem_append, List.map_cons, List.map_nil,
        List.mem_singleton, not_or]
      refine ⟨hd q (List.mem_cons_of_mem _ hq), ?_⟩
      intro hqp
      exact hnd.1 (hqp ▸ List.mem_map.mpr ⟨q, hq, rfl⟩)

theorem semEq_query_congr (a b T X Y : Exp) (h : SemEq X Y) :
    SemEq (EImplies (EAll [a, b, X]) T) (EImplies (EAll [a, b, Y]) T) := by
  intro env
  rw [evalB_EImplies, evalB_EImplies, evalB_EAll, evalB_EAll]
  simp [h env]

theorem always_query_eq (ctx : SolverCtx) (ca cb : Cost) (A : Exp) (cards : Exp)
    (hS : ∀ f g l t, SemEq f g → ctx.S f l t = ctx.S g l t)
    (hnum : isENum ca.formula = true → numVal ca.formula = numVal cb.formula)
    (hq : ∀ l t, ctx.S (EImplies (EAll [ca.assumptions, cb.assumptions, cards])
        (Exp.EBinOp ca.formula "<=" cb.formula)) l t =
      ctx.S (EImplies (EAll [cb.assumptions, ca.assumptions, cards])
        (Exp.EBinOp cb.formula "<=" ca.formula)) l t) :
    always ctx ca cb "<=" A (some cards) = always ctx cb ca "<=" A (some cards) := by
  unfold always alwaysR
  dsimp only
  by_cases hb : (isENum ca.formula && isENum cb.formula) = true
  · have h1 : isENum ca.formula = true := by
      cases hca : isENum ca.formula
      · rw [hca, Bool.false_and] at hb
        simp at hb
      · rfl
    rw [if_pos hb, if_pos (by rwa [Bool.and_comm] at hb)]
    rw [hnum h1]
  · rw [if_neg hb, if_neg (fun hh => hb (by rwa [Bool.and_comm] at hh))]
    rw [hq "QF_LIA" 1]
    cases hres : ctx.S (EImplies (EAll [cb.assumptions, ca.assumptions, cards])
        (Exp.EBinOp cb.formula "<=" ca.formula)) "QF_LIA" 1 with
    | ok b => rfl
    | unknown =>
        have hr1 : ctx.S (relaxReal (freeVarIds cards)
            (EImplies (EAll [ca.assumptions, cb.assumptions, cards])
              (Exp.EBinOp ca.formula "<=" cb.formula))) "QF_NRA" 5 =
            ctx.S (EImplies (EAll [ca.assumptions, cb.assumptions, cards])
              (Exp.EBinOp ca.formula "<=" cb.formula)) "QF_NRA" 5 :=
          hS _ _ _ _ (fun env => evalB_relaxReal env _ _)
        have hr2 : ctx.S (relaxReal (freeVarIds cards)
            (EImplies (EAll [cb.assumptions, ca.assumptions, cards])
              (Exp.EBinOp cb.formula "<=" ca.formula))) "QF_NRA" 5 =
            ctx.S (EImplies (EAll [cb.assumptions, ca.assumptions, cards])
              (Exp.EBinOp cb.formula "<=" ca.formula)) "QF_NRA" 5 :=
          hS _ _ _ _ (fun env => evalB_relaxReal env _ _)
        rw [hr1, hq "QF_NRA" 5, ← hr2]
/-- C8: for every expression `e` (with identifiers below the fresh
counter) and every pool, comparing the `Cost` of `e` to a `Cost`
produced by a second independent call on the same `e` and pool — the
second call resumes the fresh-variable counter, so it allocates
distinct cardinality variables that `order_cardinalities` must unify
via alpha-equivalence — yields UNORDERED: both `<=` directions get the
same solver verdict and the secondaries are identical.  The external
solver is assumed to answer by the semantics of the query and to be
invariant under injective renamings of the variables, and likewise the
cardinality oracle. -/
theorem cost_self_comparison_unordered (ctx : SolverCtx) (e : Exp) (pool n : Nat)
    (he : ∀ i ∈ varIds e, i < n)
    (hS : ∀ f g l t, SemEq f g → ctx.S f l t = ctx.S g l t)
    (hSren : ∀ (ρ2 : Nat → Nat), Function.Injective ρ2 →
      ∀ f l t, ctx.S (renameE ρ2 f) l t = ctx.S f l t)
    (hOren : ∀ (ρ2 : Nat → Nat), Function.Injective ρ2 →
      ∀ f, ctx.O (renameE ρ2 f) = ctx.O f) :
    compare_to ctx (cost e pool n).1 (cost e pool (cost e pool n).2).1 ETRUE =
      Cost.UNORDERED ∧
    (cost e pool n).1.secondary = (cost e pool (cost e pool n).2).1.secondary := by
  by_cases hpool : pool = RUNTIME_POOL
  case neg =>
    have hc : cost e pool n =
        ({ e := some e, pool := some pool, formula := ZERO,
           secondary := statecost e }, n) := by
      unfold cost
      simp [simple_cost_model, hpool]
    rw [hc]
    dsimp only
    rw [hc]
    constructor
    · simp [compare_to, always, alwaysR, isENum, ZERO, numVal, cmpI]
    · rfl
  case pos =>
    subst hpool
    obtain ⟨hnd1, hbounds1, hfb1, hab1⟩ := cost_runtime_invariants e n he
    have hmono : n ≤ (cost e RUNTIME_POOL n).2 := cost_counter_lower e RUNTIME_POOL n
    obtain ⟨hF, hA, hSec, hM, hCnt⟩ :=
      cost_runtime_shift e n ((cost e RUNTIME_POOL n).2 - n) he
    rw [show n + ((cost e RUNTIME_POOL n).2 - n) = (cost e RUNTIME_POOL n).2 from by
      omega] at hF hA hSec hM hCnt
    set n1 := (cost e RUNTIME_POOL n).2 with hn1
    set dd := n1 - n with hdd
    have hn1d : n1 = n + dd := by omega
    set ρ := shiftN n dd with hρ
    set σfn := swapIds n dd with hσ
    have hσinj : Function.Injective σfn := swapIds_injective n dd
    have hσρ : ∀ i, i < n1 → σfn i = ρ i := by
      intro i hi
      rw [hσ, hρ]
      exact swapIds_eq_shiftN n dd i (by omega)
    have hcancel : ∀ i, i < n1 → σfn (ρ i) = i := by
      intro i hi
      rw [hσ, hρ]
      exact swapIds_shiftN_cancel n dd i (by omega)
    set c1 := (cost e RUNTIME_POOL n).1 with hc1
    set c2 := (cost e RUNTIME_POOL n1).1 with hc2
    have hF1ids : ∀ i ∈ varIds c1.formula, i < n1 := hfb1
    have hA1ids : ∀ i ∈ varIds c1.assumptions, i < n1 := hab1
    have hkey : ∀ p ∈ c1.cardinalities, (n ≤ p.1 ∧ p.1 < n1) ∧
        ∀ i ∈ varIds p.2, i < n1 := hbounds1
    have hρF : renameE ρ c1.formula = c2.formula := hF.symm
    have hρA : renameE ρ c1.assumptions = c2.assumptions := hA.symm
    have hσF1 : renameE σfn c1.formula = c2.formula := by
      rw [renameE_congr σfn ρ c1.formula (fun i hi => hσρ i (hF1ids i hi))]
      exact hρF
    have hσF2 : renameE σfn c2.formula = c1.formula := by
      rw [← hρF, renameE_comp]
      rw [renameE_congr (fun i => σfn (ρ i)) (fun i => i) c1.formula
        (fun i hi => hcancel i (hF1ids i hi))]
      exact renameE_id_fun _
    have hσA1 : renameE σfn c1.assumptions = c2.assumptions := by
      rw [renameE_congr σfn ρ c1.assumptions (fun i hi => hσρ i (hA1ids i hi))]
      exact hρA
    have hσA2 : renameE σfn c2.assumptions = c1.assumptions := by
      rw [← hρA, renameE_comp]
      rw [renameE_congr (fun i => σfn (ρ i)) (fun i => i) c1.assumptions
        (fun i hi => hcancel i (hA1ids i hi))]
      exact renameE_id_fun _
    have hM2 : c2.cardinalities =
        c1.cardinalities.map (fun p => (ρ p.1, renameE ρ p.2)) := hM
    have hnd2 : (c2.cardinalities.map Prod.fst).Nodup := by
      rw [hM2, List.map_map]
      have hcomp : c1.cardinalities.map
          (Prod.fst ∘ fun p => (ρ p.1, renameE ρ p.2)) =
          (c1.cardinalities.map Prod.fst).map ρ := by
        rw [List.map_map]
        rfl
      rw [hcomp]
      exact hnd1.map (shiftN_injective n dd)
    have hdisj : ∀ p ∈ c2.cardinalities, p.1 ∉ c1.cardinalities.map Prod.fst := by
      intro p hp hmem
      rw [hM2] at hp
      rcases List.mem_map.mp hp with ⟨q, hq, hqe⟩
      subst hqe
      dsimp only at hmem
      rcases List.mem_map.mp hmem with ⟨r, hr, hre⟩
      have h1 := (hkey q hq).1
      have h2 := (hkey r hr).1
      have hshift : ρ q.1 = q.1 + dd := by
        rw [hρ]
        exact shiftN_counter n dd q.1 h1.1
      omega
    have hmerge : mergeCards c1.cardinalities c2.cardinalities =
        c1.cardinalities ++ c2.cardinalities :=
      mergeCards_disjoint c2.cardinalities c1.cardinalities hnd2 hdisj
    have hswap1 : c1.cardinalities.map (fun p => (σfn p.1, renameE σfn p.2)) =
        c2.cardinalities := by
      rw [hM2]
      apply List.map_congr_left
      intro p hp
      have hb := hkey p hp
      rw [hσρ p.1 hb.1.2,
        renameE_congr σfn ρ p.2 (fun i hi => hσρ i (hb.2 i hi))]
    have hswap2 : c2.cardinalities.map (fun p => (σfn p.1, renameE σfn p.2)) =
        c1.cardinalities := by
      rw [hM2, List.map_map]
      have hcomp : c1.cardinalities.map ((fun p => (σfn p.1, renameE σfn p.2)) ∘
          (fun p => (ρ p.1, renameE ρ p.2))) =
          c1.cardinalities.map (fun p => p) := by
        apply List.map_congr_left
        intro p hp
        have hb := hkey p hp
        simp only [Function.comp]
        have h1 : σfn (ρ p.1) = p.1 := hcancel p.1 hb.1.2
        have h2 : renameE σfn (renameE ρ p.2) = p.2 := by
          rw [renameE_comp]
          rw [renameE_congr (fun i => σfn (ρ i)) (fun i => i) p.2
            (fun i hi => hcancel i (hb.2 i hi))]
          exact renameE_id_fun _
        rw [h1, h2]
      rw [hcomp]
      simp
    set cards := order_cardinalities ctx.O c1 c2 ETRUE with hcards
    have hcards_eq : cards = EAll (cardConds ctx.O ETRUE
        (c1.cardinalities ++ c2.cardinalities)) := by
      rw [hcards]
      unfold order_cardinalities
      rw [hmerge]
    have hOσ : ∀ f, ctx.O (renameE σfn f) = ctx.O f := hOren σfn hσinj
    have hcards_ren : renameE σfn cards = EAll (cardConds ctx.O ETRUE
        (c2.cardinalities ++ c1.cardinalities)) := by
      rw [hcards_eq, EAll_renameE]
      rw [← cardConds_map_rename σfn hσinj ctx.O hOσ ETRUE]
      rw [show renameE σfn ETRUE = ETRUE from rfl]
      rw [List.map_append, hswap1, hswap2]
    have hsem : SemEq (EAll (cardConds ctx.O ETRUE
        (c2.cardinalities ++ c1.cardinalities))) cards := by
      rw [hcards_eq]
      intro env
      rw [evalB_EAll, evalB_EAll]
      exact all_of_perm _ (cardConds_perm ctx.O ETRUE _ _ List.perm_append_comm)
    have hq : ∀ l t, ctx.S (EImplies (EAll [c1.assumptions, c2.assumptions, cards])
        (Exp.EBinOp c1.formula "<=" c2.formula)) l t =
      ctx.S (EImplies (EAll [c2.assumptions, c1.assumptions, cards])
        (Exp.EBinOp c2.formula "<=" c1.formula)) l t := by
      intro l t
      rw [← hSren σfn hσinj (EImplies (EAll [c1.assumptions, c2.assumptions, cards])
        (Exp.EBinOp c1.formula "<=" c2.formula)) l t]
      have hrenq : renameE σfn (EImplies (EAll [c1.assumptions, c2.assumptions, cards])
          (Exp.EBinOp c1.formula "<=" c2.formula)) =
          EImplies (EAll [c2.assumptions, c1.assumptions,
            EAll (cardConds ctx.O ETRUE (c2.cardinalities ++ c1.cardinalities))])
            (Exp.EBinOp c2.formula "<=" c1.formula) := by
        rw [show renameE σfn (EImplies (EAll [c1.assumptions, c2.assumptions, cards])
            (Exp.EBinOp c1.formula "<=" c2.formula)) =
          Exp.EBinOp (renameE σfn (EAll [c1.assumptions, c2.assumptions, cards])) "=>"
            (Exp.EBinOp (renameE σfn c1.formula) "<=" (renameE σfn c2.formula)) from rfl]
        rw [EAll_renameE]
        simp only [List.map_cons, List.map_nil]
        rw [hσA1, hσA2, hσF1, hσF2, hcards_ren]
        rfl
      rw [hrenq]
      exact hS _ _ l t (semEq_query_congr c2.assumptions c1.assumptions
        (Exp.EBinOp c2.formula "<=" c1.formula) _ cards hsem)
    have hnum : isENum c1.formula = true → numVal c1.formula = numVal c2.formula := by
      intro _
      rw [← hρF, numVal_renameE]
    have hoo : always ctx c1 c2 "<=" ETRUE (some cards) =
        always ctx c2 c1 "<=" ETRUE (some cards) :=
      always_query_eq ctx c1 c2 ETRUE cards hS hnum hq
    constructor
    · unfold compare_to
      dsimp only
      rw [← hcards]
      rw [hoo]
      cases ho2 : always ctx c2 c1 "<=" ETRUE (some cards)
      · simp [ho2]
      · simp only [ho2, Bool.not_true, Bool.and_false, Bool.false_and, Bool.and_self,
          Bool.false_eq_true, if_false]
        rw [hSec]
        simp
    · exact hSec.symm

/-- C8 witness: a free integer variable compared against its own
second-run cost under the solver that proves nothing, with the
counter starting above the variable identifier. -/
theorem cost_self_comparison_unordered_witness :
    compare_to (SolverCtx.mk (fun _ _ _ => SRes.ok false) (fun _ => false))
      (cost (Exp.EVar 0 Ty.TInt) RUNTIME_POOL 1).1
      (cost (Exp.EVar 0 Ty.TInt) RUNTIME_POOL
        (cost (Exp.EVar 0 Ty.TInt) RUNTIME_POOL 1).2).1 ETRUE = Cost.UNORDERED ∧
    (cost (Exp.EVar 0 Ty.TInt) RUNTIME_POOL 1).1.secondary =
      (cost (Exp.EVar 0 Ty.TInt) RUNTIME_POOL
        (cost (Exp.EVar 0 Ty.TInt) RUNTIME_POOL 1).2).1.secondary :=
  cost_self_comparison_unordered
    (SolverCtx.mk (fun _ _ _ => SRes.ok false) (fun _ => false))
    (Exp.EVar 0 Ty.TInt) RUNTIME_POOL 1 (by decide)
    (fun f g l t _ => rfl) (fun ρ2 _ f l t => rfl) (fun ρ2 _ f => rfl)
